import Mathlib

/-! Dual-graph state and filter engine (`script.js`).

A shallow embedding of the projection and selection logic of `script.js`.

Conventions of the embedding.

* Identifiers (person ids, edge endpoints) are strings; the empty string is the
  marker that identity resolution leaves for an unresolved name, and it is
  falsy in JavaScript.
* An edge follows the data model: `from`, `to` and `label` are strings (the
  fields `from_` and `to_`), every other field is optional (`none` is an
  absent field).
* A JavaScript array of edges holds references.  An element is modelled as an
  `EdgeRef`: the address of the object together with the object's fields.  The
  arrays that the program passes around are filters of one store, so all the
  addresses of one array are distinct; the address of a stored edge is its
  position in the store.
* `preprocessEdges` assigns `edge.smooth` on the objects it is given.  The
  functions that call it return the store with these assignments written
  back (`commit`).
* The `roundness` of an edge is an IEEE binary64 number, kept as a natural
  number of units of `2^-56`: `0.1` is the double `tenthUnits`, and a product
  or a sum is rounded to the nearest double (`roundDouble`), so that
  `0.1 + index * 0.1` is the double that JavaScript computes (at index `2` it
  is `0.30000000000000004`).
* A JavaScript object used as a dictionary is an association list of its own
  keys in insertion order.  A dictionary that is read with a free-text key (a
  name in `nameToId`, an identity in the colour table) also answers with the
  members that a plain object inherits from `Object.prototype`
  (`objectPrototypeKeys`); the dictionaries that are keyed by person ids or
  by pairs of ids are read through their own keys only.
* Where several declarations of one function exist in the file, the last one
  is in effect; a button press runs every listener registered on the button.
* A raw record (`RawEdge`) holds the keys that `convertRelationshipData` reads
  as optional JSON values, and its other keys in `rest`; the dictionary
  `nameToId` maps names to string ids, as `loadData` builds it.
* `State` holds the variables once both relationship documents have arrived.
  `Page` holds them at any time: a store that is still the initial `{}` and a
  network variable that is still `undefined` are `none`, and a listener
  returns an `Outcome`, which records whether it ended with an uncaught
  exception.  The info panels are outside both.
* A formatter of an info panel returns the content it writes (`Display`): the
  heading and the captioned lines of the template, or the message shown when
  nothing was found.  `originalData` of a visible edge is a reference to the
  stored object, so the testimony formatter reads the store at that address.
* `typedEdge` reads a resolved raw record through the data model (strings, and
  an array of strings for `accused`); `null` under a key is an absent key.
-/

namespace DualGraph

/-! ## Data model -/

/-- A person record of the people store (`peopleData[id]`). -/
structure Person where
  id : String
  /-- Field 姓名. -/
  name : Option String := none
  /-- Field 年齡. -/
  age : Option String := none
  /-- Field 種族. -/
  ethnicity : Option String := none
  /-- Field 籍貫. -/
  hometown : Option String := none
  /-- Field 親屬關係. -/
  kinship : Option String := none
  /-- Field 身份. -/
  identity : Option String := none
  /-- Field 職位. -/
  title : Option String := none
  /-- Field 下場. -/
  fate : Option String := none
  /-- Field 原文. -/
  sourceText : Option String := none
  /-- Field 資料來源. -/
  sourceRef : Option String := none
deriving DecidableEq

/-- Bend direction of a curved edge (`smooth.type`). -/
inductive BendType where
  | curvedCW
  | curvedCCW
deriving DecidableEq

/-- The curvature override `edge.smooth`. -/
structure Smooth where
  enabled : Bool
  type : BendType
  /-- The double `roundness`, in units of `2^-56`. -/
  roundness : Nat
deriving DecidableEq

/-- A resolved relationship record (the fields are those of the data model). -/
structure Edge where
  from_ : String
  to_ : String
  label : String
  text : Option String := none
  reference : Option String := none
  Text : Option String := none
  Reference : Option String := none
  Date : Option String := none
  Conclusion : Option String := none
  accuser : Option String := none
  accused : Option (List String) := none
  edgeId : Option String := none
  smooth : Option Smooth := none
deriving DecidableEq

/-- An element of an edge array: a reference to the object at `addr`, with the
object's current fields. -/
structure EdgeRef where
  addr : Nat
  obj : Edge
deriving DecidableEq

/-- JavaScript truthiness of an optional string. -/
def truthy : Option String → Bool
  | some s => s != ""
  | none => false

/-! ## Helpers of `script.js` -/

/-- The names of the members that a plain object inherits from
`Object.prototype`. -/
def objectPrototypeKeys : List String :=
  [ "constructor", "__defineGetter__", "__defineSetter__", "hasOwnProperty",
    "__lookupGetter__", "__lookupSetter__", "isPrototypeOf", "propertyIsEnumerable",
    "toString", "valueOf", "__proto__", "toLocaleString" ]

/-- A value of the `color` of a node: a colour code, or the member of
`Object.prototype` of the given name (a function, or the prototype object). -/
inductive Color where
  | code (c : String)
  | inherited (key : String)
deriving DecidableEq

/-- Node colour by identity (`getColorByIdentity`): `mapping[identity]` reads
the own keys of the table and then the members inherited from
`Object.prototype`, all of which are truthy; an absent identity reads the key
`undefined`. -/
def getColorByIdentity (identity : Option String) : Color :=
  let mapping : List (String × String) :=
    [ ("功臣", "#73a0fa"),
      ("藍玉", "#73d8fa"),
      ("功臣僕役", "#cfcfcf"),
      ("功臣親屬", "#cfcfcf"),
      ("文官", "#cfcfcf"),
      ("武官", "#fa73c4"),
      ("皇帝", "#faf573"),
      ("胡惟庸功臣", "#73fa9e"),
      ("都督", "#8e73fa"),
      ("都督僕役", "#cfcfcf"),
      ("都督親屬", "#cfcfcf") ]
  match identity with
  | some i =>
    match mapping.lookup i with
    | some c => Color.code c
    | none =>
      if objectPrototypeKeys.contains i then Color.inherited i else Color.code "#999999"
  | none => Color.code "#999999"

/-- The grouping key of `preprocessEdges`: the template string of `from`, an
underscore and `to`. -/
def edgeKey (e : Edge) : String :=
  e.from_ ++ "_" ++ e.to_

/-- One step of the grouping loop: `if (!groups[key]) groups[key] = [];`
followed by `groups[key].push(edge)`. -/
def pushGroup (groups : List (String × List EdgeRef)) (key : String) (edge : EdgeRef) :
    List (String × List EdgeRef) :=
  match groups with
  | [] => [(key, [edge])]
  | (k, g) :: rest =>
    if k = key then (k, g ++ [edge]) :: rest else (k, g) :: pushGroup rest key edge

/-- The dictionary `groups` after the first loop of `preprocessEdges`. -/
def groupEdges (edges : List EdgeRef) : List (String × List EdgeRef) :=
  edges.foldl (fun groups edge => pushGroup groups (edgeKey edge.obj) edge) []

/-- The double nearest to `0.1` (`0x1.999999999999ap-4`), in units of `2^-56`. -/
def tenthUnits : Nat := 7205759403792794

/-- The number of binary digits that do not fit in the 53-bit significand of a
value of `n` units. -/
def excessBits : Nat → Nat → Nat
  | 0, _ => 0
  | fuel + 1, n => if n < 2 ^ 53 then 0 else 1 + excessBits fuel (n / 2)

/-- Rounding of a value of `n` units of `2^-56` to the nearest double, ties to
even.  (Values of fewer than `2^53` units are doubles.) -/
def roundDouble (n : Nat) : Nat :=
  let shift := excessBits n n
  let q := n / 2 ^ shift
  let r := n % 2 ^ shift
  if 2 * r > 2 ^ shift ∨ (2 * r = 2 ^ shift ∧ q % 2 = 1) then (q + 1) * 2 ^ shift
  else q * 2 ^ shift

/-- The object literal assigned to `edge.smooth` at group position `index`;
`roundness` is `0.1 + index * 0.1` in double precision. -/
def curve (index : Nat) : Smooth :=
  { enabled := true
    type := if index % 2 = 1 then BendType.curvedCW else BendType.curvedCCW
    roundness := roundDouble (tenthUnits + roundDouble (index * tenthUnits)) }

/-- The assignment `edge.smooth = ...` for position `index` of a group. -/
def setSmooth (index : Nat) (edge : EdgeRef) : EdgeRef :=
  { edge with obj := { edge.obj with smooth := some (curve index) } }

/-- The body of the second loop of `preprocessEdges` for one group. -/
def processGroup (group : List EdgeRef) : List EdgeRef :=
  if group.length = 1 then group else group.mapIdx setSmooth

/-- The function `preprocessEdges`: the returned array, with the fields the
objects have after the call. -/
def preprocessEdges (edges : List EdgeRef) : List EdgeRef :=
  (groupEdges edges).flatMap (fun kg => processGroup kg.2)

/-! ## Identity resolution -/

/-- A JSON value as far as `convertRelationshipData` inspects it; `object` stands
for any value that is neither a primitive nor inspected (objects, nested
arrays). -/
inductive JsValue where
  | null
  | bool (b : Bool)
  | number (n : Int)
  | string (s : String)
  | object
deriving DecidableEq

/-- The value of the key `accused` of a raw record: an array of values, or a
value that is not an array. -/
inductive JsField where
  | array (items : List JsValue)
  | value (v : JsValue)
deriving DecidableEq

/-- A raw relationship record as fetched: the keys that `convertRelationshipData`
reads, each optional (`none` is an absent key), and all remaining keys. -/
structure RawEdge where
  From : Option JsValue := none
  To : Option JsValue := none
  Label : Option JsValue := none
  Text : Option JsValue := none
  Reference : Option JsValue := none
  from_ : Option JsValue := none
  to_ : Option JsValue := none
  label : Option JsValue := none
  text : Option JsValue := none
  reference : Option JsValue := none
  accuser : Option JsValue := none
  accused : Option JsField := none
  rest : List (String × JsValue) := []
deriving DecidableEq

/-- A fetched relationship document before resolution. -/
structure RawGraphData where
  nodes : Option (List Person)
  edges : List RawEdge
deriving DecidableEq

/-- The dictionary `nameToId` built by `loadData`: person name to person id. -/
abbrev NameToId := List (String × String)

/-- JavaScript truthiness of an optional value (`none` is `undefined`). -/
def truthyValue : Option JsValue → Bool
  | some (JsValue.string s) => s != ""
  | some (JsValue.number n) => n != 0
  | some (JsValue.bool b) => b
  | some JsValue.object => true
  | some JsValue.null => false
  | none => false

/-- The text of `nameToId[name].toString()` when `name` is a member inherited
from `Object.prototype`: the prototype object prints as `[object Object]`, a
function as its native source text, here with the spacing of V8
(`constructor` is the function `Object`).  The text is never empty. -/
def inheritedText (name : String) : String :=
  if name = "__proto__" then "[object Object]"
  else "function " ++ (if name = "constructor" then "Object" else name)
    ++ "() \x7b [native code] \x7d"

/-- The id written for a name: `nameToId[name].toString()` when `nameToId[name]`
is truthy, else the empty string.  `nameToId[name]` is the own entry of the
dictionary when there is one, else the member of `Object.prototype` of that
name (a truthy function or object) when there is one, else `undefined`. -/
def resolveName (nameToId : NameToId) (name : String) : String :=
  match nameToId.lookup name with
  | some id => if id != "" then id else ""
  | none => if objectPrototypeKeys.contains name then inheritedText name else ""

/-- The statement `if (edge.From && !edge.from) edge.from = edge.From`. -/
def copyFrom (edge : RawEdge) : RawEdge :=
  if truthyValue edge.From && !truthyValue edge.from_ then { edge with from_ := edge.From }
  else edge

/-- The statement `if (edge.To && !edge.to) edge.to = edge.To`. -/
def copyTo (edge : RawEdge) : RawEdge :=
  if truthyValue edge.To && !truthyValue edge.to_ then { edge with to_ := edge.To } else edge

/-- The statement `if (edge.Label && !edge.label) edge.label = edge.Label`. -/
def copyLabel (edge : RawEdge) : RawEdge :=
  if truthyValue edge.Label && !truthyValue edge.label then { edge with label := edge.Label }
  else edge

/-- The statement `if (edge.Text && !edge.text) edge.text = edge.Text`. -/
def copyText (edge : RawEdge) : RawEdge :=
  if truthyValue edge.Text && !truthyValue edge.text then { edge with text := edge.Text }
  else edge

/-- The statement `if (edge.Reference && !edge.reference) edge.reference = edge.Reference`. -/
def copyReference (edge : RawEdge) : RawEdge :=
  if truthyValue edge.Reference && !truthyValue edge.reference then
    { edge with reference := edge.Reference }
  else edge

/-- The first five statements of the callback of `convertRelationshipData`:
the capitalized keys are copied to the lowercase keys. -/
def normalizeCasing (edge : RawEdge) : RawEdge :=
  copyReference (copyText (copyLabel (copyTo (copyFrom edge))))

/-- The block `if (typeof edge.from === "string") ...`. -/
def resolveFrom (nameToId : NameToId) (edge : RawEdge) : RawEdge :=
  match edge.from_ with
  | some (JsValue.string name) =>
    { edge with from_ := some (JsValue.string (resolveName nameToId name)) }
  | _ => edge

/-- The block `if (typeof edge.to === "string") ...`. -/
def resolveTo (nameToId : NameToId) (edge : RawEdge) : RawEdge :=
  match edge.to_ with
  | some (JsValue.string name) =>
    { edge with to_ := some (JsValue.string (resolveName nameToId name)) }
  | _ => edge

/-- The block `if (edge.accuser && typeof edge.accuser === "string") ...`. -/
def resolveAccuser (nameToId : NameToId) (edge : RawEdge) : RawEdge :=
  match edge.accuser with
  | some (JsValue.string name) =>
    if name != "" then
      { edge with accuser := some (JsValue.string (resolveName nameToId name)) }
    else edge
  | _ => edge

/-- The callback of `edge.accused.map`: a string is resolved, any other item is
returned as it is. -/
def resolveItem (nameToId : NameToId) (item : JsValue) : JsValue :=
  match item with
  | JsValue.string name => JsValue.string (resolveName nameToId name)
  | other => other

/-- The block `if (edge.accused && Array.isArray(edge.accused)) ...`. -/
def resolveAccused (nameToId : NameToId) (edge : RawEdge) : RawEdge :=
  match edge.accused with
  | some (JsField.array items) =>
    { edge with accused := some (JsField.array (items.map (resolveItem nameToId))) }
  | _ => edge

/-- The callback of `data.edges.map` in `convertRelationshipData`. -/
def convertEdge (nameToId : NameToId) (edge : RawEdge) : RawEdge :=
  resolveAccused nameToId (resolveAccuser nameToId (resolveTo nameToId
    (resolveFrom nameToId (normalizeCasing edge))))

/-- The function `convertRelationshipData`. -/
def convertRelationshipData (data : RawGraphData) (nameToId : NameToId) : RawGraphData :=
  { data with edges := data.edges.map (convertEdge nameToId) }

/-! ## Degrees -/

/-- The dictionary `degreeMap`: node id to number. -/
abbrev DegreeMap := List (String × Nat)

/-- Reading `degreeMap[k]`; `none` is `undefined`. -/
def DegreeMap.get (m : DegreeMap) (k : String) : Option Nat :=
  m.lookup k

/-- The assignment `degreeMap[k] = v`. -/
def DegreeMap.set (m : DegreeMap) (k : String) (v : Nat) : DegreeMap :=
  match m with
  | [] => [(k, v)]
  | (k', v') :: rest => if k' = k then (k', v) :: rest else (k', v') :: DegreeMap.set rest k v

/-- The pair of statements `if (!degreeMap[k]) degreeMap[k] = 0; degreeMap[k]++`. -/
def DegreeMap.increment (m : DegreeMap) (k : String) : DegreeMap :=
  let m1 := if (m.get k).getD 0 = 0 then m.set k 0 else m
  m1.set k ((m1.get k).getD 0 + 1)

/-- The body of the loop of `getNodeDegrees` for one edge. -/
def countEdge (degreeMap : DegreeMap) (e : Edge) : DegreeMap :=
  let m1 := degreeMap.increment e.from_
  let m2 := m1.increment e.to_
  let m3 := if truthy e.accuser then m2.increment (e.accuser.getD "") else m2
  match e.accused with
  | some accused => accused.foldl DegreeMap.increment m3
  | none => m3

/-- The function `getNodeDegrees`. -/
def getNodeDegrees (edges : List Edge) : DegreeMap :=
  edges.foldl countEdge []

/-! ## Projections -/

/-- A node handed to the rendering backend: the person record with the
attributes the program adds. -/
structure VisNode where
  person : Person
  label : Option String
  color : Color
  value : Nat
deriving DecidableEq

/-- An edge handed to the rendering backend: a copy of the fields of the edge
(`...edge`), the `id`, and `originalData`, the address of the stored object. -/
structure VisEdge where
  edge : Edge
  id : Option String
  originalData : Nat
deriving DecidableEq

/-- The data set of a network view: `nodes` and `edges`. -/
structure Projection where
  nodes : List VisNode
  edges : List VisEdge
deriving DecidableEq

/-- A loaded relationship document: the optional `nodes` and the `edges`. -/
structure GraphData where
  nodes : Option (List Person)
  edges : List Edge
deriving DecidableEq

/-- The array `store` as JavaScript sees it: one reference per stored object,
the address being the position. -/
def refs (store : List Edge) : List EdgeRef :=
  store.mapIdx (fun i e => { addr := i, obj := e })

/-- The store after the assignments made on the objects of `objs`. -/
def commit (store : List Edge) (objs : List EdgeRef) : List Edge :=
  store.mapIdx (fun i e =>
    match objs.find? (fun o => o.addr = i) with
    | some o => o.obj
    | none => e)

/-- The node object built from a person of the people store:
`...person, label: person.姓名, color: getColorByIdentity(person.身份)`. -/
def personNode (person : Person) : VisNode :=
  { person := person, label := person.name, color := getColorByIdentity person.identity,
    value := 0 }

/-- The node object built from an element of `data.nodes`:
`...node, color: getColorByIdentity(node.身份)`. -/
def dataNode (node : Person) : VisNode :=
  { person := node, label := none, color := getColorByIdentity node.identity, value := 0 }

/-- The array `nodesArray` of `drawGraph` and `restoreTestimonyGraph`. -/
def nodesArray (peopleData : List Person) (nodes : Option (List Person)) : List VisNode :=
  match nodes with
  | some ns => ns.map dataNode
  | none => peopleData.map personNode

/-- The step `value: degreeMap[node.id] || 0`. -/
def withDegrees (degreeMap : DegreeMap) (nodes : List VisNode) : List VisNode :=
  nodes.map (fun node => { node with value := (degreeMap.get node.person.id).getD 0 })

/-- The array `edgesWithIds` of `drawGraph`: `id: edge.edgeId`. -/
def edgesWithEdgeIds (processedEdges : List EdgeRef) : List VisEdge :=
  processedEdges.map (fun r => { edge := r.obj, id := r.obj.edgeId, originalData := r.addr })

/-- The array `edgesWithIds` of the filter and restore functions:
the id is `edge.edgeId`, or `edge-` followed by the index when that is falsy. -/
def edgesWithIds (processedEdges : List EdgeRef) : List VisEdge :=
  processedEdges.mapIdx (fun index r =>
    { edge := r.obj
      id := if truthy r.obj.edgeId then r.obj.edgeId else some ("edge-" ++ toString index)
      originalData := r.addr })

/-- The projection part of `drawGraph`: the data with the assignments of
`preprocessEdges` written back, and the node and edge sets given to the
network. -/
def drawGraph (peopleData : List Person) (data : GraphData) (isTestimonyGraph : Bool) :
    GraphData × Projection :=
  let relatedIds := data.edges.flatMap (fun edge => [edge.from_, edge.to_] ++ edge.accused.getD [])
  let filteredNodes := (nodesArray peopleData data.nodes).filter
    (fun node => decide (node.person.id ∈ relatedIds))
  let processedEdges :=
    if isTestimonyGraph then preprocessEdges (refs data.edges) else refs data.edges
  let visEdges := edgesWithEdgeIds processedEdges
  let degreeMap := getNodeDegrees (visEdges.map VisEdge.edge)
  ({ data with edges := commit data.edges processedEdges },
   { nodes := withDegrees degreeMap filteredNodes, edges := visEdges })

/-- The function `filterAccusationGraphByIdentity`: the accusation store after
the call and the data given to the accusation network. -/
def filterAccusationGraphByIdentity (peopleData : List Person) (store : List Edge)
    (identity : String) : List Edge × Projection :=
  let allowedToIds := ((peopleData.filter (fun person => decide (person.identity = some identity))).map
    personNode).map (fun node => node.person.id)
  let filteredEdges := (refs store).filter (fun edge => decide (edge.obj.to_ ∈ allowedToIds))
  let processedEdges := preprocessEdges filteredEdges
  let visEdges := edgesWithIds processedEdges
  let allowedNodeIds := filteredEdges.flatMap (fun edge => [edge.obj.from_, edge.obj.to_])
  let filteredNodes := (peopleData.filter (fun person => decide (person.id ∈ allowedNodeIds))).map
    personNode
  let degreeMap := getNodeDegrees (visEdges.map VisEdge.edge)
  (commit store processedEdges, { nodes := withDegrees degreeMap filteredNodes, edges := visEdges })

/-- The function `restoreAccusationGraph`. -/
def restoreAccusationGraph (peopleData : List Person) (store : List Edge) :
    List Edge × Projection :=
  let nodes := peopleData.map personNode
  let relatedIds := store.flatMap (fun edge => [edge.from_, edge.to_] ++ edge.accused.getD [])
  let filteredNodes := nodes.filter (fun node => decide (node.person.id ∈ relatedIds))
  let processedEdges := preprocessEdges (refs store)
  let visEdges := edgesWithIds processedEdges
  let degreeMap := getNodeDegrees (visEdges.map VisEdge.edge)
  (commit store processedEdges, { nodes := withDegrees degreeMap filteredNodes, edges := visEdges })

/-- The ids that `updateTestimonyGraph` adds to `allowedNodeIds` for one edge. -/
def touchedIds (edge : Edge) : List String :=
  [edge.from_, edge.to_] ++ (if truthy edge.accuser then [edge.accuser.getD ""] else [])
    ++ edge.accused.getD []

/-- The function `updateTestimonyGraph`, given the testimony store and the
array `edgesArr` (references into that store): the store after the call and the
data given to the testimony network. -/
def updateTestimonyGraph (peopleData : List Person) (store : List Edge)
    (edgesArr : List EdgeRef) : List Edge × Projection :=
  let processedEdges := preprocessEdges edgesArr
  let visEdges := edgesWithIds processedEdges
  let allowedNodeIds := edgesArr.flatMap (fun edge => touchedIds edge.obj)
  let filteredNodes := (peopleData.filter (fun person => decide (person.id ∈ allowedNodeIds))).map
    personNode
  let degreeMap := getNodeDegrees (visEdges.map VisEdge.edge)
  (commit store processedEdges, { nodes := withDegrees degreeMap filteredNodes, edges := visEdges })

/-- The ids that `restoreTestimonyGraph` collects for one edge: the accuser when
truthy, then the accused. -/
def roleIds (edge : Edge) : List String :=
  (if truthy edge.accuser then [edge.accuser.getD ""] else []) ++ edge.accused.getD []

/-- The function `restoreTestimonyGraph` (the last declaration in the file). -/
def restoreTestimonyGraph (peopleData : List Person) (data : GraphData) :
    GraphData × Projection :=
  let relatedIds := data.edges.flatMap roleIds
  let filteredNodes := (nodesArray peopleData data.nodes).filter
    (fun node => decide (node.person.id ∈ relatedIds))
  let processedEdges := preprocessEdges (refs data.edges)
  let visEdges := edgesWithIds processedEdges
  let degreeMap := getNodeDegrees (visEdges.map VisEdge.edge)
  ({ data with edges := commit data.edges processedEdges },
   { nodes := withDegrees degreeMap filteredNodes, edges := visEdges })

/-! ## Selection state and event handlers -/

/-- The values of `testimonyRelationMode` other than `null`. -/
inductive Role where
  | accuser
  | accused
deriving DecidableEq

/-- The values of `selectedGraphType` other than `null`. -/
inductive GraphType where
  | accusation
  | testimony
deriving DecidableEq

/-- The values of `activeButton` other than `null`. -/
inductive Button where
  | accuser
  | accused
  | showAll
deriving DecidableEq

/-- The values of `testimonyDisplayMode`. -/
inductive DisplayMode where
  | normal
  | allAccusedOnly
deriving DecidableEq

/-- The variables of the page once both relationship documents are loaded, and
the data currently set on the two network views. -/
structure State where
  peopleData : List Person
  fullAccusationData : GraphData
  fullTestimonyData : GraphData
  /-- The node and edge sets shown by the accusation network. -/
  accusationGraph : Projection
  /-- The node and edge sets shown by the testimony network. -/
  testimonyGraph : Projection
  selectedPersonId : Option String
  selectedGraphType : Option GraphType
  activeButton : Option Button
  testimonyRelationMode : Option Role
  testimonyDisplayMode : DisplayMode
deriving DecidableEq

/-- The label of the filter button that stands for all labels. -/
def allLabel : String := "全部"

/-- The step of `loadData` that gives the edge at position `index` the
`edgeId` made of `edge-` and the index. -/
def assignEdgeIds (edges : List Edge) : List Edge :=
  edges.mapIdx (fun index edge => { edge with edgeId := some ("edge-" ++ toString index) })

/-- The state reached by `loadData` when both relationship documents have
arrived; `accusation` and `testimony` are the documents returned by
`convertRelationshipData`. -/
def loadData (peopleData : List Person) (accusation testimony : GraphData) : State :=
  let accusationData := { accusation with edges := assignEdgeIds accusation.edges }
  let testimonyData := { testimony with edges := assignEdgeIds testimony.edges }
  let drawnAccusation := drawGraph peopleData accusationData false
  let drawnTestimony := drawGraph peopleData testimonyData true
  { peopleData := peopleData
    fullAccusationData := drawnAccusation.1
    fullTestimonyData := drawnTestimony.1
    accusationGraph := drawnAccusation.2
    testimonyGraph := drawnTestimony.2
    selectedPersonId := none
    selectedGraphType := none
    activeButton := none
    testimonyRelationMode := none
    testimonyDisplayMode := DisplayMode.normal }

/-- The function `resetButtons` (the highlighting of the buttons is not part
of the state). -/
def resetButtons (s : State) : State :=
  { s with activeButton := none }

/-- The function `resetTestimonyGraph`: empty node and edge sets. -/
def resetTestimonyGraph (s : State) : State :=
  { s with testimonyGraph := { nodes := [], edges := [] } }

/-- The comparison `edge.accuser === selectedPersonId`. -/
def accuserIs (edge : Edge) (selectedPersonId : Option String) : Bool :=
  match edge.accuser, selectedPersonId with
  | some a, some p => a == p
  | _, _ => false

/-- The test `edge.accused && edge.accused.includes(selectedPersonId)`. -/
def accusedIncludes (edge : Edge) (selectedPersonId : Option String) : Bool :=
  match edge.accused, selectedPersonId with
  | some accused, some p => decide (p ∈ accused)
  | _, _ => false

/-- The variable `filteredEdges` of `filterTestimonyEdgesByLabelForNode` before
the call of `updateTestimonyGraph`; `none` is `undefined`. -/
def roleScopedEdges (s : State) (chosenLabel : String) : Option (List EdgeRef) :=
  let edges := refs s.fullTestimonyData.edges
  if chosenLabel = allLabel then
    match s.testimonyRelationMode with
    | some Role.accuser =>
      some (edges.filter (fun edge => accuserIs edge.obj s.selectedPersonId))
    | some Role.accused =>
      some (edges.filter (fun edge => accusedIncludes edge.obj s.selectedPersonId))
    | none => none
  else
    match s.testimonyRelationMode with
    | some Role.accuser =>
      some (edges.filter (fun edge =>
        accuserIs edge.obj s.selectedPersonId && edge.obj.label == chosenLabel))
    | some Role.accused =>
      some (edges.filter (fun edge =>
        accusedIncludes edge.obj s.selectedPersonId && edge.obj.label == chosenLabel))
    | none => none

/-- The state after `updateTestimonyGraph(edgesArr)`. -/
def showTestimony (s : State) (edgesArr : List EdgeRef) : State :=
  let r := updateTestimonyGraph s.peopleData s.fullTestimonyData.edges edgesArr
  { s with
    fullTestimonyData := { s.fullTestimonyData with edges := r.1 }
    testimonyGraph := r.2 }

/-- The function `filterTestimonyEdgesByLabelForNode`; the result is `none`
when `filteredEdges` is `undefined`, where `preprocessEdges` throws. -/
def filterTestimonyEdgesByLabelForNode (s : State) (chosenLabel : String) : Option State :=
  (roleScopedEdges s chosenLabel).map (showTestimony s)

/-- The function `filterTestimonyEdgesByLabelForAll`. -/
def filterTestimonyEdgesByLabelForAll (s : State) (chosenLabel : String) : State :=
  let filteredEdges :=
    if chosenLabel = allLabel then refs s.fullTestimonyData.edges
    else (refs s.fullTestimonyData.edges).filter (fun edge => edge.obj.label == chosenLabel)
  showTestimony s filteredEdges

/-- One run of the click listener of a `.filter-testimony-button`; a listener
that throws leaves the state as it was. -/
def labelFilterListener (chosenLabel : String) (s : State) : State :=
  if truthy s.selectedPersonId && s.testimonyRelationMode.isSome then
    (filterTestimonyEdgesByLabelForNode s chosenLabel).getD s
  else
    filterTestimonyEdgesByLabelForAll s chosenLabel

/-- One run of the click listener of `accuserButton` or `accusedButton`. -/
def roleListener (role : Role) (s : State) : State :=
  if !truthy s.selectedPersonId then s
  else
    resetTestimonyGraph
      { s with
        testimonyRelationMode := some role
        activeButton := some (match role with
          | Role.accuser => Button.accuser
          | Role.accused => Button.accused)
        testimonyDisplayMode := DisplayMode.normal }

/-- One run of the click listener of `showAllButton`. -/
def showAllListener (s : State) : State :=
  let s1 : State :=
    { s with
      selectedPersonId := none
      selectedGraphType := none
      testimonyRelationMode := none
      activeButton := some Button.showAll }
  let r := restoreTestimonyGraph s1.peopleData s1.fullTestimonyData
  { s1 with fullTestimonyData := r.1, testimonyGraph := r.2 }

/-- The click listener of a `.filter-identity-button`. -/
def identityFilterListener (identity : String) (s : State) : State :=
  if identity = allLabel then
    let r := restoreAccusationGraph s.peopleData s.fullAccusationData.edges
    { s with
      fullAccusationData := { s.fullAccusationData with edges := r.1 }
      accusationGraph := r.2 }
  else
    let r := filterAccusationGraphByIdentity s.peopleData s.fullAccusationData.edges identity
    { s with
      fullAccusationData := { s.fullAccusationData with edges := r.1 }
      accusationGraph := r.2 }

/-- A click on a node of the accusation network. -/
def clickAccusationNode (nodeId : String) (s : State) : State :=
  let s1 := resetTestimonyGraph (resetButtons
    { s with selectedPersonId := some nodeId, selectedGraphType := some GraphType.accusation })
  { s1 with testimonyRelationMode := none }

/-- A click on an edge of the accusation network. -/
def clickAccusationEdge (s : State) : State :=
  resetTestimonyGraph (resetButtons { s with selectedPersonId := none, selectedGraphType := none })

/-- A user action.  The clicks on the testimony network and on an empty
canvas only write an info panel, which is outside the state. -/
inductive Action where
  | clickAccusationNode (nodeId : String)
  | clickAccusationEdge (edgeId : String)
  | clickAccusationCanvas
  | clickTestimonyNode (nodeId : String)
  | clickTestimonyEdge (edgeId : String)
  | clickTestimonyCanvas
  | pressRole (role : Role)
  | pressShowAll
  | pressLabelFilter (chosenLabel : String)
  | pressIdentityFilter (identity : String)
deriving DecidableEq

/-- The effect of one user action: every listener registered for the event
runs, in registration order (six on a label button, two on each role button
and on the show-all button, one on an identity button). -/
def step (s : State) : Action → State
  | Action.clickAccusationNode nodeId => clickAccusationNode nodeId s
  | Action.clickAccusationEdge _ => clickAccusationEdge s
  | Action.clickAccusationCanvas => s
  | Action.clickTestimonyNode _ => s
  | Action.clickTestimonyEdge _ => s
  | Action.clickTestimonyCanvas => s
  | Action.pressRole role => Nat.iterate (roleListener role) 2 s
  | Action.pressShowAll => Nat.iterate showAllListener 2 s
  | Action.pressLabelFilter chosenLabel => Nat.iterate (labelFilterListener chosenLabel) 6 s
  | Action.pressIdentityFilter identity => identityFilterListener identity s

/-- The state after a sequence of user actions. -/
def run (s : State) (actions : List Action) : State :=
  actions.foldl step s

/-! ## The page while the documents load -/

/-- The variables of the page at any time.  A relationship store is `none` while
it still holds the initial `{}` (its document has not arrived, or its fetch
failed), so that its `edges` is `undefined`; a network is `none` while its
variable is `undefined`. -/
structure Page where
  peopleData : List Person
  fullAccusationData : Option GraphData
  fullTestimonyData : Option GraphData
  accusationGraph : Option Projection
  testimonyGraph : Option Projection
  selectedPersonId : Option String
  selectedGraphType : Option GraphType
  activeButton : Option Button
  testimonyRelationMode : Option Role
  testimonyDisplayMode : DisplayMode
deriving DecidableEq

/-- The result of running listeners: the variables afterwards, and whether a
listener ended with an uncaught exception (a `TypeError` on `undefined`). -/
structure Outcome where
  page : Page
  threw : Bool
deriving DecidableEq

/-- The variables as the declarations at the top of the script leave them. -/
def initialPage : Page :=
  { peopleData := []
    fullAccusationData := none
    fullTestimonyData := none
    accusationGraph := none
    testimonyGraph := none
    selectedPersonId := none
    selectedGraphType := none
    activeButton := none
    testimonyRelationMode := none
    testimonyDisplayMode := DisplayMode.normal }

/-- The assignment `peopleData = await fetchPeopleData()` of `loadData`. -/
def peopleArrive (peopleData : List Person) (p : Page) : Page :=
  { p with peopleData := peopleData }

/-- The `then` callback of the accusation fetch in `loadData`; `data` is the
document returned by `convertRelationshipData`.  A failed fetch runs the
`catch` callback instead, which leaves the page as it is. -/
def accusationArrives (data : GraphData) (p : Page) : Page :=
  let drawn := drawGraph p.peopleData { data with edges := assignEdgeIds data.edges } false
  { p with fullAccusationData := some drawn.1, accusationGraph := some drawn.2 }

/-- The `then` callback of the testimony fetch in `loadData`. -/
def testimonyArrives (data : GraphData) (p : Page) : Page :=
  let drawn := drawGraph p.peopleData { data with edges := assignEdgeIds data.edges } true
  { p with fullTestimonyData := some drawn.1, testimonyGraph := some drawn.2 }

/-- The page whose variables are those of a loaded state. -/
def loadedPage (s : State) : Page :=
  { peopleData := s.peopleData
    fullAccusationData := some s.fullAccusationData
    fullTestimonyData := some s.fullTestimonyData
    accusationGraph := some s.accusationGraph
    testimonyGraph := some s.testimonyGraph
    selectedPersonId := s.selectedPersonId
    selectedGraphType := s.selectedGraphType
    activeButton := s.activeButton
    testimonyRelationMode := s.testimonyRelationMode
    testimonyDisplayMode := s.testimonyDisplayMode }

/-- The function `resetTestimonyGraph` on a page: `testimonyGraph.network`
throws while `testimonyGraph` is `undefined`. -/
def pageResetTestimonyGraph (p : Page) : Outcome :=
  match p.testimonyGraph with
  | some _ => { page := { p with testimonyGraph := some { nodes := [], edges := [] } },
                threw := false }
  | none => { page := p, threw := true }

/-- The function `updateTestimonyGraph` on a page whose testimony store is
`data`: `preprocessEdges` writes the curvature on the stored objects, then
`testimonyGraph.network` throws while `testimonyGraph` is `undefined`. -/
def pageUpdateTestimonyGraph (p : Page) (data : GraphData) (edgesArr : List EdgeRef) : Outcome :=
  let r := updateTestimonyGraph p.peopleData data.edges edgesArr
  match p.testimonyGraph with
  | some _ => { page := { p with fullTestimonyData := some { data with edges := r.1 }
                                 testimonyGraph := some r.2 },
                threw := false }
  | none => { page := { p with fullTestimonyData := some { data with edges := r.1 } },
              threw := true }

/-- The function `restoreTestimonyGraph` on a page: `fullTestimonyData.edges.flatMap`
throws while the store is `{}`. -/
def pageRestoreTestimonyGraph (p : Page) : Outcome :=
  match p.fullTestimonyData with
  | none => { page := p, threw := true }
  | some data =>
    let r := restoreTestimonyGraph p.peopleData data
    match p.testimonyGraph with
    | some _ => { page := { p with fullTestimonyData := some r.1, testimonyGraph := some r.2 },
                  threw := false }
    | none => { page := { p with fullTestimonyData := some r.1 }, threw := true }

/-- The variable `filteredEdges` of `filterTestimonyEdgesByLabelForNode` on a
page whose testimony store is `data`; `none` is `undefined`. -/
def pageRoleScopedEdges (data : GraphData) (testimonyRelationMode : Option Role)
    (selectedPersonId : Option String) (chosenLabel : String) : Option (List EdgeRef) :=
  let edges := refs data.edges
  if chosenLabel = allLabel then
    match testimonyRelationMode with
    | some Role.accuser =>
      some (edges.filter (fun edge => accuserIs edge.obj selectedPersonId))
    | some Role.accused =>
      some (edges.filter (fun edge => accusedIncludes edge.obj selectedPersonId))
    | none => none
  else
    match testimonyRelationMode with
    | some Role.accuser =>
      some (edges.filter (fun edge =>
        accuserIs edge.obj selectedPersonId && edge.obj.label == chosenLabel))
    | some Role.accused =>
      some (edges.filter (fun edge =>
        accusedIncludes edge.obj selectedPersonId && edge.obj.label == chosenLabel))
    | none => none

/-- The function `filterTestimonyEdgesByLabelForNode` on a page: with a role
mode, `fullTestimonyData.edges.filter` throws while the store is `{}`; without
one, `preprocessEdges(undefined)` throws. -/
def pageFilterTestimonyEdgesByLabelForNode (p : Page) (chosenLabel : String) : Outcome :=
  match p.fullTestimonyData with
  | none => { page := p, threw := true }
  | some data =>
    match pageRoleScopedEdges data p.testimonyRelationMode p.selectedPersonId chosenLabel with
    | none => { page := p, threw := true }
    | some filteredEdges => pageUpdateTestimonyGraph p data filteredEdges

/-- The function `filterTestimonyEdgesByLabelForAll` on a page: while the store
is `{}`, `fullTestimonyData.edges` is `undefined`, on which `.filter` throws,
and which makes `edges.forEach` throw in `preprocessEdges` when the label is the
one for all. -/
def pageFilterTestimonyEdgesByLabelForAll (p : Page) (chosenLabel : String) : Outcome :=
  match p.fullTestimonyData with
  | none => { page := p, threw := true }
  | some data =>
    let filteredEdges :=
      if chosenLabel = allLabel then refs data.edges
      else (refs data.edges).filter (fun edge => edge.obj.label == chosenLabel)
    pageUpdateTestimonyGraph p data filteredEdges

/-- One run of the click listener of a `.filter-testimony-button` on a page. -/
def pageLabelFilterListener (chosenLabel : String) (p : Page) : Outcome :=
  if truthy p.selectedPersonId && p.testimonyRelationMode.isSome then
    pageFilterTestimonyEdgesByLabelForNode p chosenLabel
  else
    pageFilterTestimonyEdgesByLabelForAll p chosenLabel

/-- One run of the click listener of `accuserButton` or `accusedButton` on a
page. -/
def pageRoleListener (role : Role) (p : Page) : Outcome :=
  if !truthy p.selectedPersonId then { page := p, threw := false }
  else
    pageResetTestimonyGraph
      { p with
        testimonyRelationMode := some role
        activeButton := some (match role with
          | Role.accuser => Button.accuser
          | Role.accused => Button.accused)
        testimonyDisplayMode := DisplayMode.normal }

/-- One run of the click listener of `showAllButton` on a page. -/
def pageShowAllListener (p : Page) : Outcome :=
  pageRestoreTestimonyGraph
    { p with
      selectedPersonId := none
      selectedGraphType := none
      testimonyRelationMode := none
      activeButton := some Button.showAll }

/-- The click listener of a `.filter-identity-button` on a page:
`fullAccusationData.edges.flatMap` (in `restoreAccusationGraph`) and
`fullAccusationData.edges.filter` (in `filterAccusationGraphByIdentity`) throw
while the store is `{}`, and `accusationGraph.network` throws while
`accusationGraph` is `undefined`. -/
def pageIdentityFilterListener (identity : String) (p : Page) : Outcome :=
  match p.fullAccusationData with
  | none => { page := p, threw := true }
  | some data =>
    let r :=
      if identity = allLabel then restoreAccusationGraph p.peopleData data.edges
      else filterAccusationGraphByIdentity p.peopleData data.edges identity
    match p.accusationGraph with
    | some _ => { page := { p with fullAccusationData := some { data with edges := r.1 }
                                   accusationGraph := some r.2 },
                  threw := false }
    | none => { page := { p with fullAccusationData := some { data with edges := r.1 } },
                threw := true }

/-- A click on a node of the accusation network on a page: the statements
after `resetTestimonyGraph()` do not run when it throws. -/
def pageClickAccusationNode (nodeId : String) (p : Page) : Outcome :=
  let o := pageResetTestimonyGraph
    { p with
      selectedPersonId := some nodeId
      selectedGraphType := some GraphType.accusation
      activeButton := none }
  if o.threw then o
  else { page := { o.page with testimonyRelationMode := none }, threw := false }

/-- A click on an edge of the accusation network on a page. -/
def pageClickAccusationEdge (p : Page) : Outcome :=
  pageResetTestimonyGraph
    { p with selectedPersonId := none, selectedGraphType := none, activeButton := none }

/-- The listeners registered on one button run one after the other; an
exception in one of them does not keep the next from running. -/
def runListeners (listener : Page → Outcome) : Nat → Page → Outcome
  | 0, p => { page := p, threw := false }
  | n + 1, p =>
    let first := listener p
    let rest := runListeners listener n first.page
    { page := rest.page, threw := first.threw || rest.threw }

/-- The effect of one user action on a page.  The click listener of a network
is registered by `drawGraph`, so a click on the accusation network reaches a
listener only once `accusationGraph` is set; the clicks on the testimony
network and on an empty canvas only write an info panel. -/
def pageStep (p : Page) : Action → Outcome
  | Action.clickAccusationNode nodeId =>
    if p.accusationGraph.isSome then pageClickAccusationNode nodeId p
    else { page := p, threw := false }
  | Action.clickAccusationEdge _ =>
    if p.accusationGraph.isSome then pageClickAccusationEdge p
    else { page := p, threw := false }
  | Action.clickAccusationCanvas => { page := p, threw := false }
  | Action.clickTestimonyNode _ => { page := p, threw := false }
  | Action.clickTestimonyEdge _ => { page := p, threw := false }
  | Action.clickTestimonyCanvas => { page := p, threw := false }
  | Action.pressRole role => runListeners (pageRoleListener role) 2 p
  | Action.pressShowAll => runListeners pageShowAllListener 2 p
  | Action.pressLabelFilter chosenLabel => runListeners (pageLabelFilterListener chosenLabel) 6 p
  | Action.pressIdentityFilter identity => pageIdentityFilterListener identity p

/-! ## Info panel formatters -/

/-- The content that a formatter writes to an info panel: the heading and the
captioned lines of the template, or the message shown when nothing was found. -/
inductive Display where
  | record (heading : String) (lines : List (String × String))
  | notFound (message : String)
deriving DecidableEq

/-- The text of `value || "-"` in a template. -/
def orDash (value : Option String) : String :=
  if truthy value then value.getD "" else "-"

/-- The text of `value || ""` in a template. -/
def orEmpty (value : Option String) : String :=
  if truthy value then value.getD "" else ""

/-- The text of a value placed in a template as it is: `undefined` is written
out. -/
def templateText (value : Option String) : String :=
  match value with
  | some s => s
  | none => "undefined"

/-- The text of an element in `Array.prototype.join`: `undefined` is the empty
string. -/
def joinText (value : Option String) : String :=
  value.getD ""

/-- The lookup `peopleData[id]`. -/
def personOf (peopleData : List Person) (id : String) : Option Person :=
  peopleData.find? (fun person => person.id = id)

/-- The function `showPersonInfo` that is in effect (the declarations at lines
1217 and 1473, which are identical). -/
def showPersonInfo (peopleData : List Person) (nodeId : String) : Display :=
  match personOf peopleData nodeId with
  | some person =>
    Display.record "人物資訊"
      [ ("名字：", orEmpty person.name),
        ("年齡：", orDash person.age),
        ("種族：", orDash person.ethnicity),
        ("籍貫：", orDash person.hometown),
        ("親屬關係：", orDash person.kinship),
        ("職位：", orDash person.title),
        ("原文：", orDash person.sourceText),
        ("資料來源：", orDash person.sourceRef) ]
  | none => Display.notFound "❌ 無法找到該人物的詳細資料。"

/-- The earlier declarations of `showPersonInfo` (lines 437, 698 and 959, which
are identical); they are overridden by the later ones. -/
def showPersonInfoFirst (peopleData : List Person) (nodeId : String) : Display :=
  match personOf peopleData nodeId with
  | some person =>
    Display.record "人物資訊"
      [ ("名字：", orEmpty person.name),
        ("年齡：", orDash person.age),
        ("種族：", orDash person.ethnicity),
        ("籍貫：", orDash person.hometown),
        ("親屬關係：", orDash person.kinship),
        ("身份：", orDash person.identity),
        ("職位：", orDash person.title),
        ("下場：", orDash person.fate),
        ("原文：", orDash person.sourceText),
        ("資料來源：", orDash person.sourceRef) ]
  | none => Display.notFound "❌ 無法找到該人物的詳細資料。"

/-- The function `showAccusationEdgeInfo`: `edgesData.find(edge => edge.id === edgeId)`,
then the label of the edge found. -/
def showAccusationEdgeInfo (edgeId : String) (edgesData : List VisEdge) : Display :=
  match edgesData.find? (fun edge => edge.id == some edgeId) with
  | some edge => Display.record "指控關係資訊" [("關係類型：", orDash (some edge.edge.label))]
  | none => Display.notFound "❌ 無法找到該指控關係的詳細資訊。"

/-- The search `edgesData.find(edge => edge.id.toString() === edgeId.toString())`:
the edge found, if any; the result is `none` when the search throws, which it
does on reaching an edge whose `id` is `undefined`. -/
def findById (edgeId : String) : List VisEdge → Option (Option VisEdge)
  | [] => some none
  | edge :: rest =>
    match edge.id with
    | none => none
    | some id => if id = edgeId then some (some edge) else findById edgeId rest

/-- The variable `accuserName` of `showTestimonyEdgeInfo`. -/
def accuserName (peopleData : List Person) (orig : Edge) : String :=
  if truthy orig.accuser then
    match personOf peopleData (orig.accuser.getD "") with
    | some person => templateText person.name
    | none => "-"
  else "-"

/-- The variable `accusedNames` of `showTestimonyEdgeInfo`. -/
def accusedNames (peopleData : List Person) (orig : Edge) : String :=
  match orig.accused with
  | some accused =>
    String.intercalate "、" (accused.map (fun id =>
      match personOf peopleData id with
      | some person => joinText person.name
      | none => "-"))
  | none => ""

/-- The function `showTestimonyEdgeInfo`; `store` is the testimony store, in
which `originalData` of the edge found is looked up.  The result is `none` when
the function throws. -/
def showTestimonyEdgeInfo (peopleData : List Person) (store : List Edge) (edgeId : String)
    (edgesData : List VisEdge) : Option Display :=
  (findById edgeId edgesData).map (fun clickedEdge =>
    match clickedEdge.bind (fun edge => store[edge.originalData]?) with
    | some orig =>
      Display.record "證供關係資訊"
        [ ("關係類型：", orDash (some orig.label)),
          ("作供者：", accuserName peopleData orig),
          ("被供者：", accusedNames peopleData orig),
          ("發生日期：", orDash orig.Date),
          ("說明：", orDash orig.Conclusion),
          ("供詞原文：", orDash orig.Text),
          ("詳細內容：", orDash orig.Reference) ]
    | none => Display.notFound "❌ 無法找到該證供關係的詳細資訊。")

/-- What the click listener of the accusation network writes for a click on the
edge `edgeId`; `drawn` is the edge list of the data set made by `drawGraph`,
which the listener keeps. -/
def accusationEdgeClick (drawn : List VisEdge) (edgeId : String) : Display :=
  showAccusationEdgeInfo edgeId drawn

/-- What the click listener of the testimony network writes for a click on the
edge `edgeId` in the state `s`; `drawn` is the edge list of the data set made
by `drawGraph`, which the listener keeps. -/
def testimonyEdgeClick (drawn : List VisEdge) (s : State) (edgeId : String) : Option Display :=
  showTestimonyEdgeInfo s.peopleData s.fullTestimonyData.edges edgeId drawn

/-! ## Raw records seen through the data model -/

/-- The string under an optional key of a raw record: `some none` when the key
is absent or holds `null`, `none` when it holds a value that is not a string. -/
def stringKey : Option JsValue → Option (Option String)
  | none => some none
  | some JsValue.null => some none
  | some (JsValue.string s) => some (some s)
  | some _ => none

/-- The string under a key that the data model requires. -/
def requiredString : Option JsValue → Option String
  | some (JsValue.string s) => some s
  | _ => none

/-- The items of an array when all of them are strings. -/
def stringItems : List JsValue → Option (List String)
  | [] => some []
  | JsValue.string s :: rest => (stringItems rest).map (fun items => s :: items)
  | _ :: _ => none

/-- The value of `accused` when it is absent or an array of strings. -/
def typedAccused : Option JsField → Option (Option (List String))
  | none => some none
  | some (JsField.value JsValue.null) => some none
  | some (JsField.array items) => (stringItems items).map some
  | some (JsField.value _) => none

/-- A raw record seen through the data model: `none` when a key holds a value of
another type than the data model gives it.  The keys `Date` and `Conclusion`
are among the remaining keys of the raw record. -/
def typedEdge (raw : RawEdge) : Option Edge :=
  match requiredString raw.from_, requiredString raw.to_, requiredString raw.label,
    stringKey raw.text, stringKey raw.reference, stringKey raw.Text, stringKey raw.Reference,
    stringKey (raw.rest.lookup "Date"), stringKey (raw.rest.lookup "Conclusion"),
    stringKey raw.accuser, typedAccused raw.accused with
  | some from_, some to_, some label, some text, some reference, some capText, some capReference,
    some date, some conclusion, some accuser, some accused =>
    some { from_ := from_, to_ := to_, label := label, text := text, reference := reference,
           Text := capText, Reference := capReference, Date := date, Conclusion := conclusion,
           accuser := accuser, accused := accused }
  | _, _, _, _, _, _, _, _, _, _, _ => none

/-! ## Auxiliary definitions for the statements and proofs -/

/-- Adding a key to the list of keys seen so far. -/
def addKey (ks : List String) (k : String) : List String :=
  if k ∈ ks then ks else ks ++ [k]

/-- The keys of an edge array in order of first occurrence. -/
def keysOf (l : List EdgeRef) : List String :=
  l.foldl (fun ks o => addKey ks (edgeKey o.obj)) []

/-- The edges of an array that carry the key `k`, in array order. -/
def groupOf (l : List EdgeRef) (k : String) : List EdgeRef :=
  l.filter (fun o => edgeKey o.obj = k)

/-- The reference with the curvature override of its object removed. -/
def eraseSmooth (o : EdgeRef) : EdgeRef :=
  { o with obj := { o.obj with smooth := none } }

/-- The number of times one edge counts for node `n` in `getNodeDegrees`. -/
def occ (n : String) (e : Edge) : Nat :=
  (if e.from_ = n then 1 else 0) + (if e.to_ = n then 1 else 0)
    + (if truthy e.accuser = true ∧ e.accuser = some n then 1 else 0)
    + (e.accused.getD []).count n

/-- The value `degreeMap[k] || 0`. -/
def degreeOf (m : DegreeMap) (k : String) : Nat :=
  (m.get k).getD 0

/-- The number of occurrences of `n` in one edge: as `from`, as `to`, as
`accuser` and as an element of `accused`. -/
def occurrences (n : String) (e : Edge) : Nat :=
  (if e.from_ = n then 1 else 0) + (if e.to_ = n then 1 else 0)
    + (if e.accuser = some n then 1 else 0)
    + (e.accused.getD []).count n

/-- The id `n` occurs in the edge as `from`, `to`, `accuser` or as a member of
`accused`. -/
def Mentions (n : String) (e : Edge) : Prop :=
  e.from_ = n ∨ e.to_ = n ∨ e.accuser = some n ∨ n ∈ e.accused.getD []

instance (n : String) (e : Edge) : Decidable (Mentions n e) := by
  unfold Mentions
  infer_instance

/-- In a projection, the value of every visible node with a non-empty id is the
number of occurrences of its id over the visible edges. -/
def DegreesOverVisible (P : Projection) : Prop :=
  ∀ node ∈ P.nodes, node.person.id ≠ "" →
    node.value = (P.edges.map (fun v => occurrences node.person.id v.edge)).sum

/-- In a projection, every visible node has a value of at least one and is
mentioned by a visible edge. -/
def NoOrphan (P : Projection) : Prop :=
  ∀ node ∈ P.nodes, 1 ≤ node.value ∧ ∃ v ∈ P.edges, Mentions node.person.id v.edge

/-- Example edges: node `9` is `to` of three edges and `accuser` of one. -/
def degreeExample : List Edge :=
  [ { from_ := "1", to_ := "9", label := "A" },
    { from_ := "2", to_ := "9", label := "A" },
    { from_ := "3", to_ := "9", label := "B" },
    { from_ := "4", to_ := "5", label := "B", accuser := some "9", accused := some ["5"] } ]

/-- Example people store. -/
def examplePeople : List Person :=
  [ { id := "1", name := some "甲" }, { id := "2", name := some "乙" },
    { id := "3", name := some "丙" }, { id := "4", name := some "丁" } ]

/-- Example testimony edges. -/
def exampleTestimony : List Edge :=
  [ { from_ := "1", to_ := "2", label := "A", accuser := some "1", accused := some ["2"] },
    { from_ := "1", to_ := "2", label := "B", accuser := some "1", accused := some ["2", "3"] },
    { from_ := "3", to_ := "4", label := "A", accuser := some "3", accused := some ["4"] } ]

/-- The edges of an array that share the ordered pair `(f, t)`, in array
order. -/
def pairGroup (l : List EdgeRef) (f t : String) : List EdgeRef :=
  l.filter (fun o => decide (o.obj.from_ = f ∧ o.obj.to_ = t))

/-- The curvature that the specification gives to position `i` of a group:
counter-clockwise when `i` is even, clockwise when odd, magnitude
`0.1 + i * 0.1` (a double, in units of `2^-56`). -/
def bendAt (i : Nat) : Smooth :=
  { enabled := true
    type := if i % 2 = 0 then BendType.curvedCCW else BendType.curvedCW
    roundness := roundDouble (tenthUnits + roundDouble (i * tenthUnits)) }

/-- A group with the curvature of its position on every edge. -/
def curvedByPosition (group : List EdgeRef) : List EdgeRef :=
  group.mapIdx (fun i o => { o with obj := { o.obj with smooth := some (bendAt i) } })

/-- The curvature overrides carried by the edges of an array, in array order. -/
def curves (l : List EdgeRef) : List Smooth :=
  l.filterMap (fun o => o.obj.smooth)

/-- The statement of C8 for one edge array: every group of two or more edges
sharing an ordered pair comes out with the curvature of its positions. -/
def ParallelCurvatureByPair (l : List EdgeRef) : Prop :=
  ∀ f t : String, 2 ≤ (pairGroup l f t).length →
    pairGroup (preprocessEdges l) f t = curvedByPosition (pairGroup l f t)

/-- Three edges over two different ordered pairs that yield the same key. -/
def collidingEdges : List EdgeRef :=
  [ { addr := 0, obj := { from_ := "a_b", to_ := "c", label := "A" } },
    { addr := 1, obj := { from_ := "a", to_ := "b_c", label := "A" } },
    { addr := 2, obj := { from_ := "a_b", to_ := "c", label := "B" } } ]

/-- Three edges of the pair `(1, 2)`. -/
def threeParallel : List EdgeRef :=
  [ { addr := 0, obj := { from_ := "1", to_ := "2", label := "A" } },
    { addr := 1, obj := { from_ := "1", to_ := "2", label := "B" } },
    { addr := 2, obj := { from_ := "1", to_ := "2", label := "C" } } ]

/-- The grouping key of an edge together with its curvature override. -/
def keyedCurve (o : EdgeRef) : String × Option Smooth :=
  (edgeKey o.obj, o.obj.smooth)

/-- Two edges of one ordered pair, used to show the dependence on input order. -/
def parallelA : EdgeRef :=
  { addr := 0, obj := { from_ := "1", to_ := "2", label := "A" } }

/-- The second edge of the pair of `parallelA`. -/
def parallelB : EdgeRef :=
  { addr := 1, obj := { from_ := "1", to_ := "2", label := "B" } }

/-- The edge with its curvature override removed. -/
def clearSmooth (e : Edge) : Edge :=
  { e with smooth := none }

/-- The role condition of the role-scoped filter: the person is the accuser of
the edge, or is among its accused. -/
def RoleCondition (role : Role) (P : String) (e : Edge) : Prop :=
  match role with
  | Role.accuser => e.accuser = some P
  | Role.accused => P ∈ e.accused.getD []

instance (role : Role) (P : String) (e : Edge) : Decidable (RoleCondition role P e) := by
  unfold RoleCondition
  cases role <;> infer_instance

/-- The label condition of a label filter: the label of the button is the one
that stands for all labels, or it is the label of the edge. -/
def LabelCondition (L : String) (e : Edge) : Prop :=
  L = allLabel ∨ e.label = L

instance (L : String) (e : Edge) : Decidable (LabelCondition L e) := by
  unfold LabelCondition
  infer_instance

/-- The state reached by loading the example people and, for both graphs, the
example testimony edges. -/
def exampleState : State :=
  loadData examplePeople { nodes := none, edges := exampleTestimony }
    { nodes := none, edges := exampleTestimony }

/-- A testimony document with one edge whose accuser is neither endpoint. -/
def accuserApartTestimony : GraphData :=
  { nodes := none
    edges := [ { from_ := "1", to_ := "2", label := "A", accuser := some "3",
                 accused := some ["2"] } ] }

/-- The state loaded from the example people, no accusation edge and the
document `accuserApartTestimony`. -/
def accuserApartState : State :=
  loadData examplePeople { nodes := none, edges := [] } accuserApartTestimony

/-- Two versions of a store that hold the same edges up to curvature and agree
on the curvature of every edge that is alone on its grouping key. -/
def StoreSim (st st' : List Edge) : Prop :=
  st.map clearSmooth = st'.map clearSmooth
  ∧ ∀ (i : Nat) (e e' : Edge), st[i]? = some e → st'[i]? = some e' →
      (st.filter (fun x => decide (edgeKey x = edgeKey e))).length = 1 → e.smooth = e'.smooth

/-- Two states with the same people, the same testimony nodes and testimony
stores related by `StoreSim`. -/
def Sim (t u : State) : Prop :=
  t.peopleData = u.peopleData
  ∧ t.fullTestimonyData.nodes = u.fullTestimonyData.nodes
  ∧ StoreSim t.fullTestimonyData.edges u.fullTestimonyData.edges

/-- Two states that agree on everything the testimony handlers read or show:
the people, the testimony document, the selected person, the role mode and the
testimony projection. -/
def Agree (t u : State) : Prop :=
  t.peopleData = u.peopleData
  ∧ t.fullTestimonyData = u.fullTestimonyData
  ∧ t.selectedPersonId = u.selectedPersonId
  ∧ t.testimonyRelationMode = u.testimonyRelationMode
  ∧ t.testimonyGraph = u.testimonyGraph

/-- The distinct elements of a list of keys, in order of first occurrence. -/
def firstKeys : List String → List String
  | [] => []
  | k :: ks => k :: (firstKeys ks).filter (fun x => decide (x ≠ k))

/-- Two elements of an edge array are put in the same group by the grouping
loop of `preprocessEdges`. -/
def SameGroup (l : List EdgeRef) (o1 o2 : EdgeRef) : Prop :=
  ∃ kg ∈ groupEdges l, o1 ∈ kg.2 ∧ o2 ∈ kg.2

instance (l : List EdgeRef) (o1 o2 : EdgeRef) : Decidable (SameGroup l o1 o2) := by
  unfold SameGroup
  infer_instance

/-- The statement of C12 for one edge array: two elements are in the same group
exactly when they have the same `from` and the same `to`. -/
def GroupsByPair (l : List EdgeRef) : Prop :=
  ∀ o1 ∈ l, ∀ o2 ∈ l,
    SameGroup l o1 o2 ↔ (o1.obj.from_ = o2.obj.from_ ∧ o1.obj.to_ = o2.obj.to_)

/-- The state `t` holds the same people and the same two relationship documents
as `s`, except for the curvature of stored edges that share their grouping key
with another edge of the same store. -/
def Frame (s t : State) : Prop :=
  s.peopleData = t.peopleData
  ∧ s.fullAccusationData.nodes = t.fullAccusationData.nodes
  ∧ StoreSim s.fullAccusationData.edges t.fullAccusationData.edges
  ∧ s.fullTestimonyData.nodes = t.fullTestimonyData.nodes
  ∧ StoreSim s.fullTestimonyData.edges t.fullTestimonyData.edges

/-- Testimony edges with three edges on the pair `(1, 2)`: person `3` is among the
accused of the last two only, and only the second edge has the label `B`. -/
def staleTestimony : List Edge :=
  [ { from_ := "1", to_ := "2", label := "A", accuser := some "1", accused := some ["2"] },
    { from_ := "1", to_ := "2", label := "B", accuser := some "1", accused := some ["2", "3"] },
    { from_ := "1", to_ := "2", label := "A", accuser := some "1", accused := some ["3"] } ]

/-- The state loaded from the example people, the example edges as accusation
edges and `staleTestimony` as testimony edges. -/
def staleState : State :=
  loadData examplePeople { nodes := none, edges := exampleTestimony }
    { nodes := none, edges := staleTestimony }

/-- A visible edge with the curvature of its copied fields removed; the id and
the reference to the stored edge are kept. -/
def stripCurvature (v : VisEdge) : VisEdge :=
  { v with edge := clearSmooth v.edge }

/-- The action of pressing the identity button for all identities, which calls
`restoreAccusationGraph`. -/
def restoreAccusation : Action :=
  Action.pressIdentityFilter allLabel

/-- The number read from a list of decimal digit characters, continuing from
the value `acc`. -/
def digitsValue (acc : Nat) (cs : List Char) : Nat :=
  cs.foldl (fun a c => a * 10 + (c.toNat - 48)) acc

/-- Every stored edge carries the `edgeId` made of `edge-` and its position. -/
def StoreIds (st : List Edge) : Prop :=
  ∀ (i : Nat) (e : Edge), st[i]? = some e → e.edgeId = some ("edge-" ++ toString i)

/-- Every visible edge of the projection refers to a stored edge and has the
`edgeId` of that stored edge as its id, and no two visible edges refer to the
same stored edge. -/
def VisibleIds (st : List Edge) (P : Projection) : Prop :=
  (∀ v ∈ P.edges, ∃ e, st[v.originalData]? = some e ∧ v.id = e.edgeId
      ∧ v.edge.edgeId = e.edgeId)
  ∧ (P.edges.map VisEdge.originalData).Nodup

/-- The invariant of stable edge ids for both graphs of a state. -/
def StableIds (s : State) : Prop :=
  StoreIds s.fullAccusationData.edges
  ∧ StoreIds s.fullTestimonyData.edges
  ∧ VisibleIds s.fullAccusationData.edges s.accusationGraph
  ∧ VisibleIds s.fullTestimonyData.edges s.testimonyGraph

/-- What C20 states for one graph: every visible edge has the id `edge-i` of the
stored edge at position `i` it refers to, which is the `edgeId` of that stored
edge, and no two visible edges share an id. -/
def IdsAreIngestionIds (st : List Edge) (P : Projection) : Prop :=
  (∀ v ∈ P.edges, v.id = some ("edge-" ++ toString v.originalData)
      ∧ ∃ e, st[v.originalData]? = some e ∧ e.edgeId = v.id)
  ∧ (P.edges.map VisEdge.id).Nodup

/-- The value that casing normalisation leaves under a lowercase key, given the
values under the capitalized and the lowercase key: the capitalized value when
it is truthy and the lowercase value is falsy (absent or empty), else the
lowercase value. -/
def pickCasing (capitalized lowercase : Option JsValue) : Option JsValue :=
  if truthyValue capitalized && !truthyValue lowercase then capitalized else lowercase

/-- The value of `from` or `to` after resolution. -/
def resolveValue (nameToId : NameToId) (v : Option JsValue) : Option JsValue :=
  match v with
  | some (JsValue.string name) => some (JsValue.string (resolveName nameToId name))
  | other => other

/-- The value of `accuser` after resolution. -/
def resolveAccuserValue (nameToId : NameToId) (v : Option JsValue) : Option JsValue :=
  match v with
  | some (JsValue.string name) =>
    if name != "" then some (JsValue.string (resolveName nameToId name)) else v
  | other => other

/-- The value of `accused` after resolution. -/
def resolveAccusedValue (nameToId : NameToId) (v : Option JsField) : Option JsField :=
  match v with
  | some (JsField.array items) => some (JsField.array (items.map (resolveItem nameToId)))
  | other => other

/-- The value `v` is the resolution of `name`: the id of the entry of `name` in
the map when there is one; without entry, the empty unresolved marker when
`name` is not the name of a member of `Object.prototype`, and the text of that
member when it is. -/
def ResolvedAs (nameToId : NameToId) (name : String) (v : Option JsValue) : Prop :=
  (∀ id, nameToId.lookup name = some id → v = some (JsValue.string id))
  ∧ (nameToId.lookup name = none → objectPrototypeKeys.contains name = false →
      v = some (JsValue.string ""))
  ∧ (nameToId.lookup name = none → objectPrototypeKeys.contains name = true →
      v = some (JsValue.string (inheritedText name)))

/-- Example name-to-id map. -/
def exampleNames : NameToId :=
  [("甲", "1"), ("乙", "2")]

/-- Example raw record of which the names are those of members of
`Object.prototype`; none of them is in `exampleNames`. -/
def inheritedRaw : RawEdge :=
  { from_ := some (JsValue.string "constructor"), to_ := some (JsValue.string "toString"),
    label := some (JsValue.string "A"), accuser := some (JsValue.string "__proto__"),
    accused := some (JsField.array [JsValue.string "乙", JsValue.string "valueOf",
                                    JsValue.string "丁"]) }

/-- Example raw record that carries `from` and `label` under both casings, with
empty lowercase values. -/
def bothCasingsRaw : RawEdge :=
  { From := some (JsValue.string "甲"), from_ := some (JsValue.string ""),
    To := some (JsValue.string "乙"),
    Label := some (JsValue.string "A"), label := some (JsValue.string "") }

/-- Example raw record: the `from` name is not in `exampleNames`. -/
def exampleRaw : RawEdge :=
  { From := some (JsValue.string "丙"), To := some (JsValue.string "乙"),
    Label := some (JsValue.string "A"), accuser := some (JsValue.string "甲"),
    accused := some (JsField.array [JsValue.string "乙", JsValue.string "丁"]),
    rest := [("Date", JsValue.string "1393")] }

/-- The state reached from the example state by clicking person `1` in the
accusation graph, pressing the accuser button and pressing the label filter for
all labels: a role is chosen and the testimony graph shows the two edges of
which `1` is the accuser. -/
def roleChosenState : State :=
  run exampleState [Action.clickAccusationNode "1", Action.pressRole Role.accuser,
    Action.pressLabelFilter allLabel]

/-- The states of the selection state machine of the specification. -/
inductive Phase where
  | idle
  | personSelected
  | roleChosen
deriving DecidableEq

/-- The state of the specification's machine that a state of the page is in: `Idle`
while no person is selected, `PersonSelected` while a person is selected and no
role is chosen, `RoleChosen` while a person is selected and a role is chosen. -/
def phase (s : State) : Phase :=
  if truthy s.selectedPersonId then
    if s.testimonyRelationMode.isSome then Phase.roleChosen else Phase.personSelected
  else Phase.idle

/-- The value of `activeButton` that a role button sets. -/
def roleButton : Role → Button
  | Role.accuser => Button.accuser
  | Role.accused => Button.accused

/-- The state reached from the example state by clicking person `4` in the
accusation graph and pressing the accuser button; person `4` is the accuser of
no testimony edge. -/
def noEdgeState : State :=
  run exampleState [Action.clickAccusationNode "4", Action.pressRole Role.accuser]

/-- The page on which the people and the accusation document have arrived and
the testimony fetch has failed. -/
def testimonyFailedPage : Page :=
  accusationArrives { nodes := none, edges := exampleTestimony }
    (peopleArrive examplePeople initialPage)

/-- A state with the role mode reset to `null`. -/
def forgetMode (s : State) : State :=
  { s with testimonyRelationMode := none }

/-- Two states that are equal, or that differ in the role mode only while no
person is selected. -/
def SameButMode (t u : State) : Prop :=
  u = t ∨ (truthy t.selectedPersonId = false ∧ u = forgetMode t)

/-- The eleven identities listed in the colour table. -/
def listedIdentities : List String :=
  ["功臣", "藍玉", "功臣僕役", "功臣親屬", "文官", "武官", "皇帝", "胡惟庸功臣", "都督", "都督僕役",
   "都督親屬"]

/-- The content is the message shown when nothing was found. -/
def Display.isNotFound : Display → Bool
  | Display.notFound _ => true
  | Display.record _ _ => false

/-- The lines of a display record (none for the not-found message). -/
def Display.lines : Display → List (String × String)
  | Display.record _ ls => ls
  | Display.notFound _ => []

/-- A display with the lines for identity (身份) and fate (下場) removed. -/
def dropIdentityAndFate : Display → Display
  | Display.record heading ls =>
    Display.record heading (ls.filter (fun l => l.1 != "身份：" && l.1 != "下場："))
  | Display.notFound message => Display.notFound message

/-- A people store whose first person has an identity and a fate. -/
def storiedPeople : List Person :=
  [ { id := "1", name := some "甲", identity := some "功臣", fate := some "誅" },
    { id := "2", name := some "乙" }, { id := "3" } ]

/-- A raw testimony record that carries its text and reference under the
lowercase keys. -/
def lowercaseRecord : RawEdge :=
  { from_ := some (JsValue.string "甲"), to_ := some (JsValue.string "乙"),
    label := some (JsValue.string "A"), text := some (JsValue.string "供詞"),
    reference := some (JsValue.string "出處"), accuser := some (JsValue.string "甲"),
    accused := some (JsField.array [JsValue.string "乙"]) }

/-- The same record with its text and reference under the capitalized keys. -/
def capitalizedRecord : RawEdge :=
  { from_ := some (JsValue.string "甲"), to_ := some (JsValue.string "乙"),
    label := some (JsValue.string "A"), Text := some (JsValue.string "供詞"),
    Reference := some (JsValue.string "出處"), accuser := some (JsValue.string "甲"),
    accused := some (JsField.array [JsValue.string "乙"]) }

/-- What a click on the testimony edge shows after the load of a testimony
document whose only record is `raw`, resolved with the example names; `none`
when the record does not fit the data model or the formatter throws. -/
def shownForRecord (raw : RawEdge) : Option Display :=
  (typedEdge (convertEdge exampleNames raw)).bind (fun e =>
    testimonyEdgeClick
      (loadData examplePeople { nodes := none, edges := [] }
        { nodes := none, edges := [e] }).testimonyGraph.edges
      (loadData examplePeople { nodes := none, edges := [] } { nodes := none, edges := [e] })
      "edge-0")

/-- The edge points to a person of the store whose identity is `X`. -/
def TargetsIdentity (peopleData : List Person) (X : String) (e : Edge) : Prop :=
  ∃ p ∈ peopleData, p.id = e.to_ ∧ p.identity = some X

instance (peopleData : List Person) (X : String) (e : Edge) :
    Decidable (TargetsIdentity peopleData X e) := by
  unfold TargetsIdentity
  infer_instance

/-- The person is the `from` or the `to` endpoint of a stored edge that points to
a person of identity `X`. -/
def EndpointOfTargeting (peopleData : List Person) (store : List Edge) (X : String)
    (p : Person) : Prop :=
  ∃ e ∈ store, TargetsIdentity peopleData X e ∧ (e.from_ = p.id ∨ e.to_ = p.id)

instance (peopleData : List Person) (store : List Edge) (X : String) (p : Person) :
    Decidable (EndpointOfTargeting peopleData store X p) := by
  unfold EndpointOfTargeting
  infer_instance

/-- People of mixed identities and accusation edges among them. -/
def identityPeople : List Person :=
  [ { id := "1", name := some "甲", identity := some "功臣" },
    { id := "2", name := some "乙", identity := some "文官" },
    { id := "3", name := some "丙", identity := some "功臣" },
    { id := "4", name := some "丁", identity := some "武官" } ]

/-- Accusation edges among `identityPeople`: two point to a 功臣. -/
def identityEdges : List Edge :=
  [ { from_ := "2", to_ := "1", label := "A", edgeId := some "edge-0" },
    { from_ := "1", to_ := "2", label := "A", edgeId := some "edge-1" },
    { from_ := "4", to_ := "3", label := "B", edgeId := some "edge-2" } ]

/-- The testimony document has arrived and the testimony network is drawn. -/
def TestimonyLoaded (p : Page) : Prop :=
  p.fullTestimonyData.isSome = true ∧ p.testimonyGraph.isSome = true

instance (p : Page) : Decidable (TestimonyLoaded p) := by
  unfold TestimonyLoaded
  infer_instance

/-- Edges of which twelve share the pair `(1, 2)`. -/
def twelveParallel : List EdgeRef :=
  (List.range 12).map (fun i =>
    { addr := i, obj := { from_ := "1", to_ := "2", label := "A" } })

/-- The test that the listener of a label button applies to the stored
testimony edges, given the selected person, the role mode and the label. -/
def listenerFilter (selectedPersonId : Option String) (mode : Option Role) (L : String)
    (e : Edge) : Bool :=
  if truthy selectedPersonId && mode.isSome then
    match mode with
    | some Role.accuser =>
      accuserIs e selectedPersonId && (decide (L = allLabel) || e.label == L)
    | some Role.accused =>
      accusedIncludes e selectedPersonId && (decide (L = allLabel) || e.label == L)
    | none => false
  else decide (L = allLabel) || e.label == L

/-- Every visible edge of the projection is, up to curvature, a copy of the
stored edge it refers to. -/
def VisibleData (st : List Edge) (P : Projection) : Prop :=
  ∀ v ∈ P.edges, (st.map clearSmooth)[v.originalData]? = some (clearSmooth v.edge)

/-- In both graphs of a state, the visible edges are copies of the stored edges
they refer to. -/
def VisibleDataInv (s : State) : Prop :=
  VisibleData s.fullAccusationData.edges s.accusationGraph
  ∧ VisibleData s.fullTestimonyData.edges s.testimonyGraph

/-- The display record of the data of a testimony edge. -/
def testimonyRecord (peopleData : List Person) (e : Edge) : Display :=
  Display.record "證供關係資訊"
    [ ("關係類型：", orDash (some e.label)),
      ("作供者：", accuserName peopleData e),
      ("被供者：", accusedNames peopleData e),
      ("發生日期：", orDash e.Date),
      ("說明：", orDash e.Conclusion),
      ("供詞原文：", orDash e.Text),
      ("詳細內容：", orDash e.Reference) ]

/-- The display record of the data of an accusation edge. -/
def accusationRecord (e : Edge) : Display :=
  Display.record "指控關係資訊" [("關係類型：", orDash (some e.label))]

/-! ## Lemmas and theorems -/

theorem keysOf_snoc (l : List EdgeRef) (e : EdgeRef) :
    keysOf (l ++ [e]) = addKey (keysOf l) (edgeKey e.obj) := by
  simp [keysOf, List.foldl_append]

theorem groupEdges_snoc (l : List EdgeRef) (e : EdgeRef) :
    groupEdges (l ++ [e]) = pushGroup (groupEdges l) (edgeKey e.obj) e := by
  simp [groupEdges, List.foldl_append]

theorem groupOf_snoc (l : List EdgeRef) (e : EdgeRef) (k : String) :
    groupOf (l ++ [e]) k = if edgeKey e.obj = k then groupOf l k ++ [e] else groupOf l k := by
  by_cases h : edgeKey e.obj = k <;> simp [groupOf, List.filter_append, List.filter_cons, h]

theorem mem_keysOf (l : List EdgeRef) :
    ∀ k : String, k ∈ keysOf l ↔ ∃ o ∈ l, edgeKey o.obj = k := by
  induction l using List.reverseRecOn with
  | nil => simp [keysOf]
  | append_singleton l e ih =>
    intro k
    rw [keysOf_snoc]
    by_cases h : edgeKey e.obj ∈ keysOf l
    · simp only [addKey, h, if_true, ih, List.mem_append, List.mem_singleton]
      constructor
      · rintro ⟨o, ho, rfl⟩
        exact ⟨o, Or.inl ho, rfl⟩
      · rintro ⟨o, ho | rfl, rfl⟩
        · exact ⟨o, ho, rfl⟩
        · exact (ih _).1 h
    · simp only [addKey, h, if_false, List.mem_append, List.mem_singleton, ih]
      constructor
      · rintro (⟨o, ho, rfl⟩ | rfl)
        · exact ⟨o, Or.inl ho, rfl⟩
        · exact ⟨e, Or.inr rfl, rfl⟩
      · rintro ⟨o, ho | rfl, rfl⟩
        · exact Or.inl ⟨o, ho, rfl⟩
        · exact Or.inr rfl

theorem keysOf_nodup (l : List EdgeRef) : (keysOf l).Nodup := by
  induction l using List.reverseRecOn with
  | nil => simp [keysOf]
  | append_singleton l e ih =>
    rw [keysOf_snoc]
    by_cases h : edgeKey e.obj ∈ keysOf l
    · simpa [addKey, h] using ih
    · simp only [addKey, h, if_false]
      rw [List.nodup_append]
      refine ⟨ih, List.nodup_singleton _, ?_⟩
      intro a ha hb
      simp only [List.mem_singleton] at hb
      subst hb
      exact h ha

theorem groupOf_eq_nil_of_not_mem (l : List EdgeRef) (k : String) (h : k ∉ keysOf l) :
    groupOf l k = [] := by
  rw [groupOf, List.filter_eq_nil_iff]
  intro o ho hk
  exact h ((mem_keysOf l k).2 ⟨o, ho, by simpa using hk⟩)

theorem pushGroup_map (l : List EdgeRef) (e : EdgeRef) (ks : List String) (hnd : ks.Nodup)
    (hnew : edgeKey e.obj ∉ ks → groupOf l (edgeKey e.obj) = []) :
    pushGroup (ks.map (fun k => (k, groupOf l k))) (edgeKey e.obj) e
      = (addKey ks (edgeKey e.obj)).map (fun k => (k, groupOf (l ++ [e]) k)) := by
  induction ks with
  | nil =>
    have h0 := hnew (by simp)
    simp [pushGroup, addKey, groupOf_snoc, h0]
  | cons k1 rest ih =>
    have hk1 : k1 ∉ rest := (List.nodup_cons.1 hnd).1
    have hrest : rest.Nodup := (List.nodup_cons.1 hnd).2
    by_cases hk : k1 = edgeKey e.obj
    · subst hk
      have hsame : ∀ k ∈ rest, groupOf (l ++ [e]) k = groupOf l k := by
        intro k hkr
        have : edgeKey e.obj ≠ k := fun h => hk1 (h ▸ hkr)
        simp [groupOf_snoc, this]
      simp only [List.map_cons, pushGroup, if_true, addKey, List.mem_cons, true_or, groupOf_snoc]
      congr 1
      apply List.map_congr_left
      intro k hkr
      rw [← groupOf_snoc, hsame k hkr]
    · have hne : edgeKey e.obj ≠ k1 := fun h => hk h.symm
      have ih1 := ih hrest (fun hn => hnew (by
        simp only [List.mem_cons, not_or]
        exact ⟨hne, hn⟩))
      simp only [List.map_cons, pushGroup, hk, if_false, ih1]
      by_cases hin : edgeKey e.obj ∈ rest
      · simp [addKey, hin, hne, groupOf_snoc]
      · simp [addKey, hin, hne, groupOf_snoc]

theorem groupEdges_eq (l : List EdgeRef) :
    groupEdges l = (keysOf l).map (fun k => (k, groupOf l k)) := by
  induction l using List.reverseRecOn with
  | nil => simp [groupEdges, keysOf]
  | append_singleton l e ih =>
    rw [groupEdges_snoc, ih, keysOf_snoc]
    exact pushGroup_map l e (keysOf l) (keysOf_nodup l)
      (fun h => groupOf_eq_nil_of_not_mem l _ h)

theorem preprocessEdges_eq (l : List EdgeRef) :
    preprocessEdges l = (keysOf l).flatMap (fun k => processGroup (groupOf l k)) := by
  simp [preprocessEdges, groupEdges_eq, List.flatMap_map]

theorem edgeKey_setSmooth (i : Nat) (o : EdgeRef) :
    edgeKey (setSmooth i o).obj = edgeKey o.obj := rfl

theorem addr_setSmooth (i : Nat) (o : EdgeRef) : (setSmooth i o).addr = o.addr := rfl

theorem eraseSmooth_setSmooth (i : Nat) (o : EdgeRef) :
    eraseSmooth (setSmooth i o) = eraseSmooth o := rfl

theorem edgeKey_eraseSmooth (o : EdgeRef) : edgeKey (eraseSmooth o).obj = edgeKey o.obj := rfl

theorem map_mapIdx_of_forall {α β γ : Type} (g : β → γ) (h : α → γ) :
    ∀ (l : List α) (f : Nat → α → β), (∀ i a, g (f i a) = h a) →
      (l.mapIdx f).map g = l.map h := by
  intro l
  induction l with
  | nil => intro f _; simp
  | cons a l ih =>
    intro f hf
    rw [List.mapIdx_cons, List.map_cons, List.map_cons, hf 0 a,
      ih (fun i => f (i + 1)) (fun i a => hf (i + 1) a)]

theorem filter_mapIdx_of_forall {α : Type} (q : α → Bool) :
    ∀ (l : List α) (f : Nat → α → α), (∀ i a, q (f i a) = q a) → (∀ a ∈ l, q a = true) →
      (l.mapIdx f).filter q = l.mapIdx f := by
  intro l f hf hl
  rw [List.filter_eq_self]
  intro b hb
  rw [List.mem_iff_getElem?] at hb
  obtain ⟨i, hi⟩ := hb
  rw [List.getElem?_mapIdx] at hi
  cases hli : l[i]? with
  | none => simp [hli] at hi
  | some a =>
    rw [hli] at hi
    have hi2 : some (f i a) = some b := hi
    injection hi2 with hi2
    subst hi2
    rw [hf]
    exact hl a (List.getElem?_mem hli)

theorem processGroup_map_eraseSmooth (g : List EdgeRef) :
    (processGroup g).map eraseSmooth = g.map eraseSmooth := by
  unfold processGroup
  split
  · rfl
  · exact map_mapIdx_of_forall eraseSmooth eraseSmooth g setSmooth eraseSmooth_setSmooth

theorem length_processGroup (g : List EdgeRef) : (processGroup g).length = g.length := by
  unfold processGroup
  split <;> simp

theorem edgeKey_of_mem_processGroup (g : List EdgeRef) (k : String)
    (hg : ∀ o ∈ g, edgeKey o.obj = k) : ∀ o ∈ processGroup g, edgeKey o.obj = k := by
  intro o ho
  have h1 : eraseSmooth o ∈ (processGroup g).map eraseSmooth := List.mem_map_of_mem _ ho
  rw [processGroup_map_eraseSmooth, List.mem_map] at h1
  obtain ⟨o', ho', he⟩ := h1
  have := hg o' ho'
  rw [← edgeKey_eraseSmooth o, ← he, edgeKey_eraseSmooth]
  exact this

theorem edgeKey_of_mem_groupOf (l : List EdgeRef) (k : String) :
    ∀ o ∈ groupOf l k, edgeKey o.obj = k := by
  intro o ho
  simpa using (List.mem_filter.1 ho).2

theorem flatMap_ite_of_nodup {α : Type} (G : String → List α) (k : String) :
    ∀ ks : List String, ks.Nodup →
      ks.flatMap (fun k' => if k' = k then G k' else []) = if k ∈ ks then G k else [] := by
  intro ks
  induction ks with
  | nil => simp
  | cons k1 rest ih =>
    intro hnd
    have hk1 : k1 ∉ rest := (List.nodup_cons.1 hnd).1
    rw [List.flatMap_cons, ih (List.nodup_cons.1 hnd).2]
    by_cases h : k1 = k
    · subst h
      simp [hk1]
    · have h2 : ¬ k = k1 := fun e => h e.symm
      simp [h, h2]

/-- The output of `preprocessEdges` restricted to one key is the processed
group of that key. -/
theorem filter_preprocessEdges (l : List EdgeRef) (k : String) :
    (preprocessEdges l).filter (fun o => edgeKey o.obj = k) = processGroup (groupOf l k) := by
  rw [preprocessEdges_eq, List.filter_flatMap]
  have hpiece : ∀ k' : String,
      (processGroup (groupOf l k')).filter (fun o => decide (edgeKey o.obj = k))
        = if k' = k then processGroup (groupOf l k') else [] := by
    intro k'
    by_cases h : k' = k
    · subst h
      simp only [if_true]
      rw [List.filter_eq_self]
      intro o ho
      simpa using edgeKey_of_mem_processGroup _ k' (edgeKey_of_mem_groupOf l k') o ho
    · simp only [h, if_false]
      rw [List.filter_eq_nil_iff]
      intro o ho hk
      have h1 := edgeKey_of_mem_processGroup _ k' (edgeKey_of_mem_groupOf l k') o ho
      have h2 : edgeKey o.obj = k := by simpa using hk
      exact h (h1.symm.trans h2)
  simp only [hpiece]
  rw [flatMap_ite_of_nodup (fun k' => processGroup (groupOf l k')) k _ (keysOf_nodup l)]
  by_cases h : k ∈ keysOf l
  · simp [h]
  · simp [h, groupOf_eq_nil_of_not_mem l k h, processGroup]

theorem flatMap_filter_perm {α : Type} (key : α → String) :
    ∀ (ks : List String), ks.Nodup → ∀ l : List α, (∀ x ∈ l, key x ∈ ks) →
      (ks.flatMap (fun k => l.filter (fun x => decide (key x = k)))).Perm l := by
  intro ks
  induction ks with
  | nil =>
    intro _ l hl
    cases l with
    | nil => simp
    | cons x l => exact absurd (hl x (List.mem_cons_self _ _)) (List.not_mem_nil _)
  | cons k rest ih =>
    intro hnd l hl
    have hk : k ∉ rest := (List.nodup_cons.1 hnd).1
    rw [List.flatMap_cons]
    have hrest : rest.flatMap (fun k' => l.filter (fun x => decide (key x = k')))
        = rest.flatMap (fun k' => (l.filter (fun x => !decide (key x = k))).filter
            (fun x => decide (key x = k'))) := by
      apply List.flatMap_congr
      intro k' hk'
      rw [List.filter_filter]
      apply List.filter_congr
      intro x _
      by_cases hx : key x = k'
      · have : key x ≠ k := fun e => hk (e ▸ hx ▸ hk')
        simp [hx, this]
        intro e
        exact absurd (hx ▸ e : key x = k) this
      · simp [hx]
    rw [hrest]
    have ih1 := ih (List.nodup_cons.1 hnd).2 (l.filter (fun x => !decide (key x = k))) (by
      intro x hx
      have hm := List.mem_filter.1 hx
      have h1 := hl x hm.1
      have h2 : key x ≠ k := by simpa using hm.2
      rcases List.mem_cons.1 h1 with h | h
      · exact absurd h h2
      · exact h)
    exact (List.Perm.append_left _ ih1).trans (List.filter_append_perm _ l)

/-- Up to the curvature overrides, `preprocessEdges` returns a permutation of
its input. -/
theorem preprocessEdges_perm (l : List EdgeRef) :
    ((preprocessEdges l).map eraseSmooth).Perm (l.map eraseSmooth) := by
  rw [preprocessEdges_eq, List.map_flatMap]
  have h1 : (keysOf l).flatMap (fun k => (processGroup (groupOf l k)).map eraseSmooth)
      = (keysOf l).flatMap (fun k => (l.map eraseSmooth).filter
          (fun x => decide (edgeKey x.obj = k))) := by
    apply List.flatMap_congr
    intro k _
    rw [processGroup_map_eraseSmooth, groupOf, List.filter_map]
    rfl
  rw [h1]
  apply flatMap_filter_perm (fun x : EdgeRef => edgeKey x.obj) _ (keysOf_nodup l)
  intro x hx
  obtain ⟨o, ho, rfl⟩ := List.mem_map.1 hx
  exact (mem_keysOf l _).2 ⟨o, ho, rfl⟩

theorem lookup_cons_eq (k k1 : String) (v1 : Nat) (rest : List (String × Nat)) :
    List.lookup k ((k1, v1) :: rest) = if k = k1 then some v1 else List.lookup k rest := by
  by_cases h : k = k1
  · subst h
    simp [List.lookup]
  · have hb : (k == k1) = false := by simpa using h
    simp [List.lookup, hb, h]

theorem get_set (m : DegreeMap) (k k' : String) (v : Nat) :
    (m.set k v).get k' = if k' = k then some v else m.get k' := by
  induction m with
  | nil => simp [DegreeMap.set, DegreeMap.get, lookup_cons_eq]
  | cons p rest ih =>
    obtain ⟨k1, v1⟩ := p
    simp only [DegreeMap.get] at ih
    by_cases h1 : k1 = k
    · subst h1
      by_cases h : k' = k1
      · simp [DegreeMap.set, DegreeMap.get, lookup_cons_eq, h]
      · simp [DegreeMap.set, DegreeMap.get, lookup_cons_eq, h]
    · by_cases h : k' = k
      · subst h
        have h2 : ¬ k' = k1 := fun e => h1 e.symm
        simp [DegreeMap.set, DegreeMap.get, lookup_cons_eq, h1, h2, ih]
      · by_cases h3 : k' = k1
        · simp [DegreeMap.set, DegreeMap.get, lookup_cons_eq, h1, h, h3]
        · simp [DegreeMap.set, DegreeMap.get, lookup_cons_eq, h1, h, h3, ih]

theorem degreeOf_increment (m : DegreeMap) (k k' : String) :
    degreeOf (m.increment k) k' = degreeOf m k' + if k' = k then 1 else 0 := by
  unfold DegreeMap.increment degreeOf
  by_cases h0 : (m.get k).getD 0 = 0
  · by_cases h : k' = k
    · subst h
      simp [h0, get_set]
    · simp [h0, get_set, h]
  · by_cases h : k' = k
    · subst h
      simp [h0, get_set]
    · simp [h0, get_set, h]

theorem degreeOf_foldl_increment (l : List String) :
    ∀ (m : DegreeMap) (k : String),
      degreeOf (l.foldl DegreeMap.increment m) k = degreeOf m k + l.count k := by
  induction l with
  | nil => intro m k; simp
  | cons a l ih =>
    intro m k
    rw [List.foldl_cons, ih, degreeOf_increment, List.count_cons]
    by_cases h : k = a
    · subst h
      simp
      omega
    · have h2 : ¬ a = k := fun e => h e.symm
      simp [h, h2]

theorem degreeOf_countEdge (m : DegreeMap) (e : Edge) (n : String) :
    degreeOf (countEdge m e) n = degreeOf m n + occ n e := by
  have hacc : ∀ m2 : DegreeMap,
      degreeOf (if truthy e.accuser then m2.increment (e.accuser.getD "") else m2) n
        = degreeOf m2 n + (if truthy e.accuser = true ∧ e.accuser = some n then 1 else 0) := by
    intro m2
    cases ha : e.accuser with
    | none => simp [truthy]
    | some a =>
      by_cases ht : truthy (some a) = true
      · by_cases hn : a = n
        · subst hn
          simp [ht, degreeOf_increment]
        · have hn2 : ¬ n = a := fun e => hn e.symm
          simp [ht, degreeOf_increment, hn, hn2]
      · simp [ht]
  unfold countEdge occ
  cases hd : e.accused with
  | none =>
    simp only [hacc, degreeOf_increment, Option.getD_none, List.count_nil]
    have e1 : (n = e.from_) = (e.from_ = n) := propext eq_comm
    have e2 : (n = e.to_) = (e.to_ = n) := propext eq_comm
    simp only [e1, e2]
    omega
  | some l =>
    simp only [degreeOf_foldl_increment, hacc, degreeOf_increment, Option.getD_some]
    have e1 : (n = e.from_) = (e.from_ = n) := propext eq_comm
    have e2 : (n = e.to_) = (e.to_ = n) := propext eq_comm
    simp only [e1, e2]
    omega

theorem degreeOf_foldl_countEdge (es : List Edge) :
    ∀ (m : DegreeMap) (n : String),
      degreeOf (es.foldl countEdge m) n = degreeOf m n + (es.map (occ n)).sum := by
  induction es with
  | nil => intro m n; simp
  | cons e es ih =>
    intro m n
    rw [List.foldl_cons, ih, degreeOf_countEdge, List.map_cons, List.sum_cons]
    omega

/-- The degree that `getNodeDegrees` assigns is the sum of the per-edge counts. -/
theorem degreeOf_getNodeDegrees (es : List Edge) (n : String) :
    degreeOf (getNodeDegrees es) n = (es.map (occ n)).sum := by
  rw [getNodeDegrees, degreeOf_foldl_countEdge]
  simp [degreeOf, DegreeMap.get]

theorem truthy_some_iff (a : String) : truthy (some a) = true ↔ a ≠ "" := by
  simp [truthy]

theorem occ_eq_occurrences (n : String) (e : Edge) (hn : n ≠ "") :
    occ n e = occurrences n e := by
  unfold occ occurrences
  have h : (truthy e.accuser = true ∧ e.accuser = some n) ↔ e.accuser = some n := by
    constructor
    · exact fun h => h.2
    · intro h
      refine ⟨?_, h⟩
      rw [h, truthy_some_iff]
      exact hn
  simp only [h]

theorem occ_erase (n : String) (o : EdgeRef) : occ n (eraseSmooth o).obj = occ n o.obj := rfl

theorem preprocessEdges_perm_map {β : Type} (g : EdgeRef → β)
    (hg : ∀ o, g (eraseSmooth o) = g o) (l : List EdgeRef) :
    ((preprocessEdges l).map g).Perm (l.map g) := by
  have h := (preprocessEdges_perm l).map g
  simpa [List.map_map, Function.comp_def, hg] using h

theorem edgesWithIds_map_edge (pl : List EdgeRef) :
    (edgesWithIds pl).map VisEdge.edge = pl.map EdgeRef.obj := by
  unfold edgesWithIds
  exact map_mapIdx_of_forall VisEdge.edge EdgeRef.obj pl _ (fun _ _ => rfl)

theorem edgesWithEdgeIds_map_edge (pl : List EdgeRef) :
    (edgesWithEdgeIds pl).map VisEdge.edge = pl.map EdgeRef.obj := by
  simp [edgesWithEdgeIds, List.map_map, Function.comp_def]

theorem refs_map_obj (store : List Edge) : (refs store).map EdgeRef.obj = store := by
  unfold refs
  rw [map_mapIdx_of_forall EdgeRef.obj id store _ (fun _ _ => rfl)]
  simp

/-- The degree sum over the output of `preprocessEdges` is the degree sum over
its input. -/
theorem sum_occ_preprocessEdges (n : String) (l : List EdgeRef) :
    (((preprocessEdges l).map EdgeRef.obj).map (occ n)).sum
      = ((l.map EdgeRef.obj).map (occ n)).sum := by
  have h := preprocessEdges_perm_map (fun o => occ n o.obj) (occ_erase n) l
  simpa [List.map_map, Function.comp_def] using h.sum_eq

theorem mem_withDegrees (dm : DegreeMap) (nodes : List VisNode) (node : VisNode) :
    node ∈ withDegrees dm nodes ↔
      ∃ n0 ∈ nodes, node = { n0 with value := degreeOf dm n0.person.id } := by
  unfold withDegrees degreeOf
  rw [List.mem_map]
  constructor
  · rintro ⟨n0, h0, rfl⟩
    exact ⟨n0, h0, rfl⟩
  · rintro ⟨n0, h0, rfl⟩
    exact ⟨n0, h0, rfl⟩

theorem value_of_mem_withDegrees (dm : DegreeMap) (nodes : List VisNode) (node : VisNode)
    (h : node ∈ withDegrees dm nodes) : node.value = degreeOf dm node.person.id := by
  obtain ⟨n0, _, rfl⟩ := (mem_withDegrees dm nodes node).1 h
  rfl

theorem mem_touchedIds (n : String) (e : Edge) :
    n ∈ touchedIds e ↔
      e.from_ = n ∨ e.to_ = n ∨ (truthy e.accuser = true ∧ e.accuser = some n)
        ∨ n ∈ e.accused.getD [] := by
  unfold touchedIds
  cases ha : e.accuser with
  | none => simp [truthy, eq_comm]
  | some a =>
    by_cases ht : truthy (some a) = true
    · simp [ht, eq_comm]
    · simp [ht, eq_comm]

theorem mem_roleIds (n : String) (e : Edge) :
    n ∈ roleIds e ↔
      (truthy e.accuser = true ∧ e.accuser = some n) ∨ n ∈ e.accused.getD [] := by
  unfold roleIds
  cases ha : e.accuser with
  | none => simp [truthy]
  | some a =>
    by_cases ht : truthy (some a) = true
    · simp [ht, eq_comm]
    · simp [ht]

theorem occ_pos_of_mentioned (n : String) (e : Edge)
    (h : e.from_ = n ∨ e.to_ = n ∨ (truthy e.accuser = true ∧ e.accuser = some n)
      ∨ n ∈ e.accused.getD []) : 1 ≤ occ n e := by
  unfold occ
  rcases h with h | h | h | h
  · simp [h]; omega
  · simp [h]; omega
  · rw [if_pos h]
    omega
  · have := List.count_pos_iff.2 h
    omega

theorem sum_pos_of_mem (f : Edge → Nat) (es : List Edge) (e : Edge) (he : e ∈ es)
    (h : 1 ≤ f e) : 1 ≤ (es.map f).sum := by
  have h1 : f e ≤ (es.map f).sum := List.single_le_sum (by simp) _ (List.mem_map_of_mem f he)
  omega

theorem degreesOverVisible_mk (fn : List VisNode) (visEdges : List VisEdge) :
    DegreesOverVisible
      { nodes := withDegrees (getNodeDegrees (visEdges.map VisEdge.edge)) fn
        edges := visEdges } := by
  intro node hnode hid
  rw [value_of_mem_withDegrees _ _ _ hnode, degreeOf_getNodeDegrees, List.map_map]
  congr 1
  apply List.map_congr_left
  intro v _
  exact occ_eq_occurrences _ _ hid

theorem mentions_of_code (n : String) (e : Edge)
    (h : e.from_ = n ∨ e.to_ = n ∨ (truthy e.accuser = true ∧ e.accuser = some n)
      ∨ n ∈ e.accused.getD []) : Mentions n e := by
  rcases h with h | h | h | h
  · exact Or.inl h
  · exact Or.inr (Or.inl h)
  · exact Or.inr (Or.inr (Or.inl h.2))
  · exact Or.inr (Or.inr (Or.inr h))

theorem noOrphan_mk (fn : List VisNode) (visEdges : List VisEdge) (pl l : List EdgeRef)
    (hvis : visEdges.map VisEdge.edge = pl.map EdgeRef.obj)
    (hperm : (pl.map eraseSmooth).Perm (l.map eraseSmooth))
    (hfn : ∀ node ∈ fn, ∃ o ∈ l, o.obj.from_ = node.person.id ∨ o.obj.to_ = node.person.id
      ∨ (truthy o.obj.accuser = true ∧ o.obj.accuser = some node.person.id)
      ∨ node.person.id ∈ o.obj.accused.getD []) :
    NoOrphan
      { nodes := withDegrees (getNodeDegrees (visEdges.map VisEdge.edge)) fn
        edges := visEdges } := by
  intro node hnode
  have hval := value_of_mem_withDegrees _ _ _ hnode
  obtain ⟨n0, hn0, rfl⟩ := (mem_withDegrees _ _ _).1 hnode
  obtain ⟨o, ho, hm⟩ := hfn n0 hn0
  have hmem : eraseSmooth o ∈ pl.map eraseSmooth :=
    hperm.symm.subset (List.mem_map_of_mem _ ho)
  obtain ⟨o', ho', he⟩ := List.mem_map.1 hmem
  have hobj : o'.obj ∈ visEdges.map VisEdge.edge := by
    rw [hvis]
    exact List.mem_map_of_mem _ ho'
  have hm' : o'.obj.from_ = n0.person.id ∨ o'.obj.to_ = n0.person.id
      ∨ (truthy o'.obj.accuser = true ∧ o'.obj.accuser = some n0.person.id)
      ∨ n0.person.id ∈ o'.obj.accused.getD [] := by
    have e1 : o'.obj.from_ = o.obj.from_ := congrArg (fun r => r.obj.from_) he
    have e2 : o'.obj.to_ = o.obj.to_ := congrArg (fun r => r.obj.to_) he
    have e3 : o'.obj.accuser = o.obj.accuser := congrArg (fun r => r.obj.accuser) he
    have e4 : o'.obj.accused = o.obj.accused := congrArg (fun r => r.obj.accused) he
    rw [e1, e2, e3, e4]
    exact hm
  constructor
  · rw [hval, degreeOf_getNodeDegrees]
    exact sum_pos_of_mem _ _ _ hobj (occ_pos_of_mentioned _ _ hm')
  · obtain ⟨v, hv, hve⟩ := List.mem_map.1 hobj
    exact ⟨v, hv, by rw [hve]; exact mentions_of_code _ _ hm'⟩

theorem exists_ref_of_mem (store : List Edge) (e : Edge) (he : e ∈ store) :
    ∃ o ∈ refs store, o.obj = e := by
  rw [← refs_map_obj store] at he
  obtain ⟨o, ho, h⟩ := List.mem_map.1 he
  exact ⟨o, ho, h⟩

theorem mem_endpointIds (n : String) (e : Edge) :
    n ∈ [e.from_, e.to_] ++ e.accused.getD [] ↔
      e.from_ = n ∨ e.to_ = n ∨ n ∈ e.accused.getD [] := by
  simp [eq_comm, or_assoc]

/-- C7: for every edge list and every non-empty node id `n`, the degree that
`getNodeDegrees` assigns to `n` (the value `degreeMap[n] || 0`) is the number of
occurrences of `n` as `from`, as `to`, as `accuser` and as an element of
`accused`, summed over the edges; and in each projection the program computes,
the value of a visible node is this count taken over the visible edges of that
projection. -/
theorem C7_degree_is_occurrence_count (edges : List Edge) (n : String) (hn : n ≠ "")
    (peopleData : List Person) (data : GraphData) (isTestimonyGraph : Bool)
    (store : List Edge) (identity : String) (edgesArr : List EdgeRef) :
    ((getNodeDegrees edges).get n).getD 0 = (edges.map (occurrences n)).sum
    ∧ DegreesOverVisible (updateTestimonyGraph peopleData store edgesArr).2
    ∧ DegreesOverVisible (drawGraph peopleData data isTestimonyGraph).2
    ∧ DegreesOverVisible (filterAccusationGraphByIdentity peopleData store identity).2
    ∧ DegreesOverVisible (restoreAccusationGraph peopleData store).2
    ∧ DegreesOverVisible (restoreTestimonyGraph peopleData data).2 := by
  refine ⟨?_, degreesOverVisible_mk _ _, degreesOverVisible_mk _ _,
    degreesOverVisible_mk _ _, degreesOverVisible_mk _ _, degreesOverVisible_mk _ _⟩
  have h := degreeOf_getNodeDegrees edges n
  unfold degreeOf at h
  rw [h]
  congr 1
  apply List.map_congr_left
  intro e _
  exact occ_eq_occurrences n e hn

/-- C4: for every people store without an empty id and every list of filtered
testimony edges, the visible nodes computed by `updateTestimonyGraph` are
exactly the persons of the store whose id occurs in some filtered edge as
`from`, `to`, `accuser` or as a member of `accused`, in store order. -/
theorem C4_visible_nodes_are_touched_persons (peopleData : List Person) (store : List Edge)
    (edgesArr : List EdgeRef) (hids : ∀ p ∈ peopleData, p.id ≠ "") :
    (updateTestimonyGraph peopleData store edgesArr).2.nodes.map VisNode.person
      = peopleData.filter (fun p => decide (∃ r ∈ edgesArr, Mentions p.id r.obj)) := by
  have hshape : (updateTestimonyGraph peopleData store edgesArr).2.nodes.map VisNode.person
      = peopleData.filter (fun person =>
          decide (person.id ∈ edgesArr.flatMap (fun edge => touchedIds edge.obj))) := by
    simp [updateTestimonyGraph, withDegrees, personNode, List.map_map, Function.comp_def]
  rw [hshape]
  apply List.filter_congr
  intro p hp
  have hne := hids p hp
  have hiff : p.id ∈ edgesArr.flatMap (fun edge => touchedIds edge.obj)
      ↔ ∃ r ∈ edgesArr, Mentions p.id r.obj := by
    rw [List.mem_flatMap]
    constructor
    · rintro ⟨r, hr, hm⟩
      exact ⟨r, hr, mentions_of_code _ _ ((mem_touchedIds _ _).1 hm)⟩
    · rintro ⟨r, hr, hm⟩
      refine ⟨r, hr, (mem_touchedIds _ _).2 ?_⟩
      rcases hm with h | h | h | h
      · exact Or.inl h
      · exact Or.inr (Or.inl h)
      · refine Or.inr (Or.inr (Or.inl ⟨?_, h⟩))
        rw [h, truthy_some_iff]
        exact hne
      · exact Or.inr (Or.inr (Or.inr h))
  simp only [hiff]

/-- C5: in every projection the program computes (`drawGraph`,
`filterAccusationGraphByIdentity`, `restoreAccusationGraph`,
`updateTestimonyGraph`, `restoreTestimonyGraph`), every visible node is
mentioned by at least one visible edge and carries a degree value of at least
one. -/
theorem C5_no_orphan_nodes (peopleData : List Person) (data : GraphData)
    (isTestimonyGraph : Bool) (store : List Edge) (identity : String)
    (edgesArr : List EdgeRef) :
    NoOrphan (drawGraph peopleData data isTestimonyGraph).2
    ∧ NoOrphan (filterAccusationGraphByIdentity peopleData store identity).2
    ∧ NoOrphan (restoreAccusationGraph peopleData store).2
    ∧ NoOrphan (updateTestimonyGraph peopleData store edgesArr).2
    ∧ NoOrphan (restoreTestimonyGraph peopleData data).2 := by
  have hstore : ∀ (st : List Edge) (ids : Edge → List String) (n : String),
      (∀ e, n ∈ ids e → e.from_ = n ∨ e.to_ = n
        ∨ (truthy e.accuser = true ∧ e.accuser = some n) ∨ n ∈ e.accused.getD []) →
      n ∈ st.flatMap ids →
      ∃ o ∈ refs st, o.obj.from_ = n ∨ o.obj.to_ = n
        ∨ (truthy o.obj.accuser = true ∧ o.obj.accuser = some n)
        ∨ n ∈ o.obj.accused.getD [] := by
    intro st ids n hids hn
    obtain ⟨e, he, hm⟩ := List.mem_flatMap.1 hn
    obtain ⟨o, ho, rfl⟩ := exists_ref_of_mem st e he
    exact ⟨o, ho, hids _ hm⟩
  have hend : ∀ (n : String) (e : Edge), n ∈ [e.from_, e.to_] ++ e.accused.getD [] →
      e.from_ = n ∨ e.to_ = n
        ∨ (truthy e.accuser = true ∧ e.accuser = some n) ∨ n ∈ e.accused.getD [] := by
    intro n e h
    rcases (mem_endpointIds n e).1 h with h | h | h
    · exact Or.inl h
    · exact Or.inr (Or.inl h)
    · exact Or.inr (Or.inr (Or.inr h))
  refine ⟨?_, ?_, ?_, ?_, ?_⟩
  · -- drawGraph
    cases isTestimonyGraph with
    | true =>
      refine noOrphan_mk _ _ (preprocessEdges (refs data.edges)) (refs data.edges)
        (edgesWithEdgeIds_map_edge _) (preprocessEdges_perm _) ?_
      intro node hnode
      have h := (List.mem_filter.1 hnode).2
      exact hstore data.edges _ node.person.id (hend _) (by simpa using h)
    | false =>
      refine noOrphan_mk _ _ (refs data.edges) (refs data.edges)
        (edgesWithEdgeIds_map_edge _) (List.Perm.refl _) ?_
      intro node hnode
      have h := (List.mem_filter.1 hnode).2
      exact hstore data.edges _ node.person.id (hend _) (by simpa using h)
  · -- filterAccusationGraphByIdentity
    refine noOrphan_mk _ _ (preprocessEdges _) _ (edgesWithIds_map_edge _)
      (preprocessEdges_perm _) ?_
    intro node hnode
    obtain ⟨p, hp, rfl⟩ := List.mem_map.1 hnode
    have h := (List.mem_filter.1 hp).2
    have h2 := of_decide_eq_true h
    obtain ⟨o, ho, hm⟩ := List.mem_flatMap.1 h2
    refine ⟨o, ho, ?_⟩
    simp only [List.mem_cons, List.mem_singleton, List.not_mem_nil, or_false] at hm
    rcases hm with hm | hm
    · exact Or.inl hm.symm
    · exact Or.inr (Or.inl hm.symm)
  · -- restoreAccusationGraph
    refine noOrphan_mk _ _ (preprocessEdges (refs store)) (refs store)
      (edgesWithIds_map_edge _) (preprocessEdges_perm _) ?_
    intro node hnode
    have h := (List.mem_filter.1 hnode).2
    exact hstore store _ node.person.id (hend _) (by simpa using h)
  · -- updateTestimonyGraph
    refine noOrphan_mk _ _ (preprocessEdges edgesArr) edgesArr (edgesWithIds_map_edge _)
      (preprocessEdges_perm _) ?_
    intro node hnode
    obtain ⟨p, hp, rfl⟩ := List.mem_map.1 hnode
    have h := of_decide_eq_true (List.mem_filter.1 hp).2
    obtain ⟨o, ho, hm⟩ := List.mem_flatMap.1 h
    exact ⟨o, ho, (mem_touchedIds _ _).1 hm⟩
  · -- restoreTestimonyGraph
    refine noOrphan_mk _ _ (preprocessEdges (refs data.edges)) (refs data.edges)
      (edgesWithIds_map_edge _) (preprocessEdges_perm _) ?_
    intro node hnode
    have h := (List.mem_filter.1 hnode).2
    refine hstore data.edges roleIds node.person.id ?_ (by simpa using h)
    intro e he
    exact Or.inr (Or.inr ((mem_roleIds _ _).1 he))

/-- Witness of C7: the node `9`, which is `to` in three edges and `accuser` in
one, has degree four. -/
theorem C7_degree_is_occurrence_count_witness :
    ((getNodeDegrees degreeExample).get "9").getD 0 = (degreeExample.map (occurrences "9")).sum
    ∧ (degreeExample.map (occurrences "9")).sum = 4 :=
  ⟨(C7_degree_is_occurrence_count degreeExample "9" (by decide) examplePeople
      { nodes := none, edges := exampleTestimony } true exampleTestimony "功臣"
      (refs exampleTestimony)).1, by decide⟩

/-- Witness of C4: on the example store, filtering the first two edges shows
the persons `1`, `2` and `3`. -/
theorem C4_visible_nodes_are_touched_persons_witness :
    (updateTestimonyGraph examplePeople exampleTestimony
        ((refs exampleTestimony).take 2)).2.nodes.map VisNode.person
      = examplePeople.filter
          (fun p => decide (∃ r ∈ (refs exampleTestimony).take 2, Mentions p.id r.obj)) :=
  C4_visible_nodes_are_touched_persons examplePeople exampleTestimony
    ((refs exampleTestimony).take 2) (by decide)

theorem excessBits_spec : ∀ (fuel n : Nat), n ≤ fuel →
    n / 2 ^ excessBits fuel n < 2 ^ 53
    ∧ (0 < excessBits fuel n → 2 ^ 52 ≤ n / 2 ^ excessBits fuel n) := by
  intro fuel
  induction fuel with
  | zero =>
    intro n hn
    have h0 : n = 0 := by omega
    subst h0
    simp [excessBits]
  | succ fuel ih =>
    intro n hn
    unfold excessBits
    by_cases hlt : n < 2 ^ 53
    · rw [if_pos hlt]
      simp only [pow_zero, Nat.div_one, Nat.lt_irrefl, false_implies, and_true]
      exact hlt
    · rw [if_neg hlt]
      have hge : 2 ^ 53 ≤ n := Nat.le_of_not_lt hlt
      have hhalf : n / 2 ≤ fuel := by omega
      obtain ⟨h1, h2⟩ := ih (n / 2) hhalf
      have hdiv : n / 2 ^ (1 + excessBits fuel (n / 2)) = n / 2 / 2 ^ excessBits fuel (n / 2) := by
        rw [pow_add, pow_one, Nat.div_div_eq_div_mul]
      rw [hdiv]
      refine ⟨h1, fun _ => ?_⟩
      by_cases hs : 0 < excessBits fuel (n / 2)
      · exact h2 hs
      · have hs0 : excessBits fuel (n / 2) = 0 := by omega
        rw [hs0, pow_zero, Nat.div_one]
        omega

theorem roundDouble_ge_floor (n : Nat) :
    n / 2 ^ excessBits n n * 2 ^ excessBits n n ≤ roundDouble n := by
  unfold roundDouble
  simp only
  split
  · exact Nat.mul_le_mul_right _ (Nat.le_succ _)
  · exact Nat.le_refl _

/-- Rounding to the nearest double does not go below a double that the value
reaches: `c * 2^j` with `c < 2^53` is a double. -/
theorem roundDouble_ge_of_double (n c j : Nat) (hc : c < 2 ^ 53) (h : c * 2 ^ j ≤ n) :
    c * 2 ^ j ≤ roundDouble n := by
  refine Nat.le_trans ?_ (roundDouble_ge_floor n)
  obtain ⟨_, h2⟩ := excessBits_spec n n (Nat.le_refl n)
  by_cases hs : excessBits n n ≤ j
  · obtain ⟨d, hd⟩ := Nat.exists_eq_add_of_le hs
    have hpow : (2 : Nat) ^ j = 2 ^ d * 2 ^ excessBits n n := by
      rw [hd, pow_add, Nat.mul_comm]
    have hle : c * 2 ^ d ≤ n / 2 ^ excessBits n n := by
      rw [Nat.le_div_iff_mul_le (Nat.two_pow_pos _)]
      rw [Nat.mul_assoc, ← hpow]
      exact h
    calc c * 2 ^ j = c * 2 ^ d * 2 ^ excessBits n n := by rw [hpow, Nat.mul_assoc]
      _ ≤ n / 2 ^ excessBits n n * 2 ^ excessBits n n := Nat.mul_le_mul_right _ hle
  · have hj : j < excessBits n n := Nat.lt_of_not_le hs
    have hpos : 0 < excessBits n n := by omega
    have hq := h2 hpos
    have hpow : (2 : Nat) ^ (j + 1) ≤ 2 ^ excessBits n n :=
      Nat.pow_le_pow_right (by decide) hj
    calc c * 2 ^ j ≤ 2 ^ 53 * 2 ^ j := Nat.mul_le_mul_right _ (Nat.le_of_lt hc)
      _ = 2 ^ 52 * 2 ^ (j + 1) := by rw [pow_succ]; omega
      _ ≤ 2 ^ 52 * 2 ^ excessBits n n := Nat.mul_le_mul_left _ hpow
      _ ≤ n / 2 ^ excessBits n n * 2 ^ excessBits n n := Nat.mul_le_mul_right _ hq

/-- In double precision, `0.1 + index * 0.1` lies in `(0, 1]` for the indexes
`0` to `9` (it is exactly `1` at index `9`) and exceeds `1` from index `10` on;
`2^56` units are the value `1`. -/
theorem roundness_range (index : Nat) :
    (index < 10 → 0 < (curve index).roundness ∧ (curve index).roundness ≤ 2 ^ 56)
    ∧ (10 ≤ index → 2 ^ 56 < (curve index).roundness) := by
  constructor
  · intro h
    have hall : ∀ i < 10, 0 < (curve i).roundness ∧ (curve i).roundness ≤ 2 ^ 56 := by decide
    exact hall index h
  · intro h
    have hprod : 1 * 2 ^ 56 ≤ index * tenthUnits := by
      have : 10 * tenthUnits ≤ index * tenthUnits := Nat.mul_le_mul_right _ h
      have h10 : 1 * 2 ^ 56 ≤ 10 * tenthUnits := by decide
      exact Nat.le_trans h10 this
    have hinner := roundDouble_ge_of_double (index * tenthUnits) 1 56 (by decide) hprod
    have hsum : 17 * 2 ^ 52 ≤ tenthUnits + roundDouble (index * tenthUnits) := by
      have ht : 2 ^ 52 ≤ tenthUnits := by decide
      omega
    have houter := roundDouble_ge_of_double _ 17 52 (by decide) hsum
    show 2 ^ 56 < roundDouble (tenthUnits + roundDouble (index * tenthUnits))
    omega

/-- Rounding to the nearest double moves a value by at most its `2^-52` part. -/
theorem roundDouble_near (n : Nat) :
    n ≤ roundDouble n + n / 2 ^ 52 ∧ roundDouble n ≤ n + n / 2 ^ 52 := by
  obtain ⟨_, h2⟩ := excessBits_spec n n (Nat.le_refl n)
  have hdm := Nat.div_add_mod n (2 ^ excessBits n n)
  have hmod : n % 2 ^ excessBits n n < 2 ^ excessBits n n := Nat.mod_lt _ (Nat.two_pow_pos _)
  have hstep : 2 ^ excessBits n n ≤ n / 2 ^ 52 ∨ n % 2 ^ excessBits n n = 0 := by
    by_cases hs : 0 < excessBits n n
    · left
      have hq := h2 hs
      rw [Nat.le_div_iff_mul_le (Nat.two_pow_pos _)]
      calc 2 ^ excessBits n n * 2 ^ 52 = 2 ^ 52 * 2 ^ excessBits n n := Nat.mul_comm _ _
        _ ≤ n / 2 ^ excessBits n n * 2 ^ excessBits n n := Nat.mul_le_mul_right _ hq
        _ ≤ n := Nat.div_mul_le_self _ _
    · right
      have hs0 : excessBits n n = 0 := by omega
      rw [hs0, pow_zero, Nat.mod_one]
  have hlow : n / 2 ^ excessBits n n * 2 ^ excessBits n n ≤ roundDouble n :=
    roundDouble_ge_floor n
  have hup : roundDouble n ≤ (n / 2 ^ excessBits n n + 1) * 2 ^ excessBits n n := by
    unfold roundDouble
    simp only
    split
    · exact Nat.le_refl _
    · exact Nat.mul_le_mul_right _ (Nat.le_succ _)
  have hexact : n % 2 ^ excessBits n n = 0 → roundDouble n = n := by
    intro h0
    unfold roundDouble
    simp only
    rw [h0]
    have hpos : 0 < 2 ^ excessBits n n := Nat.two_pow_pos _
    rw [if_neg (by omega)]
    rw [h0, Nat.add_zero, Nat.mul_comm] at hdm
    exact hdm
  rw [Nat.add_mul, Nat.one_mul] at hup
  rw [Nat.mul_comm (2 ^ excessBits n n)] at hdm
  rcases hstep with h | h
  · omega
  · rw [hexact h]
    omega

/-- The double `0.1 + index * 0.1` is within four units of `2^-56` per tenth of
`(index + 1)` times the double `0.1`. -/
theorem roundness_near (index : Nat) :
    (index + 1) * tenthUnits ≤ (curve index).roundness + 4 * (index + 1)
    ∧ (curve index).roundness ≤ (index + 1) * tenthUnits + 4 * (index + 1) := by
  show (index + 1) * tenthUnits
        ≤ roundDouble (tenthUnits + roundDouble (index * tenthUnits)) + 4 * (index + 1)
      ∧ roundDouble (tenthUnits + roundDouble (index * tenthUnits))
        ≤ (index + 1) * tenthUnits + 4 * (index + 1)
  have h1 := roundDouble_near (index * tenthUnits)
  have h2 := roundDouble_near (tenthUnits + roundDouble (index * tenthUnits))
  generalize roundDouble (tenthUnits + roundDouble (index * tenthUnits)) = R at h2 ⊢
  generalize roundDouble (index * tenthUnits) = B at h1 h2 ⊢
  unfold tenthUnits at *
  omega

/-- The double `0.1 + index * 0.1` is `(index + 1) / 10` up to a relative error
of `2^-50` (`2^56` units are the value `1`). -/
theorem roundness_tenths (index : Nat) :
    (index + 1) * 2 ^ 56 ≤ 10 * (curve index).roundness + (index + 1) * 2 ^ 6
    ∧ 10 * (curve index).roundness ≤ (index + 1) * 2 ^ 56 + (index + 1) * 2 ^ 6 := by
  have h := roundness_near index
  unfold tenthUnits at h
  omega

/-- Below index `2^32` (the length of a JavaScript array is less than `2^32`)
the double `0.1 + index * 0.1` strictly increases with the index. -/
theorem roundness_lt (i j : Nat) (hij : i < j) (hj : j < 2 ^ 32) :
    (curve i).roundness < (curve j).roundness := by
  have h1 := roundness_near i
  have h2 := roundness_near j
  unfold tenthUnits at h1 h2
  omega

theorem curve_eq_bendAt (i : Nat) : curve i = bendAt i := by
  unfold curve bendAt
  rcases Nat.mod_two_eq_zero_or_one i with h | h
  · simp [h]
  · simp [h]

theorem mapIdx_setSmooth (g : List EdgeRef) : g.mapIdx setSmooth = curvedByPosition g := by
  unfold curvedByPosition
  have h : setSmooth = fun i o => { o with obj := { o.obj with smooth := some (bendAt i) } } := by
    funext i o
    simp [setSmooth, curve_eq_bendAt]
  rw [h]

theorem mapIdx_map_eq_range_of_mem {α β γ : Type} (g : β → γ) (h : Nat → γ) (l : List α)
    (f : Nat → α → β) (hf : ∀ i a, a ∈ l → g (f i a) = h i) :
    (l.mapIdx f).map g = (List.range l.length).map h := by
  apply List.ext_getElem?
  intro n
  rw [List.getElem?_map, List.getElem?_mapIdx, List.getElem?_map]
  by_cases hn : n < l.length
  · rw [List.getElem?_range hn, List.getElem?_eq_getElem hn]
    simp [hf n l[n] (List.getElem_mem hn)]
  · have h1 : l[n]? = none := List.getElem?_eq_none (by omega)
    have h2 : (List.range l.length)[n]? = none := List.getElem?_eq_none (by simp; omega)
    simp [h1, h2]

theorem mapIdx_map_eq_range {α β γ : Type} (g : β → γ) (h : Nat → γ) (l : List α)
    (f : Nat → α → β) (hf : ∀ i a, g (f i a) = h i) :
    (l.mapIdx f).map g = (List.range l.length).map h :=
  mapIdx_map_eq_range_of_mem g h l f (fun i a _ => hf i a)

theorem curves_curvedByPosition (g : List EdgeRef) :
    curves (curvedByPosition g) = (List.range g.length).map bendAt := by
  have h1 : (curvedByPosition g).map (fun o => o.obj.smooth)
      = (List.range g.length).map (fun i => some (bendAt i)) :=
    mapIdx_map_eq_range (fun o : EdgeRef => o.obj.smooth) _ g _ (fun _ _ => rfl)
  have h2 : curves (curvedByPosition g)
      = ((curvedByPosition g).map (fun o => o.obj.smooth)).filterMap id := by
    simp [curves, List.filterMap_map, Function.comp_def]
  rw [h2, h1, List.filterMap_map]
  show List.filterMap (some ∘ bendAt) _ = _
  rw [List.filterMap_eq_map]

theorem bendAt_chain (n : Nat) :
    (((List.range n).map bendAt).map Smooth.type).Chain' (fun a b => a ≠ b) := by
  rw [List.chain'_map, List.chain'_map]
  cases n with
  | zero => simp
  | succ n =>
    rw [List.chain'_range_succ]
    intro m _
    unfold bendAt
    rcases Nat.mod_two_eq_zero_or_one m with h | h
    · have h2 : m.succ % 2 = 1 := by omega
      simp [h, h2]
    · have h2 : m.succ % 2 = 0 := by omega
      simp [h, h2]

theorem bendAt_increasing (n : Nat) (hn : n ≤ 2 ^ 32) :
    (((List.range n).map bendAt).map Smooth.roundness).Pairwise (fun a b => a < b) := by
  rw [List.map_map, List.pairwise_map]
  refine List.Pairwise.imp_of_mem ?_ (List.pairwise_lt_range n)
  intro a b _ hb hab
  have hb2 : b < n := List.mem_range.1 hb
  have h := roundness_lt a b hab (Nat.lt_of_lt_of_le hb2 hn)
  rw [curve_eq_bendAt, curve_eq_bendAt] at h
  exact h

theorem bendAt_nodup (n : Nat) (hn : n ≤ 2 ^ 32) : ((List.range n).map bendAt).Nodup := by
  apply List.Nodup.of_map Smooth.roundness
  exact (bendAt_increasing n hn).imp (fun h => Nat.ne_of_lt h)

theorem pairGroup_eq_groupOf (l : List EdgeRef) (f t : String)
    (hkey : ∀ o ∈ l, edgeKey o.obj = f ++ "_" ++ t → o.obj.from_ = f ∧ o.obj.to_ = t) :
    pairGroup l f t = groupOf l (f ++ "_" ++ t) := by
  unfold pairGroup groupOf
  apply List.filter_congr
  intro o ho
  by_cases h : o.obj.from_ = f ∧ o.obj.to_ = t
  · have hk : edgeKey o.obj = f ++ "_" ++ t := by
      unfold edgeKey
      rw [h.1, h.2]
    simp [h, hk]
  · have hk : ¬ edgeKey o.obj = f ++ "_" ++ t := fun e => h (hkey o ho e)
    simp [h, hk]

theorem exists_of_mem_preprocessEdges (l : List EdgeRef) (o : EdgeRef)
    (ho : o ∈ preprocessEdges l) : ∃ o0 ∈ l, eraseSmooth o = eraseSmooth o0 := by
  have h := (preprocessEdges_perm l).subset (List.mem_map_of_mem eraseSmooth ho)
  obtain ⟨o0, h0, he⟩ := List.mem_map.1 h
  exact ⟨o0, h0, he.symm⟩

/-- C8 (amended): for every edge list and every ordered pair `(f, t)` whose key
is produced by no edge of another pair, when the group of the pair has two or
more edges, `preprocessEdges` gives the `i`-th edge of the group (in input
order) the counter-clockwise bend when `i` is even and the clockwise bend when
`i` is odd, with the double `0.1 + i * 0.1` as magnitude, which is `(i+1)/10`
up to a relative error of `2^-50` (`2^56` units are the value `1`); in the
group the directions alternate starting counter-clockwise, and, when the group
has at most `2^32` edges (as every JavaScript array has), the magnitudes
strictly increase and no two edges receive the same curvature. -/
theorem C8_parallel_edges_curved_by_position (l : List EdgeRef) (f t : String)
    (hkey : ∀ o ∈ l, edgeKey o.obj = f ++ "_" ++ t → o.obj.from_ = f ∧ o.obj.to_ = t)
    (hn : 2 ≤ (pairGroup l f t).length) :
    pairGroup (preprocessEdges l) f t = curvedByPosition (pairGroup l f t)
    ∧ curves (pairGroup (preprocessEdges l) f t)
        = (List.range (pairGroup l f t).length).map bendAt
    ∧ ((curves (pairGroup (preprocessEdges l) f t)).map Smooth.type).head?
        = some BendType.curvedCCW
    ∧ ((curves (pairGroup (preprocessEdges l) f t)).map Smooth.type).Chain' (fun a b => a ≠ b)
    ∧ (∀ i : Nat, (i + 1) * 2 ^ 56 ≤ 10 * (bendAt i).roundness + (i + 1) * 2 ^ 6
        ∧ 10 * (bendAt i).roundness ≤ (i + 1) * 2 ^ 56 + (i + 1) * 2 ^ 6)
    ∧ ((pairGroup l f t).length ≤ 2 ^ 32 →
        ((curves (pairGroup (preprocessEdges l) f t)).map Smooth.roundness).Pairwise
            (fun a b => a < b)
          ∧ (curves (pairGroup (preprocessEdges l) f t)).Nodup) := by
  have hkey2 : ∀ o ∈ preprocessEdges l,
      edgeKey o.obj = f ++ "_" ++ t → o.obj.from_ = f ∧ o.obj.to_ = t := by
    intro o ho hk
    obtain ⟨o0, h0, he⟩ := exists_of_mem_preprocessEdges l o ho
    have e1 : o.obj.from_ = o0.obj.from_ := congrArg (fun r => r.obj.from_) he
    have e2 : o.obj.to_ = o0.obj.to_ := congrArg (fun r => r.obj.to_) he
    have e3 : edgeKey o.obj = edgeKey o0.obj := congrArg (fun r => edgeKey r.obj) he
    rw [e1, e2]
    exact hkey o0 h0 (e3 ▸ hk)
  have hout : pairGroup (preprocessEdges l) f t = curvedByPosition (pairGroup l f t) := by
    rw [pairGroup_eq_groupOf _ f t hkey2, pairGroup_eq_groupOf l f t hkey] at *
    have h := filter_preprocessEdges l (f ++ "_" ++ t)
    unfold groupOf at h ⊢
    rw [h]
    unfold processGroup
    have hne : ¬ (List.filter (fun o => decide (edgeKey o.obj = f ++ "_" ++ t)) l).length = 1 := by
      unfold groupOf at hn
      omega
    rw [if_neg hne]
    exact mapIdx_setSmooth _
  have hcurves := curves_curvedByPosition (pairGroup l f t)
  rw [← hout] at hcurves
  refine ⟨hout, hcurves, ?_, ?_, ?_, ?_⟩
  · rw [hcurves]
    obtain ⟨m, hm⟩ : ∃ m, (pairGroup l f t).length = m + 1 := ⟨(pairGroup l f t).length - 1, by omega⟩
    rw [hm, List.range_succ_eq_map]
    simp [bendAt]
  · rw [hcurves]
    exact bendAt_chain _
  · intro i
    rw [← curve_eq_bendAt]
    exact roundness_tenths i
  · intro hlen
    rw [hcurves]
    exact ⟨bendAt_increasing _ hlen, bendAt_nodup _ hlen⟩

/-- Witness of C8: the pair `(1, 2)` of the example testimony edges, whose two
edges get the magnitudes `0.1` and `0.2`. -/
theorem C8_parallel_edges_curved_by_position_witness :
    pairGroup (preprocessEdges (refs exampleTestimony)) "1" "2"
      = curvedByPosition (pairGroup (refs exampleTestimony) "1" "2")
    ∧ ((curves (pairGroup (preprocessEdges (refs exampleTestimony)) "1" "2")).map
        Smooth.roundness).Pairwise (fun a b => a < b) :=
  ⟨(C8_parallel_edges_curved_by_position (refs exampleTestimony) "1" "2" (by decide)
      (by decide)).1,
    ((C8_parallel_edges_curved_by_position (refs exampleTestimony) "1" "2" (by decide)
      (by decide)).2.2.2.2.2 (by decide)).1⟩

/-- C8 fails as stated: in `collidingEdges` the pair `(a_b, c)` has two edges,
but the second of them is grouped after the edge of the pair `(a, b_c)` and
receives the curvature of position two; and of three edges of one pair the
third gets the magnitude `0.30000000000000004` (21617278211378384 units of
`2^-56`), which is not `3/10` and not the double nearest to `3/10`
(21617278211378380 units). -/
theorem C8_counterexample_collision_and_rounding :
    ¬ ParallelCurvatureByPair collidingEdges
    ∧ (preprocessEdges threeParallel).map (fun o => o.obj.smooth.map Smooth.roundness)
        = [some 7205759403792794, some 14411518807585588, some 21617278211378384]
    ∧ 10 * 21617278211378384 ≠ 3 * 2 ^ 56
    ∧ roundDouble 21617278211378380 = 21617278211378380
    ∧ 3 * 2 ^ 56 - 10 * 21617278211378380 < 10 * 21617278211378384 - 3 * 2 ^ 56 := by
  refine ⟨?_, by decide, by decide, by decide, by decide⟩
  intro h
  have h1 := h "a_b" "c" (by decide)
  revert h1
  decide

theorem keysOf_perm (l l' : List EdgeRef) (h : l.Perm l') : (keysOf l).Perm (keysOf l') := by
  rw [List.perm_ext_iff_of_nodup (keysOf_nodup l) (keysOf_nodup l')]
  intro k
  rw [mem_keysOf, mem_keysOf]
  constructor
  · rintro ⟨o, ho, hk⟩
    exact ⟨o, h.subset ho, hk⟩
  · rintro ⟨o, ho, hk⟩
    exact ⟨o, h.symm.subset ho, hk⟩

theorem processGroup_keyedCurve_of_perm (g g' : List EdgeRef) (k : String) (h : g.Perm g')
    (hk : ∀ o ∈ g, edgeKey o.obj = k) :
    (processGroup g).map keyedCurve = (processGroup g').map keyedCurve := by
  have hk' : ∀ o ∈ g', edgeKey o.obj = k := fun o ho => hk o (h.symm.subset ho)
  have hlen := h.length_eq
  by_cases h1 : g.length = 1
  · obtain ⟨a, ha⟩ := List.length_eq_one.1 h1
    subst ha
    have hg' : g' = [a] := List.perm_singleton.1 h.symm
    rw [hg']
  · have h1' : ¬ g'.length = 1 := by omega
    unfold processGroup
    rw [if_neg h1, if_neg h1']
    rw [mapIdx_map_eq_range_of_mem keyedCurve (fun i => (k, some (curve i))) g setSmooth
        (fun i a ha => by
          show (edgeKey (setSmooth i a).obj, (setSmooth i a).obj.smooth) = _
          rw [edgeKey_setSmooth, hk a ha]
          rfl),
      mapIdx_map_eq_range_of_mem keyedCurve (fun i => (k, some (curve i))) g' setSmooth
        (fun i a ha => by
          show (edgeKey (setSmooth i a).obj, (setSmooth i a).obj.smooth) = _
          rw [edgeKey_setSmooth, hk' a ha]
          rfl),
      hlen]

/-- C10 (amended): for every edge list and every permutation of it,
`preprocessEdges` returns the same collection of edges up to their curvature,
and the same collection of curvatures for each grouping key; which edge of a
group receives which curvature follows the input order. -/
theorem C10_output_content_up_to_curvature (l l' : List EdgeRef) (h : l.Perm l') :
    ((preprocessEdges l).map eraseSmooth).Perm ((preprocessEdges l').map eraseSmooth)
    ∧ ((preprocessEdges l).map keyedCurve).Perm ((preprocessEdges l').map keyedCurve) := by
  constructor
  · exact ((preprocessEdges_perm l).trans (h.map eraseSmooth)).trans (preprocessEdges_perm l').symm
  · rw [preprocessEdges_eq, preprocessEdges_eq, List.map_flatMap, List.map_flatMap]
    refine (List.Perm.flatMap_right _ (keysOf_perm l l' h)).trans ?_
    apply List.Perm.flatMap_left
    intro k _
    rw [processGroup_keyedCurve_of_perm (groupOf l k) (groupOf l' k) k (h.filter _)
      (edgeKey_of_mem_groupOf l k)]

/-- Witness of C10: the two orders of the pair of parallel edges. -/
theorem C10_output_content_up_to_curvature_witness :
    ((preprocessEdges [parallelA, parallelB]).map eraseSmooth).Perm
        ((preprocessEdges [parallelB, parallelA]).map eraseSmooth)
    ∧ ((preprocessEdges [parallelA, parallelB]).map keyedCurve).Perm
        ((preprocessEdges [parallelB, parallelA]).map keyedCurve) :=
  C10_output_content_up_to_curvature [parallelA, parallelB] [parallelB, parallelA]
    (List.Perm.swap parallelB parallelA [])

/-- C10 fails as stated: the two orders of a pair of parallel edges are
permutations of each other, but the outputs of `preprocessEdges` are not, since
each edge receives the curvature of its position. -/
theorem C10_counterexample_order_dependence :
    [parallelA, parallelB].Perm [parallelB, parallelA]
    ∧ ¬ (preprocessEdges [parallelA, parallelB]).Perm (preprocessEdges [parallelB, parallelA]) :=
  ⟨List.Perm.swap parallelB parallelA [], by decide⟩

theorem getElem?_refs (st : List Edge) (i : Nat) :
    (refs st)[i]? = st[i]?.map (fun e => { addr := i, obj := e }) := by
  unfold refs
  rw [List.getElem?_mapIdx]

theorem mem_refs (st : List Edge) (o : EdgeRef) :
    o ∈ refs st ↔ st[o.addr]? = some o.obj := by
  rw [List.mem_iff_getElem?]
  constructor
  · rintro ⟨i, hi⟩
    rw [getElem?_refs] at hi
    cases hs : st[i]? with
    | none => rw [hs] at hi; exact absurd hi (by simp)
    | some e =>
      rw [hs] at hi
      have h2 : ({ addr := i, obj := e } : EdgeRef) = o := by
        have h3 : some ({ addr := i, obj := e } : EdgeRef) = some o := hi
        injection h3
      subst h2
      exact hs
  · intro h
    refine ⟨o.addr, ?_⟩
    rw [getElem?_refs, h]
    rfl

theorem getElem?_commit (st : List Edge) (objs : List EdgeRef) (i : Nat) :
    (commit st objs)[i]? = st[i]?.map (fun e =>
      match objs.find? (fun o => o.addr = i) with
      | some o => o.obj
      | none => e) := by
  unfold commit
  rw [List.getElem?_mapIdx]

theorem length_commit (st : List Edge) (objs : List EdgeRef) :
    (commit st objs).length = st.length := by
  unfold commit
  rw [List.length_mapIdx]

/-- Writing back objects that agree with the store up to curvature leaves the
store unchanged up to curvature. -/
theorem commit_map_clearSmooth (st : List Edge) (objs : List EdgeRef)
    (h : ∀ o ∈ objs, ∃ e, st[o.addr]? = some e ∧ clearSmooth o.obj = clearSmooth e) :
    (commit st objs).map clearSmooth = st.map clearSmooth := by
  apply List.ext_getElem?
  intro i
  rw [List.getElem?_map, List.getElem?_map, getElem?_commit]
  cases hs : st[i]? with
  | none => rfl
  | some e =>
    simp only [Option.map_some']
    congr 1
    cases hf : objs.find? (fun o => o.addr = i) with
    | none => rfl
    | some o =>
      have hmem : o ∈ objs := List.mem_of_find?_eq_some hf
      have haddr : o.addr = i := by simpa using List.find?_some hf
      obtain ⟨e', he', hc⟩ := h o hmem
      rw [haddr, hs] at he'
      injection he' with he'
      subst he'
      exact hc

theorem refs_filter_map_obj (st : List Edge) (p : Edge → Bool) :
    ((refs st).filter (fun o => p o.obj)).map EdgeRef.obj = st.filter p := by
  have h := List.filter_map (f := EdgeRef.obj) (p := p) (l := refs st)
  rw [refs_map_obj] at h
  rw [h]
  rfl

theorem clearSmooth_obj_eraseSmooth (o : EdgeRef) :
    (eraseSmooth o).obj = clearSmooth o.obj := rfl

/-- The objects returned by `preprocessEdges` on a part of the store agree with
the store up to curvature. -/
theorem preprocessEdges_agrees_with_store (st : List Edge) (F : List EdgeRef)
    (hF : ∀ o ∈ F, o ∈ refs st) :
    ∀ o ∈ preprocessEdges F, ∃ e, st[o.addr]? = some e ∧ clearSmooth o.obj = clearSmooth e := by
  intro o ho
  obtain ⟨o0, h0, he⟩ := exists_of_mem_preprocessEdges F o ho
  have hst := (mem_refs st o0).1 (hF o0 h0)
  have ha : o.addr = o0.addr := by
    show (eraseSmooth o).addr = (eraseSmooth o0).addr
    rw [he]
  have hc : clearSmooth o.obj = clearSmooth o0.obj := by
    show (eraseSmooth o).obj = (eraseSmooth o0).obj
    rw [he]
  exact ⟨o0.obj, by rw [ha]; exact hst, hc⟩

/-- The effect of `updateTestimonyGraph` on a filter of the testimony store: the
store is unchanged up to curvature, and the visible edges are the filtered
edges up to order and curvature. -/
theorem showTestimony_filter (t : State) (q : Edge → Bool)
    (hq : ∀ e, q (clearSmooth e) = q e) :
    (showTestimony t ((refs t.fullTestimonyData.edges).filter (fun o => q o.obj))).fullTestimonyData.edges.map
        clearSmooth = t.fullTestimonyData.edges.map clearSmooth
    ∧ ((showTestimony t ((refs t.fullTestimonyData.edges).filter
          (fun o => q o.obj))).testimonyGraph.edges.map (fun v => clearSmooth v.edge)).Perm
        (((t.fullTestimonyData.edges.map clearSmooth).filter q)) := by
  constructor
  · apply commit_map_clearSmooth
    apply preprocessEdges_agrees_with_store
    intro o ho
    exact (List.mem_filter.1 ho).1
  · show ((edgesWithIds (preprocessEdges _)).map (fun v => clearSmooth v.edge)).Perm _
    have h1 : (edgesWithIds (preprocessEdges ((refs t.fullTestimonyData.edges).filter
        (fun o => q o.obj)))).map (fun v => clearSmooth v.edge)
        = (preprocessEdges ((refs t.fullTestimonyData.edges).filter
            (fun o => q o.obj))).map (fun o => clearSmooth o.obj) := by
      have := congrArg (List.map clearSmooth) (edgesWithIds_map_edge
        (preprocessEdges ((refs t.fullTestimonyData.edges).filter (fun o => q o.obj))))
      simpa [List.map_map, Function.comp_def] using this
    rw [h1]
    have h2 := preprocessEdges_perm_map (fun o => clearSmooth o.obj) (fun _ => rfl)
      ((refs t.fullTestimonyData.edges).filter (fun o => q o.obj))
    refine h2.trans ?_
    have h3 : ((refs t.fullTestimonyData.edges).filter (fun o => q o.obj)).map
        (fun o => clearSmooth o.obj)
        = (t.fullTestimonyData.edges.map clearSmooth).filter q := by
      have h4 := congrArg (List.map clearSmooth) (refs_filter_map_obj t.fullTestimonyData.edges q)
      rw [List.map_map] at h4
      rw [show (fun o : EdgeRef => clearSmooth o.obj) = clearSmooth ∘ EdgeRef.obj from rfl, h4,
        List.filter_map]
      congr 1
      apply List.filter_congr
      intro e _
      exact (hq e).symm
    rw [h3]

theorem iterate_invariant {α : Type} (Inv : α → Prop) (f : α → α)
    (hf : ∀ t, Inv t → Inv (f t)) : ∀ (n : Nat) (t : α), Inv t → Inv (Nat.iterate f n t) := by
  intro n
  induction n with
  | zero => intro t ht; exact ht
  | succ n ih => intro t ht; exact ih (f t) (hf t ht)

theorem accuserIs_some (e : Edge) (P : String) :
    accuserIs e (some P) = decide (e.accuser = some P) := by
  unfold accuserIs
  cases h : e.accuser with
  | none => simp
  | some a => by_cases hp : a = P <;> simp [hp]

theorem accusedIncludes_some (e : Edge) (P : String) :
    accusedIncludes e (some P) = decide (P ∈ e.accused.getD []) := by
  unfold accusedIncludes
  cases h : e.accused with
  | none => simp
  | some l => simp

theorem roleScopedEdges_eq (t : State) (P L : String) (role : Role)
    (hsel : t.selectedPersonId = some P) (hmode : t.testimonyRelationMode = some role) :
    roleScopedEdges t L = some ((refs t.fullTestimonyData.edges).filter
      (fun o => decide (RoleCondition role P o.obj ∧ LabelCondition L o.obj))) := by
  unfold roleScopedEdges
  rw [hsel, hmode]
  by_cases hL : L = allLabel
  · cases role with
    | accuser =>
      simp only [hL, if_true, Option.some.injEq]
      apply List.filter_congr
      intro o _
      simp [accuserIs_some, RoleCondition, LabelCondition]
    | accused =>
      simp only [hL, if_true, Option.some.injEq]
      apply List.filter_congr
      intro o _
      simp [accusedIncludes_some, RoleCondition, LabelCondition]
  · cases role with
    | accuser =>
      simp only [hL, if_false, Option.some.injEq]
      apply List.filter_congr
      intro o _
      by_cases hl : o.obj.label = L <;> simp [accuserIs_some, RoleCondition, LabelCondition, hL, hl]
    | accused =>
      simp only [hL, if_false, Option.some.injEq]
      apply List.filter_congr
      intro o _
      by_cases hl : o.obj.label = L <;>
        simp [accusedIncludes_some, RoleCondition, LabelCondition, hL, hl]

theorem labelFilterListener_roleScoped (t : State) (P L : String) (role : Role) (hP : P ≠ "")
    (hsel : t.selectedPersonId = some P) (hmode : t.testimonyRelationMode = some role) :
    labelFilterListener L t = showTestimony t ((refs t.fullTestimonyData.edges).filter
      (fun o => decide (RoleCondition role P o.obj ∧ LabelCondition L o.obj))) := by
  unfold labelFilterListener filterTestimonyEdgesByLabelForNode
  rw [roleScopedEdges_eq t P L role hsel hmode]
  have ht : truthy t.selectedPersonId = true := by
    rw [hsel, truthy_some_iff]
    exact hP
  simp [ht, hmode]

theorem labelFilterListener_global (t : State) (L : String)
    (h : t.selectedPersonId = none ∨ t.testimonyRelationMode = none) :
    labelFilterListener L t = showTestimony t ((refs t.fullTestimonyData.edges).filter
      (fun o => decide (LabelCondition L o.obj))) := by
  have hc : (truthy t.selectedPersonId && t.testimonyRelationMode.isSome) = false := by
    rcases h with h | h
    · simp [h, truthy]
    · simp [h]
  unfold labelFilterListener filterTestimonyEdgesByLabelForAll
  rw [hc]
  simp only [Bool.false_eq_true, if_false]
  congr 1
  by_cases hL : L = allLabel
  · simp only [hL, if_true]
    symm
    rw [List.filter_eq_self]
    intro o _
    simp [LabelCondition]
  · simp only [hL, if_false]
    apply List.filter_congr
    intro o _
    by_cases hl : o.obj.label = L <;> simp [LabelCondition, hL, hl]

theorem step_pressLabelFilter (t : State) (L : String) :
    step t (Action.pressLabelFilter L)
      = labelFilterListener L (Nat.iterate (labelFilterListener L) 5 t) := by
  show Nat.iterate (labelFilterListener L) (5 + 1) t = _
  rw [Function.iterate_succ_apply']

theorem step_pressRole (t : State) (role : Role) :
    step t (Action.pressRole role) = roleListener role (roleListener role t) := rfl

theorem step_pressShowAll (t : State) :
    step t Action.pressShowAll = showAllListener (showAllListener t) := rfl

theorem run_nil (s : State) : run s [] = s := rfl

theorem run_cons (s : State) (a : Action) (as : List Action) :
    run s (a :: as) = run (step s a) as := rfl

theorem run_append (s : State) (as bs : List Action) :
    run s (as ++ bs) = run (run s as) bs := by
  unfold run
  rw [List.foldl_append]

/-- C1: from every state, after an accusation-graph node click on a person `P`
(with a non-empty id), a role-button press and a label-filter press `L`, the
visible testimony edges are, up to order and curvature, exactly the stored
testimony edges that satisfy the role condition for `P` and carry the label `L`;
when `L` is the label for all, they are exactly the edges satisfying the role
condition. -/
theorem C1_role_scoped_label_filter (s : State) (P L : String) (role : Role) (hP : P ≠ "") :
    (((run s [Action.clickAccusationNode P, Action.pressRole role,
        Action.pressLabelFilter L]).testimonyGraph.edges.map (fun v => clearSmooth v.edge)).Perm
      ((s.fullTestimonyData.edges.filter
        (fun e => decide (RoleCondition role P e ∧ LabelCondition L e))).map clearSmooth))
    ∧ (L = allLabel →
      ((run s [Action.clickAccusationNode P, Action.pressRole role,
        Action.pressLabelFilter L]).testimonyGraph.edges.map (fun v => clearSmooth v.edge)).Perm
      ((s.fullTestimonyData.edges.filter
        (fun e => decide (RoleCondition role P e))).map clearSmooth)) := by
  have hq : ∀ e, decide (RoleCondition role P (clearSmooth e) ∧ LabelCondition L (clearSmooth e))
      = decide (RoleCondition role P e ∧ LabelCondition L e) := by
    intro e
    cases role <;> rfl
  -- the state after the node click and the role press
  have hrun : run s [Action.clickAccusationNode P, Action.pressRole role,
      Action.pressLabelFilter L]
      = labelFilterListener L (Nat.iterate (labelFilterListener L) 5
          (roleListener role (roleListener role (clickAccusationNode P s)))) := by
    rw [run_cons, run_cons, run_cons, run_nil, step_pressLabelFilter, step_pressRole]
    rfl
  have hinv0 : (roleListener role (roleListener role (clickAccusationNode P s))).selectedPersonId
        = some P
      ∧ (roleListener role (roleListener role (clickAccusationNode P s))).testimonyRelationMode
        = some role
      ∧ (roleListener role (roleListener role
          (clickAccusationNode P s))).fullTestimonyData.edges.map clearSmooth
        = s.fullTestimonyData.edges.map clearSmooth := by
    have ht : truthy (some P) = true := (truthy_some_iff P).2 hP
    simp [roleListener, clickAccusationNode, resetTestimonyGraph, resetButtons, ht]
  have hstep : ∀ t : State,
      (t.selectedPersonId = some P ∧ t.testimonyRelationMode = some role
        ∧ t.fullTestimonyData.edges.map clearSmooth = s.fullTestimonyData.edges.map clearSmooth) →
      ((labelFilterListener L t).selectedPersonId = some P
        ∧ (labelFilterListener L t).testimonyRelationMode = some role
        ∧ (labelFilterListener L t).fullTestimonyData.edges.map clearSmooth
          = s.fullTestimonyData.edges.map clearSmooth) := by
    intro t ⟨h1, h2, h3⟩
    rw [labelFilterListener_roleScoped t P L role hP h1 h2]
    refine ⟨h1, h2, ?_⟩
    rw [← h3]
    exact (showTestimony_filter t
      (fun e => decide (RoleCondition role P e ∧ LabelCondition L e)) hq).1
  have hinv := iterate_invariant _ (labelFilterListener L) hstep 5 _ hinv0
  have hmain : ((run s [Action.clickAccusationNode P, Action.pressRole role,
        Action.pressLabelFilter L]).testimonyGraph.edges.map (fun v => clearSmooth v.edge)).Perm
      ((s.fullTestimonyData.edges.filter
        (fun e => decide (RoleCondition role P e ∧ LabelCondition L e))).map clearSmooth) := by
    rw [hrun, labelFilterListener_roleScoped _ P L role hP hinv.1 hinv.2.1]
    refine (showTestimony_filter _
      (fun e => decide (RoleCondition role P e ∧ LabelCondition L e)) hq).2.trans ?_
    rw [hinv.2.2, List.filter_map]
    apply List.Perm.of_eq
    congr 1
  refine ⟨hmain, ?_⟩
  intro hL
  refine hmain.trans (List.Perm.of_eq ?_)
  congr 1
  apply List.filter_congr
  intro e _
  simp [LabelCondition, hL]

/-- Witness of C1: person `2` as accused with label `B` on the example state. -/
theorem C1_role_scoped_label_filter_witness :
    ((run exampleState [Action.clickAccusationNode "2", Action.pressRole Role.accused,
        Action.pressLabelFilter "B"]).testimonyGraph.edges.map (fun v => clearSmooth v.edge)).Perm
      ((exampleState.fullTestimonyData.edges.filter
        (fun e => decide (RoleCondition Role.accused "2" e ∧ LabelCondition "B" e))).map
          clearSmooth) :=
  (C1_role_scoped_label_filter exampleState "2" "B" Role.accused (by decide)).1

/-- C2: whenever no person is selected or no role has been chosen, a
label-filter press `L` shows, up to order and curvature, exactly the stored
testimony edges with label `L`, and all of them when `L` is the label for all;
the selected person plays no part. -/
theorem C2_global_label_filter (s : State) (L : String)
    (h : s.selectedPersonId = none ∨ s.testimonyRelationMode = none) :
    (((run s [Action.pressLabelFilter L]).testimonyGraph.edges.map
        (fun v => clearSmooth v.edge)).Perm
      ((s.fullTestimonyData.edges.filter (fun e => decide (LabelCondition L e))).map
        clearSmooth))
    ∧ (L = allLabel →
      ((run s [Action.pressLabelFilter L]).testimonyGraph.edges.map
        (fun v => clearSmooth v.edge)).Perm (s.fullTestimonyData.edges.map clearSmooth)) := by
  have hq : ∀ e, decide (LabelCondition L (clearSmooth e)) = decide (LabelCondition L e) :=
    fun _ => rfl
  have hrun : run s [Action.pressLabelFilter L]
      = labelFilterListener L (Nat.iterate (labelFilterListener L) 5 s) := by
    rw [run_cons, run_nil, step_pressLabelFilter]
  have hstep : ∀ t : State,
      ((t.selectedPersonId = none ∨ t.testimonyRelationMode = none)
        ∧ t.fullTestimonyData.edges.map clearSmooth = s.fullTestimonyData.edges.map clearSmooth) →
      (((labelFilterListener L t).selectedPersonId = none
          ∨ (labelFilterListener L t).testimonyRelationMode = none)
        ∧ (labelFilterListener L t).fullTestimonyData.edges.map clearSmooth
          = s.fullTestimonyData.edges.map clearSmooth) := by
    intro t ⟨h1, h3⟩
    rw [labelFilterListener_global t L h1]
    refine ⟨h1, ?_⟩
    rw [← h3]
    exact (showTestimony_filter t (fun e => decide (LabelCondition L e)) hq).1
  have hinv := iterate_invariant _ (labelFilterListener L) hstep 5 s ⟨h, rfl⟩
  have hmain : ((run s [Action.pressLabelFilter L]).testimonyGraph.edges.map
        (fun v => clearSmooth v.edge)).Perm
      ((s.fullTestimonyData.edges.filter (fun e => decide (LabelCondition L e))).map
        clearSmooth) := by
    rw [hrun, labelFilterListener_global _ L hinv.1]
    refine (showTestimony_filter _ (fun e => decide (LabelCondition L e)) hq).2.trans ?_
    rw [hinv.2, List.filter_map]
    apply List.Perm.of_eq
    congr 1
  refine ⟨hmain, ?_⟩
  intro hL
  refine hmain.trans (List.Perm.of_eq ?_)
  congr 1
  rw [List.filter_eq_self]
  intro e _
  simp [LabelCondition, hL]

/-- Witness of C2: the label `A` pressed on the example state, where nothing is
selected. -/
theorem C2_global_label_filter_witness :
    ((run exampleState [Action.pressLabelFilter "A"]).testimonyGraph.edges.map
        (fun v => clearSmooth v.edge)).Perm
      ((exampleState.fullTestimonyData.edges.filter
        (fun e => decide (LabelCondition "A" e))).map clearSmooth) :=
  (C2_global_label_filter exampleState "A" (Or.inl rfl)).1

/-- C6 fails on the code: with the single testimony edge from `1` to `2` with
accuser `3` and accused `2`, the initial draw shows the persons `1` and `2` but not
the accuser `3`, and "show all" shows `2` and `3` but not the endpoint `1`; the
label filter for all labels, which goes through `updateTestimonyGraph`, shows all
three. -/
theorem C6_unfiltered_projection_misses_touched_nodes :
    accuserApartState.testimonyGraph.nodes.map (fun node => node.person.id) = ["1", "2"]
    ∧ (run accuserApartState [Action.pressShowAll]).testimonyGraph.nodes.map
        (fun node => node.person.id) = ["2", "3"]
    ∧ (run accuserApartState [Action.pressShowAll]).testimonyGraph.edges.map
        (fun v => (v.edge.from_, v.edge.to_, v.edge.accuser)) = [("1", "2", some "3")]
    ∧ (run accuserApartState [Action.pressLabelFilter allLabel]).testimonyGraph.nodes.map
        (fun node => node.person.id) = ["1", "2", "3"] := by
  decide

/-- C9 fails on the code: after loading the example testimony edges, whose
first two edges share the pair `(1, 2)`, the label filter `B` shows the single
edge `edge-1`, alone on its pair, and the edge still carries the clockwise
curvature assigned at the initial draw. -/
theorem C9_singleton_keeps_stale_curvature :
    (run exampleState [Action.pressLabelFilter "B"]).testimonyGraph.edges.map
        (fun v => (v.id, v.edge.from_, v.edge.to_, v.edge.smooth))
      = [(some "edge-1", "1", "2",
          some { enabled := true, type := BendType.curvedCW,
                 roundness := 14411518807585588 })] := by
  decide

theorem edgeKey_clearSmooth (e : Edge) : edgeKey (clearSmooth e) = edgeKey e := rfl

theorem eq_of_clearSmooth_eq (e e' : Edge) (hc : clearSmooth e = clearSmooth e')
    (hs : e.smooth = e'.smooth) : e = e' := by
  cases e
  cases e'
  simp only [clearSmooth, Edge.mk.injEq] at hc
  simp only [Edge.mk.injEq]
  simp only at hs
  simp [hc, hs]

theorem length_filter_key_clear (st : List Edge) (k : String) :
    ((st.map clearSmooth).filter (fun x => decide (edgeKey x = k))).length
      = (st.filter (fun x => decide (edgeKey x = k))).length := by
  rw [List.filter_map, List.length_map]
  rfl

theorem getElem?_of_map_clear_eq (st st' : List Edge)
    (h : st.map clearSmooth = st'.map clearSmooth) (i : Nat) (e : Edge)
    (he : st[i]? = some e) : ∃ e', st'[i]? = some e' ∧ clearSmooth e = clearSmooth e' := by
  have h1 : (st.map clearSmooth)[i]? = some (clearSmooth e) := by
    rw [List.getElem?_map, he]
    rfl
  rw [h, List.getElem?_map] at h1
  cases hs : st'[i]? with
  | none => rw [hs] at h1; exact absurd h1 (by simp)
  | some e' =>
    rw [hs] at h1
    have h2 : some (clearSmooth e') = some (clearSmooth e) := h1
    injection h2 with h2
    exact ⟨e', rfl, h2.symm⟩

theorem storeSim_refl (st : List Edge) : StoreSim st st := by
  refine ⟨rfl, ?_⟩
  intro i e e' h1 h2 _
  rw [h1] at h2
  injection h2 with h2
  rw [h2]

theorem storeSim_trans {st st' st'' : List Edge} (h1 : StoreSim st st')
    (h2 : StoreSim st' st'') : StoreSim st st'' := by
  refine ⟨h1.1.trans h2.1, ?_⟩
  intro i e e'' he he'' hcount
  obtain ⟨e', he', hc⟩ := getElem?_of_map_clear_eq st st' h1.1 i e he
  have hk : edgeKey e' = edgeKey e := by
    rw [← edgeKey_clearSmooth e', ← hc, edgeKey_clearSmooth]
  have hcount' : (st'.filter (fun x => decide (edgeKey x = edgeKey e'))).length = 1 := by
    rw [hk, ← length_filter_key_clear, ← h1.1, length_filter_key_clear]
    exact hcount
  exact (h1.2 i e e' he he' hcount).trans (h2.2 i e' e'' he' he'' hcount')

theorem processGroup_of_length_le_one (g : List EdgeRef) (h : g.length ≤ 1) :
    processGroup g = g := by
  unfold processGroup
  split
  · rfl
  · have h0 : g.length = 0 := by omega
    have hg : g = [] := List.length_eq_zero.1 h0
    subst hg
    rfl

/-- Writing back `preprocessEdges` of a part of the store keeps the store up to
curvature and keeps the curvature of every edge alone on its key. -/
theorem storeSim_commit (st : List Edge) (F : List EdgeRef) (hF : F.Sublist (refs st)) :
    StoreSim st (commit st (preprocessEdges F)) := by
  have hsub : ∀ o ∈ F, o ∈ refs st := fun o ho => hF.subset ho
  have hagree := preprocessEdges_agrees_with_store st F hsub
  refine ⟨(commit_map_clearSmooth st _ hagree).symm, ?_⟩
  intro i e e' he he' hcount
  rw [getElem?_commit, he] at he'
  simp only [Option.map_some', Option.some.injEq] at he'
  cases hf : (preprocessEdges F).find? (fun o => o.addr = i) with
  | none =>
    rw [hf] at he'
    rw [← he']
  | some o =>
    rw [hf] at he'
    simp only at he'
    have hmem : o ∈ preprocessEdges F := List.mem_of_find?_eq_some hf
    have haddr : o.addr = i := by simpa using List.find?_some hf
    obtain ⟨e0, he0, hc⟩ := hagree o hmem
    rw [haddr, he] at he0
    injection he0 with he0
    subst he0
    have hk : edgeKey o.obj = edgeKey e := by
      rw [← edgeKey_clearSmooth o.obj, hc, edgeKey_clearSmooth]
    -- the group of `o` in `F` has at most one element
    have hG : (groupOf (refs st) (edgeKey e)).length = 1 := by
      have h1 := congrArg List.length
        (refs_filter_map_obj st (fun x => decide (edgeKey x = edgeKey e)))
      rw [List.length_map] at h1
      unfold groupOf
      rw [h1]
      exact hcount
    have hle : (groupOf F (edgeKey e)).length ≤ 1 := by
      have := (hF.filter (fun o => decide (edgeKey o.obj = edgeKey e))).length_le
      unfold groupOf at hG ⊢
      omega
    have hin : o ∈ (preprocessEdges F).filter (fun o => decide (edgeKey o.obj = edgeKey e)) :=
      List.mem_filter.2 ⟨hmem, by simpa using hk⟩
    rw [filter_preprocessEdges, processGroup_of_length_le_one _ hle] at hin
    have hoF : o ∈ F := (List.mem_filter.1 hin).1
    have hst := (mem_refs st o).1 (hsub o hoF)
    rw [haddr, he] at hst
    injection hst with hst
    rw [← he', ← hst]

theorem keysOf_eq_foldl_map (l : List EdgeRef) :
    keysOf l = (l.map (fun o => edgeKey o.obj)).foldl addKey [] := by
  unfold keysOf
  rw [List.foldl_map]

theorem refs_map_eraseSmooth (st : List Edge) :
    (refs st).map eraseSmooth = refs (st.map clearSmooth) := by
  apply List.ext_getElem?
  intro i
  rw [List.getElem?_map, getElem?_refs, getElem?_refs, List.getElem?_map]
  cases st[i]? <;> rfl

theorem groupOf_map_eraseSmooth (l : List EdgeRef) (k : String) :
    (groupOf l k).map eraseSmooth = groupOf (l.map eraseSmooth) k := by
  unfold groupOf
  rw [List.filter_map]
  rfl

theorem mapIdx_setSmooth_map_eraseSmooth (l : List EdgeRef) :
    (l.map eraseSmooth).mapIdx setSmooth = l.mapIdx setSmooth := by
  apply List.ext_getElem?
  intro i
  rw [List.getElem?_mapIdx, List.getElem?_mapIdx, List.getElem?_map]
  cases l[i]? <;> rfl

/-- On two versions of a store related by `StoreSim`, `preprocessEdges` of the
whole store returns the same array. -/
theorem preprocessEdges_refs_of_storeSim (st st' : List Edge) (h : StoreSim st st') :
    preprocessEdges (refs st) = preprocessEdges (refs st') := by
  have herase : (refs st).map eraseSmooth = (refs st').map eraseSmooth := by
    rw [refs_map_eraseSmooth, refs_map_eraseSmooth, h.1]
  have hkeys : keysOf (refs st) = keysOf (refs st') := by
    rw [keysOf_eq_foldl_map, keysOf_eq_foldl_map]
    have e1 : ∀ l : List EdgeRef, l.map (fun o => edgeKey o.obj)
        = (l.map eraseSmooth).map (fun o => edgeKey o.obj) := by
      intro l
      rw [List.map_map]
      rfl
    rw [e1 (refs st), e1 (refs st'), herase]
  rw [preprocessEdges_eq, preprocessEdges_eq, hkeys]
  apply List.flatMap_congr
  intro k _
  have hg : (groupOf (refs st) k).map eraseSmooth = (groupOf (refs st') k).map eraseSmooth := by
    rw [groupOf_map_eraseSmooth, groupOf_map_eraseSmooth, herase]
  have hlen : (groupOf (refs st) k).length = (groupOf (refs st') k).length := by
    have := congrArg List.length hg
    simpa using this
  by_cases h1 : (groupOf (refs st) k).length = 1
  · have h1' : (groupOf (refs st') k).length = 1 := by omega
    obtain ⟨o, ho⟩ := List.length_eq_one.1 h1
    obtain ⟨o', ho'⟩ := List.length_eq_one.1 h1'
    rw [ho, ho'] at hg
    simp only [List.map_cons, List.map_nil, List.cons.injEq, and_true] at hg
    have hom : o ∈ groupOf (refs st) k := by rw [ho]; exact List.mem_singleton_self o
    have hom' : o' ∈ groupOf (refs st') k := by rw [ho']; exact List.mem_singleton_self o'
    have hko : edgeKey o.obj = k := edgeKey_of_mem_groupOf _ k o hom
    have hst := (mem_refs st o).1 (List.mem_filter.1 hom).1
    have hst' := (mem_refs st' o').1 (List.mem_filter.1 hom').1
    have haddr : o.addr = o'.addr := by
      show (eraseSmooth o).addr = (eraseSmooth o').addr
      rw [hg]
    have hobj : clearSmooth o.obj = clearSmooth o'.obj := by
      show (eraseSmooth o).obj = (eraseSmooth o').obj
      rw [hg]
    have hcount : (st.filter (fun x => decide (edgeKey x = edgeKey o.obj))).length = 1 := by
      have h2 := congrArg List.length
        (refs_filter_map_obj st (fun x => decide (edgeKey x = edgeKey o.obj)))
      rw [List.length_map] at h2
      rw [← h2, hko]
      exact h1
    rw [← haddr] at hst'
    have hsm := h.2 o.addr o.obj o'.obj hst hst' hcount
    have heq : o = o' := by
      cases o
      cases o'
      simp only [EdgeRef.mk.injEq]
      exact ⟨haddr, eq_of_clearSmooth_eq _ _ hobj hsm⟩
    rw [ho, ho', heq]
  · have h1' : ¬ (groupOf (refs st') k).length = 1 := by omega
    unfold processGroup
    rw [if_neg h1, if_neg h1', ← mapIdx_setSmooth_map_eraseSmooth,
      ← mapIdx_setSmooth_map_eraseSmooth (groupOf (refs st') k), hg]

theorem exists_find?_addr (X : List EdgeRef) (i : Nat) (h : ∃ o ∈ X, o.addr = i) :
    ∃ o, X.find? (fun o => decide (o.addr = i)) = some o := by
  obtain ⟨o, ho, ha⟩ := h
  have : (X.find? (fun o => decide (o.addr = i))).isSome = true := by
    rw [List.find?_isSome]
    exact ⟨o, ho, by simpa using ha⟩
  exact Option.isSome_iff_exists.1 this

/-- Writing back `preprocessEdges` of the whole store gives the same store for
two versions related by `StoreSim`. -/
theorem commit_refs_of_storeSim (st st' : List Edge) (h : StoreSim st st') :
    commit st (preprocessEdges (refs st)) = commit st' (preprocessEdges (refs st')) := by
  rw [← preprocessEdges_refs_of_storeSim st st' h]
  apply List.ext_getElem?
  intro i
  rw [getElem?_commit, getElem?_commit]
  cases hs : st[i]? with
  | none =>
    have hlen : st.length = st'.length := by
      have := congrArg List.length h.1
      simpa using this
    have hi : st.length ≤ i := by
      by_contra hc
      rw [List.getElem?_eq_getElem (by omega)] at hs
      exact absurd hs (by simp)
    have hs' : st'[i]? = none := List.getElem?_eq_none (by omega)
    rw [hs']
  | some e =>
    obtain ⟨e', he', _⟩ := getElem?_of_map_clear_eq st st' h.1 i e hs
    rw [he']
    have hmem : ∃ o ∈ preprocessEdges (refs st), o.addr = i := by
      have h0 : ({ addr := i, obj := e } : EdgeRef) ∈ refs st := (mem_refs st _).2 hs
      have h1 : eraseSmooth { addr := i, obj := e } ∈ (preprocessEdges (refs st)).map eraseSmooth :=
        (preprocessEdges_perm (refs st)).symm.subset (List.mem_map_of_mem _ h0)
      obtain ⟨o, ho, hoe⟩ := List.mem_map.1 h1
      refine ⟨o, ho, ?_⟩
      show (eraseSmooth o).addr = i
      rw [hoe]
      rfl
    obtain ⟨o, ho⟩ := exists_find?_addr _ i hmem
    simp only [Option.map_some', ho]

theorem storeSim_symm {st st' : List Edge} (h : StoreSim st st') : StoreSim st' st := by
  refine ⟨h.1.symm, ?_⟩
  intro i e' e he' he hcount
  obtain ⟨e2, he2, hc⟩ := getElem?_of_map_clear_eq st' st h.1.symm i e' he'
  rw [he] at he2
  injection he2 with he2
  subst he2
  have hk : edgeKey e = edgeKey e' := by
    rw [← edgeKey_clearSmooth e, ← hc, edgeKey_clearSmooth]
  have hcount' : (st.filter (fun x => decide (edgeKey x = edgeKey e))).length = 1 := by
    rw [hk, ← length_filter_key_clear, h.1, length_filter_key_clear]
    exact hcount
  exact (h.2 i e e' he he' hcount').symm

theorem sim_symm {t u : State} (h : Sim t u) : Sim u t :=
  ⟨h.1.symm, h.2.1.symm, storeSim_symm h.2.2⟩

theorem sim_refl (t : State) : Sim t t :=
  ⟨rfl, rfl, storeSim_refl _⟩

theorem sim_trans {t u v : State} (h1 : Sim t u) (h2 : Sim u v) : Sim t v :=
  ⟨h1.1.trans h2.1, h1.2.1.trans h2.2.1, storeSim_trans h1.2.2 h2.2.2⟩

theorem sim_of_eq (t u : State) (hp : t.peopleData = u.peopleData)
    (hd : t.fullTestimonyData = u.fullTestimonyData) : Sim t u := by
  refine ⟨hp, by rw [hd], ?_⟩
  rw [hd]
  exact storeSim_refl _

theorem showTestimony_sim (t : State) (F : List EdgeRef)
    (hF : F.Sublist (refs t.fullTestimonyData.edges)) : Sim t (showTestimony t F) :=
  ⟨rfl, rfl, storeSim_commit _ F hF⟩

theorem roleScopedEdges_sublist (t : State) (L : String) (F : List EdgeRef)
    (h : roleScopedEdges t L = some F) : F.Sublist (refs t.fullTestimonyData.edges) := by
  unfold roleScopedEdges at h
  split at h
  · split at h
    · injection h with h; rw [← h]; exact List.filter_sublist _
    · injection h with h; rw [← h]; exact List.filter_sublist _
    · exact absurd h (by simp)
  · split at h
    · injection h with h; rw [← h]; exact List.filter_sublist _
    · injection h with h; rw [← h]; exact List.filter_sublist _
    · exact absurd h (by simp)

theorem labelFilterListener_sim (L : String) (t : State) : Sim t (labelFilterListener L t) := by
  unfold labelFilterListener
  split
  · unfold filterTestimonyEdgesByLabelForNode
    cases h : roleScopedEdges t L with
    | none => exact sim_refl t
    | some F => exact showTestimony_sim t F (roleScopedEdges_sublist t L F h)
  · unfold filterTestimonyEdgesByLabelForAll
    split
    · exact showTestimony_sim t _ (List.Sublist.refl _)
    · exact showTestimony_sim t _ (List.filter_sublist _)

theorem roleListener_sim (role : Role) (t : State) : Sim t (roleListener role t) := by
  unfold roleListener
  split
  · exact sim_refl t
  · exact sim_of_eq _ _ rfl rfl

theorem showAllListener_sim (t : State) : Sim t (showAllListener t) :=
  ⟨rfl, rfl, storeSim_commit _ _ (List.Sublist.refl _)⟩

theorem identityFilterListener_sim (identity : String) (t : State) :
    Sim t (identityFilterListener identity t) := by
  unfold identityFilterListener
  split
  · exact sim_of_eq _ _ rfl rfl
  · exact sim_of_eq _ _ rfl rfl

theorem iterate_sim (f : State → State) (hf : ∀ t, Sim t (f t)) :
    ∀ (n : Nat) (t : State), Sim t (Nat.iterate f n t) := by
  intro n
  induction n with
  | zero => intro t; exact sim_refl t
  | succ n ih => intro t; exact sim_trans (hf t) (ih (f t))

theorem step_sim (t : State) (a : Action) : Sim t (step t a) := by
  cases a with
  | clickAccusationNode nodeId => exact sim_of_eq _ _ rfl rfl
  | clickAccusationEdge edgeId => exact sim_of_eq _ _ rfl rfl
  | clickAccusationCanvas => exact sim_refl t
  | clickTestimonyNode nodeId => exact sim_refl t
  | clickTestimonyEdge edgeId => exact sim_refl t
  | clickTestimonyCanvas => exact sim_refl t
  | pressRole role => exact iterate_sim _ (roleListener_sim role) 2 t
  | pressShowAll => exact iterate_sim _ showAllListener_sim 2 t
  | pressLabelFilter L => exact iterate_sim _ (labelFilterListener_sim L) 6 t
  | pressIdentityFilter identity => exact identityFilterListener_sim identity t

theorem run_sim (actions : List Action) : ∀ s : State, Sim s (run s actions) := by
  induction actions with
  | nil => intro s; exact sim_refl s
  | cons a as ih => intro s; exact sim_trans (step_sim s a) (ih (step s a))

theorem roleIds_clearSmooth (e : Edge) : roleIds (clearSmooth e) = roleIds e := rfl

theorem showAllListener_agree (t u : State) (h : Sim t u) :
    Agree (showAllListener t) (showAllListener u) := by
  obtain ⟨hp, hn, hs⟩ := h
  have hpre := preprocessEdges_refs_of_storeSim _ _ hs
  have hcom := commit_refs_of_storeSim _ _ hs
  have hids : t.fullTestimonyData.edges.flatMap roleIds
      = u.fullTestimonyData.edges.flatMap roleIds := by
    have e1 : ∀ st : List Edge, st.flatMap roleIds = (st.map clearSmooth).flatMap roleIds := by
      intro st
      rw [List.flatMap_map]
      rfl
    rw [e1 t.fullTestimonyData.edges, e1 u.fullTestimonyData.edges, hs.1]
  have hcom2 : commit t.fullTestimonyData.edges (preprocessEdges (refs u.fullTestimonyData.edges))
      = commit u.fullTestimonyData.edges (preprocessEdges (refs u.fullTestimonyData.edges)) := by
    rw [← hcom, hpre]
  unfold Agree showAllListener restoreTestimonyGraph
  simp only [hp, hn, hpre, hcom2, hids, and_self]

theorem roleScopedEdges_congr (t u : State) (L : String)
    (hd : t.fullTestimonyData = u.fullTestimonyData)
    (hsel : t.selectedPersonId = u.selectedPersonId)
    (hmode : t.testimonyRelationMode = u.testimonyRelationMode) :
    roleScopedEdges t L = roleScopedEdges u L := by
  unfold roleScopedEdges
  rw [hd, hsel, hmode]

theorem showTestimony_agree (t u : State) (F : List EdgeRef) (h : Agree t u) :
    Agree (showTestimony t F) (showTestimony u F) := by
  obtain ⟨hp, hd, hsel, hmode, _⟩ := h
  unfold Agree showTestimony
  simp only [hp, hd, hsel, hmode, and_self]

theorem labelFilterListener_agree (L : String) (t u : State) (h : Agree t u) :
    Agree (labelFilterListener L t) (labelFilterListener L u) := by
  have h' := h
  obtain ⟨hp, hd, hsel, hmode, hg⟩ := h'
  unfold labelFilterListener filterTestimonyEdgesByLabelForNode filterTestimonyEdgesByLabelForAll
  rw [roleScopedEdges_congr t u L hd hsel hmode, hsel, hmode, hd]
  split
  · cases roleScopedEdges u L with
    | none => exact h
    | some F => exact showTestimony_agree t u F h
  · exact showTestimony_agree t u _ h

theorem iterate_agree (f : State → State) (hf : ∀ t u, Agree t u → Agree (f t) (f u)) :
    ∀ (n : Nat) (t u : State), Agree t u → Agree (Nat.iterate f n t) (Nat.iterate f n u) := by
  intro n
  induction n with
  | zero => intro t u h; exact h
  | succ n ih => intro t u h; exact ih (f t) (f u) (hf t u h)

theorem sim_of_agree (t u : State) (h : Agree t u) : Sim t u :=
  sim_of_eq t u h.1 h.2.1

/-- C3: for every two action histories over the same loaded data that both end
with "show all" followed by the same label-filter press, the resulting testimony
projection (the visible nodes with their degree values, the visible edges with
their ids and curvature) is the same. -/
theorem C3_projection_after_show_all_is_history_independent (peopleData : List Person)
    (accusation testimony : GraphData) (history1 history2 : List Action) (L : String) :
    (run (loadData peopleData accusation testimony)
        (history1 ++ [Action.pressShowAll, Action.pressLabelFilter L])).testimonyGraph
      = (run (loadData peopleData accusation testimony)
        (history2 ++ [Action.pressShowAll, Action.pressLabelFilter L])).testimonyGraph := by
  have hsim : Sim (run (loadData peopleData accusation testimony) history1)
      (run (loadData peopleData accusation testimony) history2) :=
    sim_trans (sim_symm (run_sim history1 _)) (run_sim history2 _)
  have h1 := showAllListener_agree _ _ hsim
  have h2 := showAllListener_agree _ _ (sim_of_agree _ _ h1)
  have h3 := iterate_agree _ (labelFilterListener_agree L) 6 _ _ h2
  rw [run_append, run_append, run_cons, run_cons, run_nil, run_cons, run_cons, run_nil]
  exact h3.2.2.2.2

theorem foldl_addKey (ks : List String) :
    ∀ acc : List String,
      ks.foldl addKey acc = acc ++ (firstKeys ks).filter (fun k => decide (k ∉ acc)) := by
  induction ks with
  | nil => intro acc; simp [firstKeys]
  | cons k rest ih =>
    intro acc
    rw [List.foldl_cons, ih]
    by_cases hk : k ∈ acc
    · have h1 : addKey acc k = acc := by simp [addKey, hk]
      rw [h1]
      congr 1
      simp only [firstKeys, List.filter_cons, hk, not_true_eq_false, decide_False,
        Bool.false_eq_true, if_false, List.filter_filter]
      apply List.filter_congr
      intro x _
      by_cases hx : x ∈ acc
      · simp [hx]
      · have : x ≠ k := fun e => hx (e ▸ hk)
        simp [hx, this]
    · have h1 : addKey acc k = acc ++ [k] := by simp [addKey, hk]
      rw [h1]
      simp only [firstKeys, List.filter_cons, hk, not_false_eq_true, decide_True, if_true,
        List.filter_filter, List.append_assoc, List.singleton_append]
      congr 2
      apply List.filter_congr
      intro x _
      by_cases hx : x ∈ acc
      · simp [hx]
      · by_cases hxk : x = k
        · simp [hxk]
        · simp [hx, hxk]

/-- The keys in the order in which the grouping loop creates the groups are the
keys of the array in order of first occurrence. -/
theorem keysOf_eq_firstKeys (l : List EdgeRef) :
    keysOf l = firstKeys (l.map (fun o => edgeKey o.obj)) := by
  rw [keysOf_eq_foldl_map, foldl_addKey]
  simp

theorem length_preprocessEdges (l : List EdgeRef) : (preprocessEdges l).length = l.length := by
  have h := (preprocessEdges_perm l).length_eq
  simpa using h

/-- C11: for every edge list, `preprocessEdges` returns a permutation of its
input (the same references with the same fields, apart from the curvature the
function assigns; same length), in which the groups appear in order of the
first occurrence of their key and the edges inside each group keep their input
order: the output is the concatenation, over the keys in order of first
occurrence, of the input edges that carry the key. -/
theorem C11_output_is_grouped_permutation (l : List EdgeRef) :
    ((preprocessEdges l).map eraseSmooth).Perm (l.map eraseSmooth)
    ∧ (preprocessEdges l).length = l.length
    ∧ (preprocessEdges l).map eraseSmooth
        = (firstKeys (l.map (fun o => edgeKey o.obj))).flatMap
            (fun k => (l.filter (fun o => decide (edgeKey o.obj = k))).map eraseSmooth) := by
  refine ⟨preprocessEdges_perm l, length_preprocessEdges l, ?_⟩
  rw [preprocessEdges_eq, List.map_flatMap, keysOf_eq_firstKeys]
  apply List.flatMap_congr
  intro k _
  rw [processGroup_map_eraseSmooth]
  rfl

theorem sameGroup_iff_edgeKey (l : List EdgeRef) (o1 o2 : EdgeRef) (h1 : o1 ∈ l)
    (h2 : o2 ∈ l) : SameGroup l o1 o2 ↔ edgeKey o1.obj = edgeKey o2.obj := by
  unfold SameGroup
  rw [groupEdges_eq]
  constructor
  · rintro ⟨kg, hkg, hm1, hm2⟩
    obtain ⟨k, _, rfl⟩ := List.mem_map.1 hkg
    rw [edgeKey_of_mem_groupOf l k o1 hm1, edgeKey_of_mem_groupOf l k o2 hm2]
  · intro hk
    refine ⟨(edgeKey o1.obj, groupOf l (edgeKey o1.obj)), ?_, ?_, ?_⟩
    · exact List.mem_map.2 ⟨edgeKey o1.obj, (mem_keysOf l _).2 ⟨o1, h1, rfl⟩, rfl⟩
    · exact List.mem_filter.2 ⟨h1, by simp⟩
    · exact List.mem_filter.2 ⟨h2, by simp [hk]⟩

theorem append_underscore_cancel (a : List Char) :
    ∀ (c b d : List Char), '_' ∉ a → '_' ∉ c → a ++ '_' :: b = c ++ '_' :: d → a = c ∧ b = d := by
  induction a with
  | nil =>
    intro c b d _ hc h
    cases c with
    | nil =>
      simp only [List.nil_append, List.cons.injEq, true_and] at h
      exact ⟨rfl, h⟩
    | cons x c =>
      simp only [List.nil_append, List.cons_append, List.cons.injEq] at h
      exact absurd (h.1 ▸ List.mem_cons_self _ _ : '_' ∈ x :: c) hc
  | cons y a ih =>
    intro c b d ha hc h
    cases c with
    | nil =>
      simp only [List.nil_append, List.cons_append, List.cons.injEq] at h
      exact absurd (h.1 ▸ List.mem_cons_self _ _ : '_' ∈ y :: a) ha
    | cons x c =>
      simp only [List.cons_append, List.cons.injEq] at h
      have ha' : '_' ∉ a := fun e => ha (List.mem_cons_of_mem _ e)
      have hc' : '_' ∉ c := fun e => hc (List.mem_cons_of_mem _ e)
      obtain ⟨e1, e2⟩ := ih c b d ha' hc' h.2
      exact ⟨by rw [h.1, e1], e2⟩

/-- The grouping key determines the ordered pair when the `from` ids contain no
underscore. -/
theorem edgeKey_injective_of_no_underscore (e1 e2 : Edge) (h1 : '_' ∉ e1.from_.data)
    (h2 : '_' ∉ e2.from_.data) (hk : edgeKey e1 = edgeKey e2) :
    e1.from_ = e2.from_ ∧ e1.to_ = e2.to_ := by
  have hd := congrArg String.data hk
  simp only [edgeKey, String.data_append] at hd
  simp only [List.append_assoc, List.singleton_append] at hd
  obtain ⟨ea, eb⟩ := append_underscore_cancel _ _ _ _ h1 h2 hd
  exact ⟨String.ext ea, String.ext eb⟩

/-- C12 (amended): two edges of a list are put in the same group by
`preprocessEdges` if and only if they have the same key `from_to`; two edges with
the same `from` and the same `to` are always in the same group, and when the
`from` ids of the two edges contain no underscore the converse holds: they are
in the same group if and only if they have the same `from` and the same `to`. -/
theorem C12_group_iff_same_key (l : List EdgeRef) (o1 o2 : EdgeRef) (h1 : o1 ∈ l)
    (h2 : o2 ∈ l) :
    (SameGroup l o1 o2 ↔ edgeKey o1.obj = edgeKey o2.obj)
    ∧ ((o1.obj.from_ = o2.obj.from_ ∧ o1.obj.to_ = o2.obj.to_) → SameGroup l o1 o2)
    ∧ ('_' ∉ o1.obj.from_.data → '_' ∉ o2.obj.from_.data →
        (SameGroup l o1 o2 ↔ (o1.obj.from_ = o2.obj.from_ ∧ o1.obj.to_ = o2.obj.to_))) := by
  have hkey := sameGroup_iff_edgeKey l o1 o2 h1 h2
  have hpair : (o1.obj.from_ = o2.obj.from_ ∧ o1.obj.to_ = o2.obj.to_) → SameGroup l o1 o2 := by
    rintro ⟨e1, e2⟩
    rw [hkey]
    unfold edgeKey
    rw [e1, e2]
  refine ⟨hkey, hpair, ?_⟩
  intro hu1 hu2
  constructor
  · intro hs
    exact edgeKey_injective_of_no_underscore _ _ hu1 hu2 (hkey.1 hs)
  · exact hpair

/-- Witness of C12: the two parallel edges of the pair `(1, 2)`. -/
theorem C12_group_iff_same_key_witness :
    SameGroup [parallelA, parallelB] parallelA parallelB
      ↔ (parallelA.obj.from_ = parallelB.obj.from_ ∧ parallelA.obj.to_ = parallelB.obj.to_) :=
  (C12_group_iff_same_key [parallelA, parallelB] parallelA parallelB (by decide)
    (by decide)).2.2 (by decide) (by decide)

/-- C12 fails as stated: in `collidingEdges` the edges of the pairs `(a_b, c)` and
`(a, b_c)` have the same key and are put in one group. -/
theorem C12_counterexample_key_collision : ¬ GroupsByPair collidingEdges := by
  intro h
  have h1 := (h { addr := 0, obj := { from_ := "a_b", to_ := "c", label := "A" } } (by decide)
    { addr := 1, obj := { from_ := "a", to_ := "b_c", label := "A" } } (by decide)).1 (by decide)
  revert h1
  decide

theorem frame_refl (s : State) : Frame s s :=
  ⟨rfl, rfl, storeSim_refl _, rfl, storeSim_refl _⟩

theorem frame_trans {s t u : State} (h1 : Frame s t) (h2 : Frame t u) : Frame s u :=
  ⟨h1.1.trans h2.1, h1.2.1.trans h2.2.1, storeSim_trans h1.2.2.1 h2.2.2.1,
    h1.2.2.2.1.trans h2.2.2.2.1, storeSim_trans h1.2.2.2.2 h2.2.2.2.2⟩

theorem frame_symm {s t : State} (h : Frame s t) : Frame t s :=
  ⟨h.1.symm, h.2.1.symm, storeSim_symm h.2.2.1, h.2.2.2.1.symm, storeSim_symm h.2.2.2.2⟩

theorem frame_of_sim (s t : State) (h : Sim s t)
    (hacc : s.fullAccusationData = t.fullAccusationData) : Frame s t := by
  refine ⟨h.1, by rw [hacc], ?_, h.2.1, h.2.2⟩
  rw [hacc]
  exact storeSim_refl _

theorem showTestimony_accusation (t : State) (F : List EdgeRef) :
    (showTestimony t F).fullAccusationData = t.fullAccusationData := rfl

theorem labelFilterListener_accusation (L : String) (t : State) :
    (labelFilterListener L t).fullAccusationData = t.fullAccusationData := by
  unfold labelFilterListener
  split
  · unfold filterTestimonyEdgesByLabelForNode
    cases roleScopedEdges t L with
    | none => rfl
    | some F => rfl
  · rfl

theorem labelFilterListener_frame (L : String) (t : State) :
    Frame t (labelFilterListener L t) :=
  frame_of_sim _ _ (labelFilterListener_sim L t) (labelFilterListener_accusation L t).symm

theorem roleListener_frame (role : Role) (t : State) : Frame t (roleListener role t) := by
  unfold roleListener
  split
  · exact frame_refl t
  · exact frame_of_sim _ _ (sim_of_eq _ _ rfl rfl) rfl

theorem showAllListener_frame (t : State) : Frame t (showAllListener t) :=
  frame_of_sim _ _ (showAllListener_sim t) rfl

theorem identityFilterListener_frame (identity : String) (t : State) :
    Frame t (identityFilterListener identity t) := by
  unfold identityFilterListener
  split
  · exact ⟨rfl, rfl, storeSim_commit _ _ (List.Sublist.refl _), rfl, storeSim_refl _⟩
  · exact ⟨rfl, rfl, storeSim_commit _ _ (List.filter_sublist _), rfl, storeSim_refl _⟩

theorem iterate_frame (f : State → State) (hf : ∀ t, Frame t (f t)) :
    ∀ (n : Nat) (t : State), Frame t (Nat.iterate f n t) := by
  intro n
  induction n with
  | zero => intro t; exact frame_refl t
  | succ n ih => intro t; exact frame_trans (hf t) (ih (f t))

theorem step_frame (t : State) (a : Action) : Frame t (step t a) := by
  cases a with
  | clickAccusationNode nodeId => exact frame_of_sim _ _ (sim_of_eq _ _ rfl rfl) rfl
  | clickAccusationEdge edgeId => exact frame_of_sim _ _ (sim_of_eq _ _ rfl rfl) rfl
  | clickAccusationCanvas => exact frame_refl t
  | clickTestimonyNode nodeId => exact frame_refl t
  | clickTestimonyEdge edgeId => exact frame_refl t
  | clickTestimonyCanvas => exact frame_refl t
  | pressRole role => exact iterate_frame _ (roleListener_frame role) 2 t
  | pressShowAll => exact iterate_frame _ showAllListener_frame 2 t
  | pressLabelFilter L => exact iterate_frame _ (labelFilterListener_frame L) 6 t
  | pressIdentityFilter identity => exact identityFilterListener_frame identity t

theorem run_frame (actions : List Action) : ∀ s : State, Frame s (run s actions) := by
  induction actions with
  | nil => intro s; exact frame_refl s
  | cons a as ih => intro s; exact frame_trans (step_frame s a) (ih (step s a))

theorem drawGraph_storeSim (peopleData : List Person) (data : GraphData)
    (isTestimonyGraph : Bool) :
    StoreSim data.edges (drawGraph peopleData data isTestimonyGraph).1.edges := by
  cases isTestimonyGraph with
  | true => exact storeSim_commit _ _ (List.Sublist.refl _)
  | false =>
    refine ⟨?_, ?_⟩
    · symm
      apply commit_map_clearSmooth
      intro o ho
      exact ⟨o.obj, (mem_refs _ o).1 ho, rfl⟩
    · intro i e e' he he' _
      have h2 : (commit data.edges (refs data.edges))[i]? = some e' := he'
      rw [getElem?_commit, he] at h2
      simp only [Option.map_some', Option.some.injEq] at h2
      cases hf : (refs data.edges).find? (fun o => decide (o.addr = i)) with
      | none =>
        rw [hf] at h2
        rw [← h2]
      | some o =>
        rw [hf] at h2
        simp only at h2
        have hmem : o ∈ refs data.edges := List.mem_of_find?_eq_some hf
        have haddr : o.addr = i := by simpa using List.find?_some hf
        have hst := (mem_refs _ o).1 hmem
        rw [haddr, he] at hst
        injection hst with hst
        rw [← h2, ← hst]

/-- Every sequence of actions, and the initial draw, leave the people store
unchanged and leave the two edge stores unchanged in every attribute of every
stored edge except the curvature attribute `smooth`, which `preprocessEdges`
assigns on the stored edges of a group of two or more; a stored edge whose key
no other stored edge shares keeps its curvature attribute as well. -/
theorem stores_unchanged_up_to_curvature (s : State) (actions : List Action)
    (peopleData : List Person) (data : GraphData) (isTestimonyGraph : Bool) :
    Frame s (run s actions)
    ∧ (run s actions).fullAccusationData.edges.map clearSmooth
        = s.fullAccusationData.edges.map clearSmooth
    ∧ (run s actions).fullTestimonyData.edges.map clearSmooth
        = s.fullTestimonyData.edges.map clearSmooth
    ∧ (drawGraph peopleData data isTestimonyGraph).1.nodes = data.nodes
    ∧ StoreSim data.edges (drawGraph peopleData data isTestimonyGraph).1.edges := by
  have h := run_frame actions s
  exact ⟨h, h.2.2.1.1.symm, h.2.2.2.2.1.symm, rfl, drawGraph_storeSim _ _ _⟩

/-- C13 fails on the code: on the example state, whose accusation store holds two
edges on the pair `(1, 2)`, the identity filter for all identities
(`restoreAccusationGraph`) changes the accusation store: the two stored edges,
which carried no curvature attribute, receive one. -/
theorem C13_restore_mutates_store :
    (run exampleState [Action.pressIdentityFilter allLabel]).fullAccusationData
      ≠ exampleState.fullAccusationData
    ∧ exampleState.fullAccusationData.edges.map (fun e => e.smooth) = [none, none, none]
    ∧ (run exampleState [Action.pressIdentityFilter allLabel]).fullAccusationData.edges.map
        (fun e => e.smooth)
      = [some { enabled := true, type := BendType.curvedCCW, roundness := 7205759403792794 },
         some { enabled := true, type := BendType.curvedCW, roundness := 14411518807585588 },
         none] := by
  decide

/-- C14 fails on the code: two histories over the same loaded data end in the same
selection state and the same request (global mode, label `B`), and show the same
single edge `edge-1`, with the clockwise curvature of magnitude 0.2 in one case and
the counter-clockwise curvature of magnitude 0.1 in the other, left on the
stored edge by the role-scoped filter of the second history. -/
theorem C14_projection_depends_on_history :
    (run staleState [Action.clickAccusationNode "3", Action.pressRole Role.accused,
        Action.clickAccusationEdge "edge-0", Action.pressLabelFilter "B"]).testimonyGraph.edges.map
        (fun v => (v.id, v.edge.smooth))
      = [(some "edge-1",
          some { enabled := true, type := BendType.curvedCW, roundness := 14411518807585588 })]
    ∧ (run staleState [Action.clickAccusationNode "3", Action.pressRole Role.accused,
        Action.pressLabelFilter allLabel, Action.clickAccusationEdge "edge-0",
        Action.pressLabelFilter "B"]).testimonyGraph.edges.map
        (fun v => (v.id, v.edge.smooth))
      = [(some "edge-1",
          some { enabled := true, type := BendType.curvedCCW, roundness := 7205759403792794 })]
    ∧ (run staleState [Action.clickAccusationNode "3", Action.pressRole Role.accused,
        Action.clickAccusationEdge "edge-0"]).selectedPersonId = none
    ∧ (run staleState [Action.clickAccusationNode "3", Action.pressRole Role.accused,
        Action.pressLabelFilter allLabel, Action.clickAccusationEdge "edge-0"]).selectedPersonId
      = none
    ∧ (run staleState [Action.clickAccusationNode "3", Action.pressRole Role.accused,
        Action.clickAccusationEdge "edge-0"]).testimonyRelationMode
      = (run staleState [Action.clickAccusationNode "3", Action.pressRole Role.accused,
        Action.pressLabelFilter allLabel,
        Action.clickAccusationEdge "edge-0"]).testimonyRelationMode := by
  decide

theorem relatedIds_clearSmooth (st : List Edge) :
    st.flatMap (fun edge => [edge.from_, edge.to_] ++ edge.accused.getD [])
      = (st.map clearSmooth).flatMap
          (fun edge => [edge.from_, edge.to_] ++ edge.accused.getD []) := by
  rw [List.flatMap_map]
  rfl

/-- On two versions of the accusation store related by `StoreSim`,
`restoreAccusationGraph` returns the same store and the same projection. -/
theorem restoreAccusationGraph_congr (peopleData : List Person) (st st' : List Edge)
    (h : StoreSim st st') :
    restoreAccusationGraph peopleData st = restoreAccusationGraph peopleData st' := by
  have hpre := preprocessEdges_refs_of_storeSim _ _ h
  have hcom := commit_refs_of_storeSim _ _ h
  have hids := relatedIds_clearSmooth st
  rw [h.1, ← relatedIds_clearSmooth st'] at hids
  have hcom2 : commit st (preprocessEdges (refs st')) = commit st' (preprocessEdges (refs st')) := by
    rw [← hcom, hpre]
  unfold restoreAccusationGraph
  simp only [hpre, hcom2, hids]

theorem step_restoreAccusation (t : State) :
    (step t restoreAccusation).accusationGraph
      = (restoreAccusationGraph t.peopleData t.fullAccusationData.edges).2
    ∧ (step t restoreAccusation).fullAccusationData.edges
      = (restoreAccusationGraph t.peopleData t.fullAccusationData.edges).1
    ∧ (step t restoreAccusation).peopleData = t.peopleData := by
  have h : step t restoreAccusation = identityFilterListener allLabel t := rfl
  rw [h]
  unfold identityFilterListener
  simp

/-- After any history, the restore shows what `restoreAccusationGraph` computes
from the store of the start state. -/
theorem accusationGraph_after_restore (s : State) (history : List Action) :
    (run s (history ++ [restoreAccusation])).accusationGraph
      = (restoreAccusationGraph s.peopleData s.fullAccusationData.edges).2 := by
  rw [run_append, run_cons, run_nil, (step_restoreAccusation _).1]
  have hf := run_frame history s
  rw [← hf.1, restoreAccusationGraph_congr s.peopleData _ _ (storeSim_symm hf.2.2.1)]

/-- C16: `restoreAccusationGraph` is an idempotent restore: from every state, in
particular the loaded one, the restore applied after any sequence of actions
(among them any sequence of `filterAccusationGraphByIdentity` calls) gives the
same projection (nodes, degrees, edges, curvature) as the restore applied
directly, and applying it twice gives the same projection as applying it
once. -/
theorem C16_restore_accusation_idempotent (s : State) (history : List Action) :
    (run s (history ++ [restoreAccusation])).accusationGraph
      = (run s [restoreAccusation]).accusationGraph
    ∧ (run s (history ++ [restoreAccusation, restoreAccusation])).accusationGraph
      = (run s (history ++ [restoreAccusation])).accusationGraph := by
  constructor
  · rw [accusationGraph_after_restore s history]
    exact (accusationGraph_after_restore s []).symm
  · have h : history ++ [restoreAccusation, restoreAccusation]
        = (history ++ [restoreAccusation]) ++ [restoreAccusation] := by simp
    rw [h, accusationGraph_after_restore s (history ++ [restoreAccusation]),
      accusationGraph_after_restore s history]

theorem commit_refs_self (st : List Edge) : commit st (refs st) = st := by
  apply List.ext_getElem?
  intro i
  rw [getElem?_commit]
  cases hs : st[i]? with
  | none => rfl
  | some e =>
    simp only [Option.map_some', Option.some.injEq]
    cases hf : (refs st).find? (fun o => decide (o.addr = i)) with
    | none => rfl
    | some o =>
      simp only
      have hmem : o ∈ refs st := List.mem_of_find?_eq_some hf
      have haddr : o.addr = i := by simpa using List.find?_some hf
      have hst := (mem_refs _ o).1 hmem
      rw [haddr, hs] at hst
      injection hst with hst
      exact hst.symm

theorem edgePrefix_append_ne_empty (x : String) : "edge-" ++ x ≠ "" := by
  intro h
  have hd := congrArg String.data h
  rw [String.data_append] at hd
  exact absurd hd (by simp)

theorem getElem?_assignEdgeIds (es : List Edge) (i : Nat) :
    (assignEdgeIds es)[i]?
      = es[i]?.map (fun edge => { edge with edgeId := some ("edge-" ++ toString i) }) := by
  unfold assignEdgeIds
  rw [List.getElem?_mapIdx]

theorem truthy_edgeId_assignEdgeIds (es : List Edge) (e : Edge) (he : e ∈ assignEdgeIds es) :
    truthy e.edgeId = true := by
  obtain ⟨i, hi⟩ := List.mem_iff_getElem?.1 he
  rw [getElem?_assignEdgeIds] at hi
  cases hs : es[i]? with
  | none => rw [hs] at hi; exact absurd hi (by simp)
  | some e0 =>
    rw [hs] at hi
    simp only [Option.map_some', Option.some.injEq] at hi
    rw [← hi, truthy_some_iff]
    exact edgePrefix_append_ne_empty _

theorem edgesWithIds_eq_of_truthy (pl : List EdgeRef)
    (h : ∀ r ∈ pl, truthy r.obj.edgeId = true) : edgesWithIds pl = edgesWithEdgeIds pl := by
  unfold edgesWithIds edgesWithEdgeIds
  apply List.ext_getElem?
  intro i
  rw [List.getElem?_mapIdx, List.getElem?_map]
  cases hs : pl[i]? with
  | none => rfl
  | some r =>
    have hr := h r (List.getElem?_mem hs)
    simp [hr]

theorem truthy_edgeId_of_mem_preprocessEdges (st : List Edge)
    (hst : ∀ e ∈ st, truthy e.edgeId = true) :
    ∀ r ∈ preprocessEdges (refs st), truthy r.obj.edgeId = true := by
  intro r hr
  obtain ⟨e, he, hc⟩ := preprocessEdges_agrees_with_store st (refs st) (fun _ h => h) r hr
  have h1 : r.obj.edgeId = e.edgeId := by
    show (clearSmooth r.obj).edgeId = (clearSmooth e).edgeId
    rw [hc]
  rw [h1]
  exact hst e (List.getElem?_mem he)

theorem withDegrees_congr (dm dm' : DegreeMap) (nodes : List VisNode)
    (h : ∀ k, degreeOf dm k = degreeOf dm' k) : withDegrees dm nodes = withDegrees dm' nodes := by
  unfold withDegrees
  apply List.map_congr_left
  intro node _
  have := h node.person.id
  unfold degreeOf at this
  rw [this]

/-- The restore of the accusation graph compared with its initial draw, for a
store whose edges all carry an `edgeId`: the same nodes, and the same edges up to
order and curvature. -/
theorem restoreAccusationGraph_vs_drawGraph (peopleData : List Person) (st : List Edge)
    (hst : ∀ e ∈ st, truthy e.edgeId = true) :
    (restoreAccusationGraph peopleData st).2.nodes
      = (drawGraph peopleData { nodes := none, edges := st } false).2.nodes
    ∧ ((restoreAccusationGraph peopleData st).2.edges.map stripCurvature).Perm
        ((drawGraph peopleData { nodes := none, edges := st } false).2.edges.map
          stripCurvature) := by
  constructor
  · show withDegrees _ _ = withDegrees _ _
    apply withDegrees_congr
    intro k
    rw [degreeOf_getNodeDegrees, degreeOf_getNodeDegrees, edgesWithIds_map_edge,
      edgesWithEdgeIds_map_edge]
    exact sum_occ_preprocessEdges k (refs st)
  · show ((edgesWithIds (preprocessEdges (refs st))).map stripCurvature).Perm
      ((edgesWithEdgeIds (refs st)).map stripCurvature)
    rw [edgesWithIds_eq_of_truthy _ (truthy_edgeId_of_mem_preprocessEdges st hst)]
    unfold edgesWithEdgeIds
    rw [List.map_map, List.map_map]
    exact preprocessEdges_perm_map
      (fun r : EdgeRef => stripCurvature
        { edge := r.obj, id := r.obj.edgeId, originalData := r.addr })
      (fun _ => rfl) (refs st)

/-- C15 (amended): for every people store and accusation document without a
`nodes` array, after every finite sequence of actions (among them the
identity-filter and restore actions), `restoreAccusationGraph` shows the same
visible nodes with the same degree values as the initial load drawn by
`drawGraph`, and the same visible edges with the same ids, endpoints and labels,
up to their order and their curvature attribute. -/
theorem C15_restore_matches_initial_load_up_to_curvature (peopleData : List Person)
    (accusation testimony : GraphData) (history : List Action)
    (hnodes : accusation.nodes = none) :
    (run (loadData peopleData accusation testimony)
        (history ++ [restoreAccusation])).accusationGraph.nodes
      = (loadData peopleData accusation testimony).accusationGraph.nodes
    ∧ ((run (loadData peopleData accusation testimony)
        (history ++ [restoreAccusation])).accusationGraph.edges.map stripCurvature).Perm
        ((loadData peopleData accusation testimony).accusationGraph.edges.map
          stripCurvature) := by
  rw [accusationGraph_after_restore]
  have hstore : (loadData peopleData accusation testimony).fullAccusationData.edges
      = assignEdgeIds accusation.edges := commit_refs_self _
  have hgraph : (loadData peopleData accusation testimony).accusationGraph
      = (drawGraph peopleData { nodes := none, edges := assignEdgeIds accusation.edges }
          false).2 := by
    show (drawGraph peopleData { accusation with edges := assignEdgeIds accusation.edges }
      false).2 = _
    rw [hnodes]
  have hpeople : (loadData peopleData accusation testimony).peopleData = peopleData := rfl
  rw [hstore, hgraph, hpeople]
  exact restoreAccusationGraph_vs_drawGraph peopleData _
    (truthy_edgeId_assignEdgeIds accusation.edges)

/-- Witness of C15: the example state, restored after an identity filter. -/
theorem C15_restore_matches_initial_load_up_to_curvature_witness :
    (run exampleState [Action.pressIdentityFilter "功臣", restoreAccusation]).accusationGraph.nodes
      = exampleState.accusationGraph.nodes :=
  (C15_restore_matches_initial_load_up_to_curvature examplePeople
    { nodes := none, edges := exampleTestimony } { nodes := none, edges := exampleTestimony }
    [Action.pressIdentityFilter "功臣"] rfl).1

/-- C15 fails as stated: on the example state, whose accusation edges include two
edges on the pair `(1, 2)`, the restored projection differs from the initial draw:
the initial draw carries no curvature attribute, the restore gives the two
parallel edges the curvatures of their positions. -/
theorem C15_counterexample_restore_adds_curvature :
    (run exampleState [restoreAccusation]).accusationGraph ≠ exampleState.accusationGraph
    ∧ exampleState.accusationGraph.edges.map (fun v => (v.id, v.edge.smooth))
      = [(some "edge-0", none), (some "edge-1", none), (some "edge-2", none)]
    ∧ (run exampleState [restoreAccusation]).accusationGraph.edges.map
        (fun v => (v.id, v.edge.smooth))
      = [(some "edge-0",
            some { enabled := true, type := BendType.curvedCCW, roundness := 7205759403792794 }),
         (some "edge-1",
            some { enabled := true, type := BendType.curvedCW, roundness := 14411518807585588 }),
         (some "edge-2", none)] := by
  decide

theorem digitChar_value (d : Nat) (h : d < 10) : (Nat.digitChar d).toNat - 48 = d := by
  interval_cases d <;> rfl

theorem digitsValue_toDigitsCore (fuel : Nat) :
    ∀ (n : Nat) (ds : List Char), n < fuel →
      digitsValue 0 (Nat.toDigitsCore 10 fuel n ds) = digitsValue n ds := by
  induction fuel with
  | zero => intro n ds h; omega
  | succ fuel ih =>
    intro n ds h
    unfold Nat.toDigitsCore
    simp only
    by_cases h0 : n / 10 = 0
    · rw [if_pos h0]
      have hn : n % 10 = n := by omega
      rw [hn]
      simp only [digitsValue, List.foldl_cons, Nat.zero_mul, Nat.zero_add,
        digitChar_value n (by omega)]
    · rw [if_neg h0, ih (n / 10) _ (by omega)]
      simp only [digitsValue, List.foldl_cons,
        digitChar_value (n % 10) (Nat.mod_lt n (by omega))]
      congr 1
      omega

theorem digitsValue_toDigits (n : Nat) : digitsValue 0 (Nat.toDigits 10 n) = n := by
  unfold Nat.toDigits
  rw [digitsValue_toDigitsCore (n + 1) n [] (by omega)]
  rfl

/-- The decimal rendering of a natural number determines the number. -/
theorem toString_nat_injective (a b : Nat) (h : toString a = toString b) : a = b := by
  have h1 : Nat.repr a = Nat.repr b := h
  unfold Nat.repr at h1
  have h2 : Nat.toDigits 10 a = Nat.toDigits 10 b := by
    have := congrArg String.data h1
    simpa [List.asString] using this
  rw [← digitsValue_toDigits a, ← digitsValue_toDigits b, h2]

theorem edgeId_of_index_injective (a b : Nat)
    (h : some ("edge-" ++ toString a) = some ("edge-" ++ toString b)) : a = b := by
  injection h with h
  have hd := congrArg String.data h
  rw [String.data_append, String.data_append] at hd
  have h2 := List.append_cancel_left hd
  exact toString_nat_injective a b (String.ext h2)

theorem edgeId_clearSmooth (e : Edge) : (clearSmooth e).edgeId = e.edgeId := rfl

theorem storeIds_of_clear_eq (st st' : List Edge) (h : StoreIds st)
    (hc : st.map clearSmooth = st'.map clearSmooth) : StoreIds st' := by
  intro i e' he'
  obtain ⟨e, he, hce⟩ := getElem?_of_map_clear_eq st' st hc.symm i e' he'
  rw [← edgeId_clearSmooth e', hce, edgeId_clearSmooth]
  exact h i e he

theorem visibleIds_of_clear_eq (st st' : List Edge) (P : Projection) (h : VisibleIds st P)
    (hc : st.map clearSmooth = st'.map clearSmooth) : VisibleIds st' P := by
  refine ⟨?_, h.2⟩
  intro v hv
  obtain ⟨e, he, h1, h2⟩ := h.1 v hv
  obtain ⟨e', he', hce⟩ := getElem?_of_map_clear_eq st st' hc _ e he
  have hid : e'.edgeId = e.edgeId := by
    rw [← edgeId_clearSmooth e', ← hce, edgeId_clearSmooth]
  exact ⟨e', he', by rw [hid]; exact h1, by rw [hid]; exact h2⟩

theorem visibleIds_empty (st : List Edge) (ns : List VisNode) :
    VisibleIds st { nodes := ns, edges := [] } :=
  ⟨fun v hv => absurd hv (List.not_mem_nil v), List.nodup_nil⟩

theorem refs_map_addr (st : List Edge) : (refs st).map EdgeRef.addr = List.range st.length := by
  unfold refs
  rw [mapIdx_map_eq_range EdgeRef.addr id st _ (fun _ _ => rfl)]
  simp

theorem preprocessEdges_map_addr_nodup (st : List Edge) (F : List EdgeRef)
    (hF : F.Sublist (refs st)) : ((preprocessEdges F).map EdgeRef.addr).Nodup := by
  have hperm := preprocessEdges_perm_map EdgeRef.addr (fun _ => rfl) F
  rw [hperm.nodup_iff]
  have hsub : (F.map EdgeRef.addr).Sublist ((refs st).map EdgeRef.addr) := hF.map _
  rw [refs_map_addr] at hsub
  exact hsub.nodup (List.nodup_range _)

theorem edgesWithIds_map_originalData (pl : List EdgeRef) :
    (edgesWithIds pl).map VisEdge.originalData = pl.map EdgeRef.addr := by
  unfold edgesWithIds
  exact map_mapIdx_of_forall VisEdge.originalData EdgeRef.addr pl _ (fun _ _ => rfl)

theorem edgesWithEdgeIds_map_originalData (pl : List EdgeRef) :
    (edgesWithEdgeIds pl).map VisEdge.originalData = pl.map EdgeRef.addr := by
  simp [edgesWithEdgeIds, List.map_map, Function.comp_def]

/-- The edges built by `drawGraph` from references that agree with a store of
stable ids. -/
theorem visibleIds_edgesWithEdgeIds (st : List Edge) (pl : List EdgeRef) (ns : List VisNode)
    (hagree : ∀ o ∈ pl, ∃ e, st[o.addr]? = some e ∧ clearSmooth o.obj = clearSmooth e)
    (hnd : (pl.map EdgeRef.addr).Nodup) :
    VisibleIds st { nodes := ns, edges := edgesWithEdgeIds pl } := by
  refine ⟨?_, by rw [edgesWithEdgeIds_map_originalData]; exact hnd⟩
  intro v hv
  obtain ⟨r, hr, rfl⟩ := List.mem_map.1 hv
  obtain ⟨e, he, hc⟩ := hagree r hr
  have hid : r.obj.edgeId = e.edgeId := by
    rw [← edgeId_clearSmooth r.obj, hc, edgeId_clearSmooth]
  exact ⟨e, he, hid, hid⟩

/-- The edges built by the filter and restore functions from references that
agree with a store of stable ids. -/
theorem visibleIds_edgesWithIds (st : List Edge) (pl : List EdgeRef) (ns : List VisNode)
    (hst : StoreIds st)
    (hagree : ∀ o ∈ pl, ∃ e, st[o.addr]? = some e ∧ clearSmooth o.obj = clearSmooth e)
    (hnd : (pl.map EdgeRef.addr).Nodup) :
    VisibleIds st { nodes := ns, edges := edgesWithIds pl } := by
  have htruthy : ∀ r ∈ pl, truthy r.obj.edgeId = true := by
    intro r hr
    obtain ⟨e, he, hc⟩ := hagree r hr
    have hid : r.obj.edgeId = e.edgeId := by
      rw [← edgeId_clearSmooth r.obj, hc, edgeId_clearSmooth]
    rw [hid, hst _ e he, truthy_some_iff]
    exact edgePrefix_append_ne_empty _
  rw [edgesWithIds_eq_of_truthy pl htruthy]
  exact visibleIds_edgesWithEdgeIds st pl ns hagree hnd

/-- A projection computed by `preprocessEdges` from a part of the store, seen
from the store after the write-back. -/
theorem visibleIds_after_commit (st : List Edge) (F : List EdgeRef) (ns : List VisNode)
    (hst : StoreIds st) (hF : F.Sublist (refs st)) :
    StoreIds (commit st (preprocessEdges F))
    ∧ VisibleIds (commit st (preprocessEdges F))
        { nodes := ns, edges := edgesWithIds (preprocessEdges F) } := by
  have hagree := preprocessEdges_agrees_with_store st F (fun o ho => hF.subset ho)
  have hc : st.map clearSmooth = (commit st (preprocessEdges F)).map clearSmooth :=
    (commit_map_clearSmooth st _ hagree).symm
  exact ⟨storeIds_of_clear_eq _ _ hst hc,
    visibleIds_of_clear_eq _ _ _
      (visibleIds_edgesWithIds st _ ns hst hagree (preprocessEdges_map_addr_nodup st F hF)) hc⟩

theorem stableIds_showTestimony (t : State) (F : List EdgeRef) (h : StableIds t)
    (hF : F.Sublist (refs t.fullTestimonyData.edges)) : StableIds (showTestimony t F) := by
  obtain ⟨h1, h2, h3, _⟩ := h
  have h5 := visibleIds_after_commit t.fullTestimonyData.edges F
    (updateTestimonyGraph t.peopleData t.fullTestimonyData.edges F).2.nodes h2 hF
  exact ⟨h1, h5.1, h3, h5.2⟩

theorem stableIds_labelFilterListener (L : String) (t : State) (h : StableIds t) :
    StableIds (labelFilterListener L t) := by
  unfold labelFilterListener
  split
  · unfold filterTestimonyEdgesByLabelForNode
    cases hr : roleScopedEdges t L with
    | none => exact h
    | some F => exact stableIds_showTestimony t F h (roleScopedEdges_sublist t L F hr)
  · unfold filterTestimonyEdgesByLabelForAll
    split
    · exact stableIds_showTestimony t _ h (List.Sublist.refl _)
    · exact stableIds_showTestimony t _ h (List.filter_sublist _)

theorem stableIds_resetTestimonyGraph (t : State) (h : StableIds t) :
    StableIds (resetTestimonyGraph t) :=
  ⟨h.1, h.2.1, h.2.2.1, visibleIds_empty _ _⟩

theorem stableIds_roleListener (role : Role) (t : State) (h : StableIds t) :
    StableIds (roleListener role t) := by
  unfold roleListener
  split
  · exact h
  · exact ⟨h.1, h.2.1, h.2.2.1, visibleIds_empty _ _⟩

theorem stableIds_showAllListener (t : State) (h : StableIds t) :
    StableIds (showAllListener t) := by
  obtain ⟨h1, h2, h3, _⟩ := h
  have h5 := visibleIds_after_commit t.fullTestimonyData.edges
    (refs t.fullTestimonyData.edges)
    (restoreTestimonyGraph t.peopleData t.fullTestimonyData).2.nodes h2 (List.Sublist.refl _)
  exact ⟨h1, h5.1, h3, h5.2⟩

theorem stableIds_identityFilterListener (identity : String) (t : State) (h : StableIds t) :
    StableIds (identityFilterListener identity t) := by
  obtain ⟨h1, h2, _, h4⟩ := h
  unfold identityFilterListener
  split
  · have h5 := visibleIds_after_commit t.fullAccusationData.edges
      (refs t.fullAccusationData.edges)
      (restoreAccusationGraph t.peopleData t.fullAccusationData.edges).2.nodes h1
      (List.Sublist.refl _)
    exact ⟨h5.1, h2, h5.2, h4⟩
  · have h5 := visibleIds_after_commit t.fullAccusationData.edges
      ((refs t.fullAccusationData.edges).filter (fun edge => decide (edge.obj.to_ ∈
        ((t.peopleData.filter (fun person => decide (person.identity = some identity))).map
          personNode).map (fun node => node.person.id))))
      (filterAccusationGraphByIdentity t.peopleData t.fullAccusationData.edges identity).2.nodes
      h1 (List.filter_sublist _)
    exact ⟨h5.1, h2, h5.2, h4⟩

theorem stableIds_step (t : State) (a : Action) (h : StableIds t) : StableIds (step t a) := by
  cases a with
  | clickAccusationNode nodeId => exact ⟨h.1, h.2.1, h.2.2.1, visibleIds_empty _ _⟩
  | clickAccusationEdge edgeId => exact ⟨h.1, h.2.1, h.2.2.1, visibleIds_empty _ _⟩
  | clickAccusationCanvas => exact h
  | clickTestimonyNode nodeId => exact h
  | clickTestimonyEdge edgeId => exact h
  | clickTestimonyCanvas => exact h
  | pressRole role => exact iterate_invariant StableIds _ (stableIds_roleListener role) 2 t h
  | pressShowAll => exact iterate_invariant StableIds _ stableIds_showAllListener 2 t h
  | pressLabelFilter L =>
    exact iterate_invariant StableIds _ (stableIds_labelFilterListener L) 6 t h
  | pressIdentityFilter identity => exact stableIds_identityFilterListener identity t h

theorem stableIds_run (actions : List Action) :
    ∀ s : State, StableIds s → StableIds (run s actions) := by
  induction actions with
  | nil => intro s h; exact h
  | cons a as ih => intro s h; exact ih (step s a) (stableIds_step s a h)

theorem storeIds_assignEdgeIds (es : List Edge) : StoreIds (assignEdgeIds es) := by
  intro i e he
  rw [getElem?_assignEdgeIds] at he
  cases hs : es[i]? with
  | none => rw [hs] at he; exact absurd he (by simp)
  | some e0 =>
    rw [hs] at he
    simp only [Option.map_some', Option.some.injEq] at he
    rw [← he]

theorem stableIds_loadData (peopleData : List Person) (accusation testimony : GraphData) :
    StableIds (loadData peopleData accusation testimony) := by
  have hA := storeIds_assignEdgeIds accusation.edges
  have hT := storeIds_assignEdgeIds testimony.edges
  have hTagree := preprocessEdges_agrees_with_store (assignEdgeIds testimony.edges)
    (refs (assignEdgeIds testimony.edges)) (fun o ho => ho)
  have hTc : (assignEdgeIds testimony.edges).map clearSmooth
      = (commit (assignEdgeIds testimony.edges)
          (preprocessEdges (refs (assignEdgeIds testimony.edges)))).map clearSmooth :=
    (commit_map_clearSmooth _ _ hTagree).symm
  refine ⟨?_, ?_, ?_, ?_⟩
  · show StoreIds (commit (assignEdgeIds accusation.edges) (refs (assignEdgeIds accusation.edges)))
    rw [commit_refs_self]
    exact hA
  · exact storeIds_of_clear_eq _ _ hT hTc
  · show VisibleIds (commit (assignEdgeIds accusation.edges)
      (refs (assignEdgeIds accusation.edges))) _
    rw [commit_refs_self]
    refine visibleIds_edgesWithEdgeIds _ (refs (assignEdgeIds accusation.edges)) _ ?_ ?_
    · intro o ho
      exact ⟨o.obj, (mem_refs _ o).1 ho, rfl⟩
    · rw [refs_map_addr]
      exact List.nodup_range _
  · refine visibleIds_of_clear_eq _ _ _ ?_ hTc
    exact visibleIds_edgesWithEdgeIds _ _ _ hTagree
      (preprocessEdges_map_addr_nodup _ _ (List.Sublist.refl _))

theorem idsAreIngestionIds_of_visibleIds (st : List Edge) (P : Projection) (hst : StoreIds st)
    (h : VisibleIds st P) : IdsAreIngestionIds st P := by
  have hid : ∀ v ∈ P.edges, v.id = some ("edge-" ++ toString v.originalData) := by
    intro v hv
    obtain ⟨e, he, h1, _⟩ := h.1 v hv
    rw [h1]
    exact hst _ e he
  refine ⟨?_, ?_⟩
  · intro v hv
    obtain ⟨e, he, h1, _⟩ := h.1 v hv
    exact ⟨hid v hv, e, he, h1.symm⟩
  · have hmap : P.edges.map VisEdge.id
        = (P.edges.map VisEdge.originalData).map (fun i => some ("edge-" ++ toString i)) := by
      rw [List.map_map]
      apply List.map_congr_left
      intro v hv
      exact hid v hv
    rw [hmap]
    exact List.Nodup.map_on (fun a _ b _ hab => edgeId_of_index_injective a b hab) h.2

/-- C20: the `i`-th edge of a loaded edge list gets the `edgeId` made of `edge-` and
`i` at ingestion, and in every state reached from the load by any sequence of
actions (initial draw, any filter, any restore), in both graphs, each visible
edge has as its id the `edgeId` of the stored edge it refers to, which is
`edge-i` for its position `i`; no two visible edges share an id. -/
theorem C20_edge_ids_are_stable (peopleData : List Person) (accusation testimony : GraphData)
    (history : List Action) :
    StoreIds (assignEdgeIds accusation.edges)
    ∧ StoreIds (assignEdgeIds testimony.edges)
    ∧ StoreIds (run (loadData peopleData accusation testimony) history).fullAccusationData.edges
    ∧ StoreIds (run (loadData peopleData accusation testimony) history).fullTestimonyData.edges
    ∧ IdsAreIngestionIds
        (run (loadData peopleData accusation testimony) history).fullAccusationData.edges
        (run (loadData peopleData accusation testimony) history).accusationGraph
    ∧ IdsAreIngestionIds
        (run (loadData peopleData accusation testimony) history).fullTestimonyData.edges
        (run (loadData peopleData accusation testimony) history).testimonyGraph := by
  have h := stableIds_run history _ (stableIds_loadData peopleData accusation testimony)
  exact ⟨storeIds_assignEdgeIds _, storeIds_assignEdgeIds _, h.1, h.2.1,
    idsAreIngestionIds_of_visibleIds _ _ h.1 h.2.2.1,
    idsAreIngestionIds_of_visibleIds _ _ h.2.1 h.2.2.2⟩

theorem copyFrom_eq (e : RawEdge) :
    copyFrom e = { e with from_ := pickCasing e.From e.from_ } := by
  unfold copyFrom pickCasing
  split <;> rfl

theorem copyTo_eq (e : RawEdge) : copyTo e = { e with to_ := pickCasing e.To e.to_ } := by
  unfold copyTo pickCasing
  split <;> rfl

theorem copyLabel_eq (e : RawEdge) :
    copyLabel e = { e with label := pickCasing e.Label e.label } := by
  unfold copyLabel pickCasing
  split <;> rfl

theorem copyText_eq (e : RawEdge) :
    copyText e = { e with text := pickCasing e.Text e.text } := by
  unfold copyText pickCasing
  split <;> rfl

theorem copyReference_eq (e : RawEdge) :
    copyReference e = { e with reference := pickCasing e.Reference e.reference } := by
  unfold copyReference pickCasing
  split <;> rfl

theorem normalizeCasing_eq (e : RawEdge) :
    normalizeCasing e =
      { e with from_ := pickCasing e.From e.from_, to_ := pickCasing e.To e.to_,
               label := pickCasing e.Label e.label, text := pickCasing e.Text e.text,
               reference := pickCasing e.Reference e.reference } := by
  unfold normalizeCasing
  rw [copyFrom_eq, copyTo_eq, copyLabel_eq, copyText_eq, copyReference_eq]

theorem resolveFrom_eq (m : NameToId) (e : RawEdge) :
    resolveFrom m e = { e with from_ := resolveValue m e.from_ } := by
  unfold resolveFrom resolveValue
  split <;> simp_all

theorem resolveTo_eq (m : NameToId) (e : RawEdge) :
    resolveTo m e = { e with to_ := resolveValue m e.to_ } := by
  unfold resolveTo resolveValue
  split <;> simp_all

theorem resolveAccuser_eq (m : NameToId) (e : RawEdge) :
    resolveAccuser m e = { e with accuser := resolveAccuserValue m e.accuser } := by
  cases e with
  | mk F T L X R f t l x r acc accd rest =>
    unfold resolveAccuser resolveAccuserValue
    simp only
    split
    · split <;> simp_all
    · simp_all

theorem resolveAccused_eq (m : NameToId) (e : RawEdge) :
    resolveAccused m e = { e with accused := resolveAccusedValue m e.accused } := by
  unfold resolveAccused resolveAccusedValue
  split <;> simp_all

/-- The record returned by the callback of `convertRelationshipData`, field by
field. -/
theorem convertEdge_eq (m : NameToId) (e : RawEdge) :
    convertEdge m e =
      { e with from_ := resolveValue m (pickCasing e.From e.from_),
               to_ := resolveValue m (pickCasing e.To e.to_),
               label := pickCasing e.Label e.label, text := pickCasing e.Text e.text,
               reference := pickCasing e.Reference e.reference,
               accuser := resolveAccuserValue m e.accuser,
               accused := resolveAccusedValue m e.accused } := by
  unfold convertEdge
  rw [normalizeCasing_eq, resolveFrom_eq, resolveTo_eq, resolveAccuser_eq, resolveAccused_eq]

theorem resolveName_of_entry (m : NameToId) (name id : String)
    (h : m.lookup name = some id) : resolveName m name = id := by
  unfold resolveName
  rw [h]
  by_cases hid : id = ""
  · simp [hid]
  · simp [hid]

theorem resolveName_of_missing (m : NameToId) (name : String) (h : m.lookup name = none)
    (hp : objectPrototypeKeys.contains name = false) : resolveName m name = "" := by
  unfold resolveName
  rw [h]
  simp only [hp]
  rfl

theorem resolveName_of_inherited (m : NameToId) (name : String) (h : m.lookup name = none)
    (hp : objectPrototypeKeys.contains name = true) :
    resolveName m name = inheritedText name := by
  unfold resolveName
  rw [h]
  simp only [hp]
  rfl

/-- The text of an inherited member is never the empty unresolved marker. -/
theorem inheritedText_ne_empty (name : String) : inheritedText name ≠ "" := by
  intro h
  have hlen := congrArg String.length h
  unfold inheritedText at hlen
  split at hlen
  · exact absurd hlen (by decide)
  · rw [String.length_append, String.length_append] at hlen
    have h9 : ("function ").length = 9 := by decide
    have h0 : ("").length = 0 := by decide
    omega

theorem resolvedAs_resolveName (m : NameToId) (name : String) :
    ResolvedAs m name (some (JsValue.string (resolveName m name))) := by
  refine ⟨?_, ?_, ?_⟩
  · intro id h
    rw [resolveName_of_entry m name id h]
  · intro h hp
    rw [resolveName_of_missing m name h hp]
  · intro h hp
    rw [resolveName_of_inherited m name h hp]

/-- For every raw record and name-to-id map, when a name in `from`, `to` or
`accuser` has no entry in the map and is not the name of a member of
`Object.prototype`, `convertRelationshipData` (a total function) sets that
field to the empty string; every other field of the converted record is the
same whatever the `from` (or `to`, or `accuser`) field holds, the label, text
and reference are those left by the casing normalisation, and the capitalized
keys and all remaining keys are unchanged. -/
theorem unresolved_name_gives_empty_field (m : NameToId) (edge : RawEdge) (name : String)
    (hmissing : m.lookup name = none) (hplain : objectPrototypeKeys.contains name = false) :
    ((normalizeCasing edge).from_ = some (JsValue.string name) →
        (convertEdge m edge).from_ = some (JsValue.string ""))
    ∧ ((normalizeCasing edge).to_ = some (JsValue.string name) →
        (convertEdge m edge).to_ = some (JsValue.string ""))
    ∧ (edge.accuser = some (JsValue.string name) →
        (convertEdge m edge).accuser = some (JsValue.string ""))
    ∧ (∀ v w : Option JsValue,
        convertEdge m { edge with From := v, from_ := w }
          = { convertEdge m edge with From := v, from_ := resolveValue m (pickCasing v w) })
    ∧ (∀ v w : Option JsValue,
        convertEdge m { edge with To := v, to_ := w }
          = { convertEdge m edge with To := v, to_ := resolveValue m (pickCasing v w) })
    ∧ (∀ v : Option JsValue,
        convertEdge m { edge with accuser := v }
          = { convertEdge m edge with accuser := resolveAccuserValue m v })
    ∧ (convertEdge m edge).label = (normalizeCasing edge).label
    ∧ (convertEdge m edge).text = (normalizeCasing edge).text
    ∧ (convertEdge m edge).reference = (normalizeCasing edge).reference
    ∧ (convertEdge m edge).rest = edge.rest
    ∧ (convertEdge m edge).From = edge.From
    ∧ (convertEdge m edge).To = edge.To
    ∧ (convertEdge m edge).Label = edge.Label
    ∧ (convertEdge m edge).Text = edge.Text
    ∧ (convertEdge m edge).Reference = edge.Reference := by
  refine ⟨?_, ?_, ?_, ?_, ?_, ?_, ?_, ?_, ?_, ?_, ?_, ?_, ?_, ?_, ?_⟩
  · intro h
    rw [normalizeCasing_eq] at h
    rw [convertEdge_eq]
    simp only at h ⊢
    rw [h]
    simp only [resolveValue, resolveName_of_missing m name hmissing hplain]
  · intro h
    rw [normalizeCasing_eq] at h
    rw [convertEdge_eq]
    simp only at h ⊢
    rw [h]
    simp only [resolveValue, resolveName_of_missing m name hmissing hplain]
  · intro h
    rw [convertEdge_eq]
    simp only
    rw [h]
    unfold resolveAccuserValue
    by_cases hn : name = ""
    · simp [hn]
    · simp [hn, resolveName_of_missing m name hmissing hplain]
  · intro v w
    rw [convertEdge_eq, convertEdge_eq]
  · intro v w
    rw [convertEdge_eq, convertEdge_eq]
  · intro v
    rw [convertEdge_eq, convertEdge_eq]
  all_goals rw [convertEdge_eq]
  all_goals try rw [normalizeCasing_eq]

/-- For every raw record and name-to-id map, a name in `from`, `to` or `accuser`
that has no entry in the map and is the name of a member of `Object.prototype`
is replaced by the text of that member, which is not the empty string. -/
theorem inherited_name_gives_member_text (m : NameToId) (edge : RawEdge) (name : String)
    (hmissing : m.lookup name = none) (hinherited : objectPrototypeKeys.contains name = true) :
    inheritedText name ≠ ""
    ∧ ((normalizeCasing edge).from_ = some (JsValue.string name) →
        (convertEdge m edge).from_ = some (JsValue.string (inheritedText name)))
    ∧ ((normalizeCasing edge).to_ = some (JsValue.string name) →
        (convertEdge m edge).to_ = some (JsValue.string (inheritedText name)))
    ∧ (edge.accuser = some (JsValue.string name) →
        (convertEdge m edge).accuser = some (JsValue.string (inheritedText name))) := by
  refine ⟨inheritedText_ne_empty name, ?_, ?_, ?_⟩
  · intro h
    rw [normalizeCasing_eq] at h
    rw [convertEdge_eq]
    simp only at h ⊢
    rw [h]
    simp only [resolveValue, resolveName_of_inherited m name hmissing hinherited]
  · intro h
    rw [normalizeCasing_eq] at h
    rw [convertEdge_eq]
    simp only at h ⊢
    rw [h]
    simp only [resolveValue, resolveName_of_inherited m name hmissing hinherited]
  · intro h
    rw [convertEdge_eq]
    simp only
    rw [h]
    unfold resolveAccuserValue
    have hn : name ≠ "" := by
      intro h0
      rw [h0] at hinherited
      exact absurd hinherited (by decide)
    simp [hn, resolveName_of_inherited m name hmissing hinherited]

/-- C17 fails on the code: the names `constructor`, `toString` and `__proto__`
have no entry in the example map, yet `convertRelationshipData` does not set
the fields `from`, `to` and `accuser` that hold them to the empty string: it
writes the text of the member of `Object.prototype` of that name.  The label
and the other keys are as the claim says. -/
theorem C17_inherited_name_is_not_emptied :
    exampleNames.lookup "constructor" = none
    ∧ exampleNames.lookup "toString" = none
    ∧ exampleNames.lookup "__proto__" = none
    ∧ (convertEdge exampleNames inheritedRaw).from_
        = some (JsValue.string "function Object() \x7b [native code] \x7d")
    ∧ (convertEdge exampleNames inheritedRaw).to_
        = some (JsValue.string "function toString() \x7b [native code] \x7d")
    ∧ (convertEdge exampleNames inheritedRaw).accuser
        = some (JsValue.string "[object Object]")
    ∧ (convertEdge exampleNames inheritedRaw).from_ ≠ some (JsValue.string "")
    ∧ (convertEdge exampleNames inheritedRaw).to_ ≠ some (JsValue.string "")
    ∧ (convertEdge exampleNames inheritedRaw).accuser ≠ some (JsValue.string "")
    ∧ (convertEdge exampleNames inheritedRaw).label = inheritedRaw.label
    ∧ (convertEdge exampleNames inheritedRaw).rest = inheritedRaw.rest := by
  decide

/-- For every raw record and name-to-id map, after `convertRelationshipData`
each name-valued person field (`from`, `to`, a non-empty `accuser` and each
element of `accused`) is the resolution of the original name: the id of its
entry in the map, or without entry the empty unresolved marker, or, for the
name of a member of `Object.prototype`, the text of that member.  The accused
list keeps its length, and element `i` of the result is the resolution of
element `i` of the input (an element that is not a string is kept). -/
theorem person_fields_are_resolved (m : NameToId) (edge : RawEdge) :
    (∀ name, (normalizeCasing edge).from_ = some (JsValue.string name) →
        ResolvedAs m name (convertEdge m edge).from_)
    ∧ (∀ name, (normalizeCasing edge).to_ = some (JsValue.string name) →
        ResolvedAs m name (convertEdge m edge).to_)
    ∧ (∀ name, edge.accuser = some (JsValue.string name) → name ≠ "" →
        ResolvedAs m name (convertEdge m edge).accuser)
    ∧ (∀ items, edge.accused = some (JsField.array items) →
        ∃ items', (convertEdge m edge).accused = some (JsField.array items')
          ∧ items'.length = items.length
          ∧ (∀ (i : Nat) (name : String), items[i]? = some (JsValue.string name) →
              ResolvedAs m name items'[i]?)
          ∧ (∀ (i : Nat) (v : JsValue), items[i]? = some v →
              (∀ name, v ≠ JsValue.string name) →
              items'[i]? = some v)) := by
  refine ⟨?_, ?_, ?_, ?_⟩
  · intro name h
    rw [normalizeCasing_eq] at h
    rw [convertEdge_eq]
    simp only at h ⊢
    rw [h]
    exact resolvedAs_resolveName m name
  · intro name h
    rw [normalizeCasing_eq] at h
    rw [convertEdge_eq]
    simp only at h ⊢
    rw [h]
    exact resolvedAs_resolveName m name
  · intro name h hn
    rw [convertEdge_eq]
    simp only
    rw [h]
    unfold resolveAccuserValue
    simp only [bne_iff_ne, ne_eq, hn, not_false_eq_true, if_true]
    exact resolvedAs_resolveName m name
  · intro items h
    refine ⟨items.map (resolveItem m), ?_, by simp, ?_, ?_⟩
    · rw [convertEdge_eq]
      simp only
      rw [h]
      rfl
    · intro i name hi
      rw [List.getElem?_map, hi]
      exact resolvedAs_resolveName m name
    · intro i v hi hv
      rw [List.getElem?_map, hi]
      cases v with
      | string s => exact absurd rfl (hv s)
      | null => rfl
      | bool b => rfl
      | number n => rfl
      | object => rfl

/-- C18 fails on the code: the second accused name of the example record,
`valueOf`, has no entry in the example map, and `convertRelationshipData`
replaces it by the text of the member of `Object.prototype` of that name, which
is neither an id that the map assigns to any name nor the empty unresolved
marker; the same happens to `from`.  The accused list keeps its length and
order: the first name is resolved to its id and the third, unknown, to the
empty marker. -/
theorem C18_inherited_name_yields_a_fabricated_id :
    exampleNames.lookup "valueOf" = none
    ∧ (convertEdge exampleNames inheritedRaw).accused
        = some (JsField.array [JsValue.string "2",
            JsValue.string "function valueOf() \x7b [native code] \x7d", JsValue.string ""])
    ∧ "function valueOf() \x7b [native code] \x7d" ≠ ""
    ∧ "function valueOf() \x7b [native code] \x7d" ∉ exampleNames.map Prod.snd
    ∧ (convertEdge exampleNames inheritedRaw).from_
        = some (JsValue.string "function Object() \x7b [native code] \x7d")
    ∧ "function Object() \x7b [native code] \x7d" ∉ exampleNames.map Prod.snd := by
  decide

/-- C19 fails as stated: the example record carries `from` and `label` under
both casings, the lowercase values being empty; `convertRelationshipData`
leaves the capitalized label under `label` and resolves the capitalized name
under `from`, not the lowercase values. -/
theorem C19_counterexample_empty_lowercase_value_loses :
    bothCasingsRaw.From = some (JsValue.string "甲")
    ∧ bothCasingsRaw.from_ = some (JsValue.string "")
    ∧ (convertEdge exampleNames bothCasingsRaw).from_ = some (JsValue.string "1")
    ∧ (convertEdge exampleNames bothCasingsRaw).from_
        ≠ resolveValue exampleNames bothCasingsRaw.from_
    ∧ bothCasingsRaw.Label = some (JsValue.string "A")
    ∧ bothCasingsRaw.label = some (JsValue.string "")
    ∧ (convertEdge exampleNames bothCasingsRaw).label = some (JsValue.string "A")
    ∧ (convertEdge exampleNames bothCasingsRaw).label ≠ bothCasingsRaw.label := by
  decide

/-- C19 (amended): for every raw record, `convertRelationshipData` yields a
record whose lowercase `label`, `text` and `reference` hold the capitalized
value when that value is truthy and the lowercase value is falsy (absent or
empty), and the lowercase value otherwise, and whose lowercase `from` and `to`
hold the resolution of the value chosen in the same way; hence a truthy value
supplied under a capitalized key alone yields the same `from`, `to` and label
as the same value supplied under the lowercase key. -/
theorem C19_casing_is_normalised (m : NameToId) (edge : RawEdge) :
    ((convertEdge m edge).label
        = if truthyValue edge.Label = true ∧ truthyValue edge.label = false then edge.Label
          else edge.label)
    ∧ ((convertEdge m edge).text
        = if truthyValue edge.Text = true ∧ truthyValue edge.text = false then edge.Text
          else edge.text)
    ∧ ((convertEdge m edge).reference
        = if truthyValue edge.Reference = true ∧ truthyValue edge.reference = false
          then edge.Reference else edge.reference)
    ∧ ((convertEdge m edge).from_
        = resolveValue m (if truthyValue edge.From = true ∧ truthyValue edge.from_ = false
            then edge.From else edge.from_))
    ∧ ((convertEdge m edge).to_
        = resolveValue m (if truthyValue edge.To = true ∧ truthyValue edge.to_ = false
            then edge.To else edge.to_))
    ∧ (∀ v : JsValue, truthyValue (some v) = true →
        (convertEdge m { edge with From := some v, from_ := none }).from_
            = resolveValue m (some v)
          ∧ (convertEdge m { edge with from_ := some v }).from_ = resolveValue m (some v))
    ∧ (∀ v : JsValue, truthyValue (some v) = true →
        (convertEdge m { edge with To := some v, to_ := none }).to_ = resolveValue m (some v)
          ∧ (convertEdge m { edge with to_ := some v }).to_ = resolveValue m (some v))
    ∧ (∀ v : JsValue, truthyValue (some v) = true →
        (convertEdge m { edge with Label := some v, label := none }).label = some v
          ∧ (convertEdge m { edge with label := some v }).label = some v) := by
  have hpick : ∀ c l : Option JsValue,
      pickCasing c l = if truthyValue c = true ∧ truthyValue l = false then c else l := by
    intro c l
    unfold pickCasing
    cases truthyValue c <;> cases truthyValue l <;> simp
  have hcap : ∀ v : JsValue, truthyValue (some v) = true →
      pickCasing (some v) none = some v := by
    intro v hv
    have hnone : truthyValue none = false := rfl
    unfold pickCasing
    simp [hv, hnone]
  have hlow : ∀ (c : Option JsValue) (v : JsValue), truthyValue (some v) = true →
      pickCasing c (some v) = some v := by
    intro c v hv
    unfold pickCasing
    simp [hv]
  refine ⟨?_, ?_, ?_, ?_, ?_, ?_, ?_, ?_⟩
  · rw [convertEdge_eq, ← hpick]
  · rw [convertEdge_eq, ← hpick]
  · rw [convertEdge_eq, ← hpick]
  · rw [convertEdge_eq, ← hpick]
  · rw [convertEdge_eq, ← hpick]
  · intro v hv
    rw [convertEdge_eq, convertEdge_eq]
    simp only [hcap v hv, hlow _ v hv, and_self]
  · intro v hv
    rw [convertEdge_eq, convertEdge_eq]
    simp only [hcap v hv, hlow _ v hv, and_self]
  · intro v hv
    rw [convertEdge_eq, convertEdge_eq]
    simp only [hcap v hv, hlow _ v hv, and_self]

/-- Witness of C19: the name `甲` under `From` alone and under `from` resolves
to the id `1`. -/
theorem C19_casing_is_normalised_witness :
    truthyValue (some (JsValue.string "甲")) = true
    ∧ (convertEdge exampleNames
          { exampleRaw with From := some (JsValue.string "甲"), from_ := none }).from_
        = resolveValue exampleNames (some (JsValue.string "甲"))
    ∧ (convertEdge exampleNames { exampleRaw with from_ := some (JsValue.string "甲") }).from_
        = resolveValue exampleNames (some (JsValue.string "甲")) :=
  ⟨by decide,
    (C19_casing_is_normalised exampleNames exampleRaw).2.2.2.2.2.1 (JsValue.string "甲")
      (by decide)⟩

theorem loadedPage_loadData (peopleData : List Person) (accusation testimony : GraphData) :
    testimonyArrives testimony (accusationArrives accusation (peopleArrive peopleData initialPage))
      = loadedPage (loadData peopleData accusation testimony) := rfl

/-- The two relationship documents may arrive in either order. -/
theorem loadedPage_loadData_swap (peopleData : List Person) (accusation testimony : GraphData) :
    accusationArrives accusation (testimonyArrives testimony (peopleArrive peopleData initialPage))
      = loadedPage (loadData peopleData accusation testimony) := rfl

theorem loadedPage_injective (s t : State) (h : loadedPage s = loadedPage t) : s = t := by
  cases s
  cases t
  simp only [loadedPage, Page.mk.injEq, Option.some.injEq] at h
  obtain ⟨h1, h2, h3, h4, h5, h6, h7, h8, h9, h10⟩ := h
  subst h1 h2 h3 h4 h5 h6 h7 h8 h9 h10
  rfl

theorem runListeners_loadedPage (f : State → State) (g : Page → Outcome)
    (h : ∀ s, g (loadedPage s) = { page := loadedPage (f s), threw := false }) :
    ∀ (n : Nat) (s : State),
      runListeners g n (loadedPage s)
        = { page := loadedPage (Nat.iterate f n s), threw := false } := by
  intro n
  induction n with
  | zero => intro s; rfl
  | succ n ih =>
    intro s
    show ({ page := (runListeners g n (g (loadedPage s)).page).page
            threw := (g (loadedPage s)).threw || (runListeners g n (g (loadedPage s)).page).threw }
          : Outcome) = _
    rw [h s]
    simp only [ih (f s), Bool.or_self]
    rfl

theorem pageRoleListener_loadedPage (role : Role) (s : State) :
    pageRoleListener role (loadedPage s)
      = { page := loadedPage (roleListener role s), threw := false } := by
  unfold pageRoleListener roleListener
  by_cases h : truthy s.selectedPersonId = true
  · have h1 : truthy (loadedPage s).selectedPersonId = true := h
    simp only [h1, h, Bool.not_true, Bool.false_eq_true, if_false]
    rfl
  · have h0 : truthy s.selectedPersonId = false := by simpa using h
    have h1 : truthy (loadedPage s).selectedPersonId = false := h0
    simp only [h1, h0, Bool.not_false, if_true]

theorem pageShowAllListener_loadedPage (s : State) :
    pageShowAllListener (loadedPage s)
      = { page := loadedPage (showAllListener s), threw := false } := rfl

theorem pageRoleScopedEdges_eq (s : State) (chosenLabel : String) :
    pageRoleScopedEdges s.fullTestimonyData s.testimonyRelationMode s.selectedPersonId chosenLabel
      = roleScopedEdges s chosenLabel := rfl

theorem pageLabelFilterListener_loadedPage (chosenLabel : String) (s : State) :
    pageLabelFilterListener chosenLabel (loadedPage s)
      = { page := loadedPage (labelFilterListener chosenLabel s), threw := false } := by
  unfold pageLabelFilterListener labelFilterListener
  have hsel : (loadedPage s).selectedPersonId = s.selectedPersonId := rfl
  have hmode : (loadedPage s).testimonyRelationMode = s.testimonyRelationMode := rfl
  rw [hsel, hmode]
  by_cases h : (truthy s.selectedPersonId && s.testimonyRelationMode.isSome) = true
  · simp only [h, if_true]
    unfold pageFilterTestimonyEdgesByLabelForNode filterTestimonyEdgesByLabelForNode
    show (match pageRoleScopedEdges s.fullTestimonyData s.testimonyRelationMode
            s.selectedPersonId chosenLabel with
          | none => ({ page := loadedPage s, threw := true } : Outcome)
          | some filteredEdges =>
            pageUpdateTestimonyGraph (loadedPage s) s.fullTestimonyData filteredEdges) = _
    rw [pageRoleScopedEdges_eq]
    cases hr : roleScopedEdges s chosenLabel with
    | none =>
      exfalso
      unfold roleScopedEdges at hr
      cases hm : s.testimonyRelationMode with
      | none => simp [hm] at h
      | some role =>
        rw [hm] at hr
        cases role <;> (split at hr <;> simp at hr)
    | some F => rfl
  · have h0 : (truthy s.selectedPersonId && s.testimonyRelationMode.isSome) = false := by
      simpa using h
    simp only [h0, Bool.false_eq_true, if_false]
    rfl

theorem pageIdentityFilterListener_loadedPage (identity : String) (s : State) :
    pageIdentityFilterListener identity (loadedPage s)
      = { page := loadedPage (identityFilterListener identity s), threw := false } := by
  unfold pageIdentityFilterListener identityFilterListener
  by_cases h : identity = allLabel
  · simp only [h, if_true]
    rfl
  · simp only [h, if_false]
    rfl

/-- On a page whose two documents have arrived, no listener throws, and the
page after an action is the state after that action. -/
theorem pageStep_loadedPage (s : State) (a : Action) :
    pageStep (loadedPage s) a = { page := loadedPage (step s a), threw := false } := by
  cases a with
  | clickAccusationNode nodeId => rfl
  | clickAccusationEdge edgeId => rfl
  | clickAccusationCanvas => rfl
  | clickTestimonyNode nodeId => rfl
  | clickTestimonyEdge edgeId => rfl
  | clickTestimonyCanvas => rfl
  | pressRole role => exact runListeners_loadedPage _ _ (pageRoleListener_loadedPage role) 2 s
  | pressShowAll => exact runListeners_loadedPage _ _ pageShowAllListener_loadedPage 2 s
  | pressLabelFilter L =>
    exact runListeners_loadedPage _ _ (pageLabelFilterListener_loadedPage L) 6 s
  | pressIdentityFilter identity => exact pageIdentityFilterListener_loadedPage identity s

theorem pageRoleListener_of_not_selected (role : Role) (p : Page)
    (h : truthy p.selectedPersonId = false) :
    pageRoleListener role p = { page := p, threw := false } := by
  unfold pageRoleListener
  simp [h]

theorem roleListener_of_not_selected (role : Role) (s : State)
    (h : truthy s.selectedPersonId = false) : roleListener role s = s := by
  unfold roleListener
  simp [h]

theorem roleListener_of_selected (role : Role) (s : State)
    (h : truthy s.selectedPersonId = true) :
    roleListener role s =
      { s with
        testimonyRelationMode := some role
        activeButton := some (roleButton role)
        testimonyDisplayMode := DisplayMode.normal
        testimonyGraph := { nodes := [], edges := [] } } := by
  unfold roleListener
  simp only [h, Bool.not_true, Bool.false_eq_true, if_false]
  cases role <;> rfl

/-- C21: a press of a role button while no person is selected (`selectedPersonId`
is `null`, or the empty id, which the guard treats alike) returns at the guard
of each listener: no listener throws, and every variable of the page (the
selected person, the selected graph, the role mode, the active button, both
stores and both graphs' visible sets) is as before.  This holds on every page,
also before the documents have arrived. -/
theorem C21_role_press_without_selection_is_silent_noop (p : Page) (role : Role)
    (h : truthy p.selectedPersonId = false) :
    pageStep p (Action.pressRole role) = { page := p, threw := false } := by
  show runListeners (pageRoleListener role) 2 p = _
  simp only [runListeners, pageRoleListener_of_not_selected role p h, Bool.or_self]

theorem C21_role_press_without_selection_is_silent_noop_witness :
    truthy (loadedPage exampleState).selectedPersonId = false
    ∧ pageStep (loadedPage exampleState) (Action.pressRole Role.accuser)
        = { page := loadedPage exampleState, threw := false } :=
  ⟨by decide,
   C21_role_press_without_selection_is_silent_noop (loadedPage exampleState) Role.accuser
     (by decide)⟩

theorem step_pressRole_of_not_selected (s : State) (role : Role)
    (h : truthy s.selectedPersonId = false) : step s (Action.pressRole role) = s := by
  rw [step_pressRole, roleListener_of_not_selected role s h, roleListener_of_not_selected role s h]

theorem step_pressRole_of_selected (s : State) (role : Role)
    (h : truthy s.selectedPersonId = true) :
    step s (Action.pressRole role) =
      { s with
        testimonyRelationMode := some role
        activeButton := some (roleButton role)
        testimonyDisplayMode := DisplayMode.normal
        testimonyGraph := { nodes := [], edges := [] } } := by
  rw [step_pressRole, roleListener_of_selected role s h]
  exact roleListener_of_selected role _ h

/-- C22 fails as stated: in the state `roleChosenState`, where person `1` is
selected, the role mode is accuser and two testimony edges are visible, a press
of the accused button changes the role mode and empties the testimony graph,
and a press of the accuser button empties the testimony graph as well. -/
theorem C22_counterexample_role_press_in_role_chosen :
    phase roleChosenState = Phase.roleChosen
    ∧ roleChosenState.testimonyRelationMode = some Role.accuser
    ∧ roleChosenState.testimonyGraph.edges.length = 2
    ∧ (step roleChosenState (Action.pressRole Role.accused)).testimonyRelationMode
        = some Role.accused
    ∧ (step roleChosenState (Action.pressRole Role.accused)).testimonyGraph.edges = []
    ∧ (step roleChosenState (Action.pressRole Role.accuser)).testimonyGraph.edges = [] := by
  decide

/-- C22 (amended): a press of a role button is a no-op exactly in `Idle`, that
is while no person is selected.  While a person is selected, in `PersonSelected`
and in `RoleChosen` alike, it sets the role mode and the active button to the
pressed role, sets the display mode to normal, empties the testimony graph's
visible nodes and edges, leads to `RoleChosen`, and leaves the selected person,
the selected graph, the accusation graph, the people and both stores as they
were. -/
theorem C22_role_press_acts_whenever_a_person_is_selected (s : State) (role : Role) :
    (phase s = Phase.idle → step s (Action.pressRole role) = s)
    ∧ (phase s ≠ Phase.idle →
        (step s (Action.pressRole role)).testimonyRelationMode = some role
        ∧ (step s (Action.pressRole role)).activeButton = some (roleButton role)
        ∧ (step s (Action.pressRole role)).testimonyDisplayMode = DisplayMode.normal
        ∧ (step s (Action.pressRole role)).testimonyGraph = { nodes := [], edges := [] }
        ∧ phase (step s (Action.pressRole role)) = Phase.roleChosen
        ∧ (step s (Action.pressRole role)).selectedPersonId = s.selectedPersonId
        ∧ (step s (Action.pressRole role)).selectedGraphType = s.selectedGraphType
        ∧ (step s (Action.pressRole role)).accusationGraph = s.accusationGraph
        ∧ (step s (Action.pressRole role)).peopleData = s.peopleData
        ∧ (step s (Action.pressRole role)).fullAccusationData = s.fullAccusationData
        ∧ (step s (Action.pressRole role)).fullTestimonyData = s.fullTestimonyData) := by
  by_cases h : truthy s.selectedPersonId = true
  · have hphase : phase s ≠ Phase.idle := by
      unfold phase
      rw [if_pos h]
      split <;> simp
    refine ⟨fun h0 => absurd h0 hphase, fun _ => ?_⟩
    rw [step_pressRole_of_selected s role h]
    refine ⟨rfl, rfl, rfl, rfl, ?_, rfl, rfl, rfl, rfl, rfl, rfl⟩
    unfold phase
    simp [h]
  · have h0 : truthy s.selectedPersonId = false := by simpa using h
    have hphase : phase s = Phase.idle := by
      unfold phase
      simp [h0]
    refine ⟨fun _ => step_pressRole_of_not_selected s role h0, fun hne => absurd hphase hne⟩

theorem C22_role_press_acts_whenever_a_person_is_selected_witness :
    (step roleChosenState (Action.pressRole Role.accused)).testimonyRelationMode
      = some Role.accused
    ∧ (step roleChosenState (Action.pressRole Role.accused)).testimonyGraph
      = { nodes := [], edges := [] } :=
  have h := (C22_role_press_acts_whenever_a_person_is_selected roleChosenState Role.accused).2
    (by decide)
  ⟨h.1, h.2.2.2.1⟩

/-- C23: from every state, a click on the node `P` of the accusation graph gives
the selected person `P`, the selected graph accusation, no role mode and no
active button; the testimony graph's visible nodes and edges are both empty, and
the accusation graph's visible set is as before.  A press of a role button
while a person is selected (a non-empty id) empties the testimony graph's
visible nodes and edges as well, and keeps the selected person, the selected
graph and the accusation graph's visible set. -/
theorem C23_node_click_and_role_press_empty_the_testimony_graph (s : State) (P : String)
    (role : Role) :
    ((step s (Action.clickAccusationNode P)).selectedPersonId = some P
      ∧ (step s (Action.clickAccusationNode P)).selectedGraphType = some GraphType.accusation
      ∧ (step s (Action.clickAccusationNode P)).testimonyRelationMode = none
      ∧ (step s (Action.clickAccusationNode P)).activeButton = none
      ∧ (step s (Action.clickAccusationNode P)).testimonyGraph.nodes = []
      ∧ (step s (Action.clickAccusationNode P)).testimonyGraph.edges = []
      ∧ (step s (Action.clickAccusationNode P)).accusationGraph = s.accusationGraph)
    ∧ (truthy s.selectedPersonId = true →
        (step s (Action.pressRole role)).testimonyGraph.nodes = []
        ∧ (step s (Action.pressRole role)).testimonyGraph.edges = []
        ∧ (step s (Action.pressRole role)).selectedPersonId = s.selectedPersonId
        ∧ (step s (Action.pressRole role)).selectedGraphType = s.selectedGraphType
        ∧ (step s (Action.pressRole role)).accusationGraph = s.accusationGraph) := by
  refine ⟨⟨rfl, rfl, rfl, rfl, rfl, rfl, rfl⟩, fun h => ?_⟩
  rw [step_pressRole_of_selected s role h]
  exact ⟨rfl, rfl, rfl, rfl, rfl⟩

theorem C23_node_click_and_role_press_empty_the_testimony_graph_witness :
    exampleState.testimonyGraph.edges.length = 3
    ∧ (step exampleState (Action.clickAccusationNode "1")).testimonyGraph.edges = []
    ∧ (step (step exampleState (Action.clickAccusationNode "1"))
        (Action.pressRole Role.accused)).testimonyGraph.edges = []
    ∧ (step (step exampleState (Action.clickAccusationNode "1"))
        (Action.pressRole Role.accused)).selectedPersonId = some "1" :=
  have h := C23_node_click_and_role_press_empty_the_testimony_graph
    (step exampleState (Action.clickAccusationNode "1")) "1" Role.accused
  ⟨by decide,
   (C23_node_click_and_role_press_empty_the_testimony_graph exampleState "1" Role.accused).1.2.2.2.2.2.1,
   (h.2 (by decide)).2.1, (h.2 (by decide)).2.2.1⟩

/-- The variables after a click on an edge of the accusation graph: the selected
person, the selected graph and the active button are cleared, the testimony
graph is emptied, and everything else, the role mode included, is as before. -/
theorem step_clickAccusationEdge (s : State) (edgeId : String) :
    step s (Action.clickAccusationEdge edgeId) =
      { s with
        selectedPersonId := none
        selectedGraphType := none
        activeButton := none
        testimonyGraph := { nodes := [], edges := [] } } := rfl

/-- C26 fails on the code: in the state `roleChosenState` the role mode is
accuser; a click on an edge of the accusation graph clears the selected person,
the selected graph and the active button but leaves the role mode accuser,
whereas a click on a node of the same graph resets the role mode. -/
theorem C26_edge_click_keeps_the_role_mode :
    roleChosenState.testimonyRelationMode = some Role.accuser
    ∧ (step roleChosenState (Action.clickAccusationEdge "edge-0")).selectedPersonId = none
    ∧ (step roleChosenState (Action.clickAccusationEdge "edge-0")).selectedGraphType = none
    ∧ (step roleChosenState (Action.clickAccusationEdge "edge-0")).activeButton = none
    ∧ (step roleChosenState (Action.clickAccusationEdge "edge-0")).testimonyRelationMode
        = some Role.accuser
    ∧ (step roleChosenState (Action.clickAccusationNode "2")).testimonyRelationMode = none := by
  decide

/-- C27 fails as stated: after the load the testimony graph shows three edges,
and a click on an edge of the accusation graph leaves it with no visible node
and no visible edge. -/
theorem C27_counterexample_edge_click_empties_testimony_graph :
    exampleState.testimonyGraph.nodes.length = 4
    ∧ exampleState.testimonyGraph.edges.length = 3
    ∧ (step exampleState (Action.clickAccusationEdge "edge-0")).testimonyGraph
        = { nodes := [], edges := [] }
    ∧ (step exampleState (Action.clickAccusationEdge "edge-0")).testimonyGraph
        ≠ exampleState.testimonyGraph := by
  decide

/-- C27 (amended): a click on an edge of the accusation graph leaves the
accusation graph's visible nodes and edges, the people, both full-data stores
and the display mode unchanged, and empties the testimony graph's visible
nodes and edges. -/
theorem C27_edge_click_keeps_accusation_graph_and_empties_testimony_graph (s : State)
    (edgeId : String) :
    (step s (Action.clickAccusationEdge edgeId)).accusationGraph = s.accusationGraph
    ∧ (step s (Action.clickAccusationEdge edgeId)).peopleData = s.peopleData
    ∧ (step s (Action.clickAccusationEdge edgeId)).fullAccusationData = s.fullAccusationData
    ∧ (step s (Action.clickAccusationEdge edgeId)).fullTestimonyData = s.fullTestimonyData
    ∧ (step s (Action.clickAccusationEdge edgeId)).testimonyDisplayMode = s.testimonyDisplayMode
    ∧ (step s (Action.clickAccusationEdge edgeId)).testimonyGraph
        = { nodes := [], edges := [] } :=
  ⟨rfl, rfl, rfl, rfl, rfl, rfl⟩

/-- C28: on every page (and so in every state), a click on a node, on an edge or
on the empty canvas of the testimony graph throws nothing and leaves every
variable unchanged: the visible node and edge sets of both graphs, the
selection state and both full-data stores.  The click writes the testimony
info panel only, which is outside the state. -/
theorem C28_testimony_clicks_change_nothing (p : Page) (s : State) (nodeId edgeId : String) :
    pageStep p (Action.clickTestimonyNode nodeId) = { page := p, threw := false }
    ∧ pageStep p (Action.clickTestimonyEdge edgeId) = { page := p, threw := false }
    ∧ pageStep p Action.clickTestimonyCanvas = { page := p, threw := false }
    ∧ step s (Action.clickTestimonyNode nodeId) = s
    ∧ step s (Action.clickTestimonyEdge edgeId) = s
    ∧ step s Action.clickTestimonyCanvas = s :=
  ⟨rfl, rfl, rfl, rfl, rfl, rfl⟩

theorem find?_addr_of_mem (X : List EdgeRef) (o : EdgeRef)
    (hnd : (X.map EdgeRef.addr).Nodup) (ho : o ∈ X) :
    X.find? (fun x => x.addr = o.addr) = some o := by
  induction X with
  | nil => exact absurd ho (List.not_mem_nil o)
  | cons x xs ih =>
    rw [List.map_cons, List.nodup_cons] at hnd
    by_cases hx : x.addr = o.addr
    · have hxo : x = o := by
        rcases List.mem_cons.1 ho with h | h
        · exact h.symm
        · exfalso
          apply hnd.1
          rw [hx]
          exact List.mem_map_of_mem EdgeRef.addr h
      simp [List.find?_cons, hxo]
    · have ho' : o ∈ xs := by
        rcases List.mem_cons.1 ho with h | h
        · exact absurd (by rw [h]) hx
        · exact h
      simp only [List.find?_cons, hx, decide_False]
      exact ih hnd.2 ho'

/-- After the write-back, the store holds at the address of each written object
that object. -/
theorem getElem?_commit_of_mem (st : List Edge) (X : List EdgeRef) (o : EdgeRef) (e : Edge)
    (hnd : (X.map EdgeRef.addr).Nodup) (ho : o ∈ X) (he : st[o.addr]? = some e) :
    (commit st X)[o.addr]? = some o.obj := by
  rw [getElem?_commit, he, find?_addr_of_mem X o hnd ho]
  rfl

theorem edgesWithIds_map_pair (pl : List EdgeRef) :
    (edgesWithIds pl).map (fun v => (v.edge, v.originalData))
      = pl.map (fun o => (o.obj, o.addr)) := by
  unfold edgesWithIds
  exact map_mapIdx_of_forall (fun v : VisEdge => (v.edge, v.originalData))
    (fun o : EdgeRef => (o.obj, o.addr)) pl _ (fun _ _ => rfl)

/-- The visible edges after one run of the show-all listener: up to order and
curvature they are the stored testimony edges, each stored object is shown
exactly once, and every visible edge is a copy of the stored object it refers
to, as the store holds it after the run. -/
theorem showAllListener_edges (u : State) :
    (((showAllListener u).testimonyGraph.edges.map (fun v => clearSmooth v.edge)).Perm
        (u.fullTestimonyData.edges.map clearSmooth))
    ∧ (((showAllListener u).testimonyGraph.edges.map VisEdge.originalData).Perm
        (List.range u.fullTestimonyData.edges.length))
    ∧ (∀ v ∈ (showAllListener u).testimonyGraph.edges,
        (showAllListener u).fullTestimonyData.edges[v.originalData]? = some v.edge) := by
  have hg : (showAllListener u).testimonyGraph.edges
      = edgesWithIds (preprocessEdges (refs u.fullTestimonyData.edges)) := rfl
  have hs : (showAllListener u).fullTestimonyData.edges
      = commit u.fullTestimonyData.edges (preprocessEdges (refs u.fullTestimonyData.edges)) := rfl
  rw [hg, hs]
  refine ⟨?_, ?_, ?_⟩
  · have h1 : (edgesWithIds (preprocessEdges (refs u.fullTestimonyData.edges))).map
          (fun v => clearSmooth v.edge)
        = (preprocessEdges (refs u.fullTestimonyData.edges)).map (fun o => clearSmooth o.obj) := by
      have := congrArg (List.map clearSmooth)
        (edgesWithIds_map_edge (preprocessEdges (refs u.fullTestimonyData.edges)))
      simpa [List.map_map, Function.comp_def] using this
    rw [h1]
    have h2 := preprocessEdges_perm_map (fun o : EdgeRef => clearSmooth o.obj) (fun _ => rfl)
      (refs u.fullTestimonyData.edges)
    have h3 : (refs u.fullTestimonyData.edges).map (fun o => clearSmooth o.obj)
        = u.fullTestimonyData.edges.map clearSmooth := by
      have := congrArg (List.map clearSmooth) (refs_map_obj u.fullTestimonyData.edges)
      simpa [List.map_map, Function.comp_def] using this
    rw [h3] at h2
    exact h2
  · rw [edgesWithIds_map_originalData]
    have h2 := preprocessEdges_perm_map EdgeRef.addr (fun _ => rfl)
      (refs u.fullTestimonyData.edges)
    rw [refs_map_addr] at h2
    exact h2
  · intro v hv
    have hm : (v.edge, v.originalData)
        ∈ (preprocessEdges (refs u.fullTestimonyData.edges)).map (fun o => (o.obj, o.addr)) := by
      rw [← edgesWithIds_map_pair]
      exact List.mem_map_of_mem (fun v : VisEdge => (v.edge, v.originalData)) hv
    obtain ⟨o, ho, hov⟩ := List.mem_map.1 hm
    have hedge : o.obj = v.edge := congrArg Prod.fst hov
    have haddr : o.addr = v.originalData := congrArg Prod.snd hov
    obtain ⟨e, he, _⟩ := preprocessEdges_agrees_with_store u.fullTestimonyData.edges
      (refs u.fullTestimonyData.edges) (fun _ h => h) o ho
    have hnd := preprocessEdges_map_addr_nodup u.fullTestimonyData.edges
      (refs u.fullTestimonyData.edges) (List.Sublist.refl _)
    rw [← haddr, ← hedge]
    exact getElem?_commit_of_mem _ _ o e hnd ho he

/-- C24: from every state, a press of "show all" leaves no selected person, no
selected graph and no role mode, and a testimony projection whose visible edges
are exactly the full testimony edge set: up to order and curvature they are
the stored testimony edges, every stored edge is shown exactly once, and each
visible edge is a copy of the stored edge it refers to.  The state before the
press, and so any earlier node selection, plays no part. -/
theorem C24_show_all_gives_idle_and_the_full_edge_set (s : State) :
    (step s Action.pressShowAll).selectedPersonId = none
    ∧ (step s Action.pressShowAll).selectedGraphType = none
    ∧ (step s Action.pressShowAll).testimonyRelationMode = none
    ∧ (((step s Action.pressShowAll).testimonyGraph.edges.map (fun v => clearSmooth v.edge)).Perm
        (s.fullTestimonyData.edges.map clearSmooth))
    ∧ (((step s Action.pressShowAll).testimonyGraph.edges.map VisEdge.originalData).Perm
        (List.range s.fullTestimonyData.edges.length))
    ∧ (∀ v ∈ (step s Action.pressShowAll).testimonyGraph.edges,
        (step s Action.pressShowAll).fullTestimonyData.edges[v.originalData]? = some v.edge) := by
  rw [step_pressShowAll]
  obtain ⟨h1, h2, h3⟩ := showAllListener_edges (showAllListener s)
  have hclear : (showAllListener s).fullTestimonyData.edges.map clearSmooth
      = s.fullTestimonyData.edges.map clearSmooth := (showAllListener_sim s).2.2.1.symm
  have hlen : (showAllListener s).fullTestimonyData.edges.length
      = s.fullTestimonyData.edges.length := by
    have := congrArg List.length hclear
    simpa using this
  rw [hclear] at h1
  rw [hlen] at h2
  exact ⟨rfl, rfl, rfl, h1, h2, h3⟩

theorem labelFilterListener_selection (L : String) (t : State) :
    (labelFilterListener L t).selectedPersonId = t.selectedPersonId
    ∧ (labelFilterListener L t).testimonyRelationMode = t.testimonyRelationMode := by
  unfold labelFilterListener
  split
  · unfold filterTestimonyEdgesByLabelForNode
    cases roleScopedEdges t L with
    | none => exact ⟨rfl, rfl⟩
    | some F => exact ⟨rfl, rfl⟩
  · exact ⟨rfl, rfl⟩

theorem labelFilterListener_all_edges (u : State)
    (h : u.selectedPersonId = none ∨ u.testimonyRelationMode = none) :
    (labelFilterListener allLabel u).testimonyGraph.edges
      = edgesWithIds (preprocessEdges (refs u.fullTestimonyData.edges)) := by
  rw [labelFilterListener_global u allLabel h]
  have hf : (refs u.fullTestimonyData.edges).filter
      (fun o => decide (LabelCondition allLabel o.obj)) = refs u.fullTestimonyData.edges := by
    rw [List.filter_eq_self]
    intro o _
    simp [LabelCondition]
  rw [hf]
  rfl

/-- The visible edges, with their ids and curvature, are the same after "show
all" and after a press of the label filter for all labels in global mode. -/
theorem show_all_and_all_label_show_the_same_edges (s : State)
    (h : s.selectedPersonId = none ∨ s.testimonyRelationMode = none) :
    (step s Action.pressShowAll).testimonyGraph.edges
      = (step s (Action.pressLabelFilter allLabel)).testimonyGraph.edges := by
  rw [step_pressShowAll, step_pressLabelFilter]
  have hinv : ∀ t : State, (t.selectedPersonId = none ∨ t.testimonyRelationMode = none) →
      ((labelFilterListener allLabel t).selectedPersonId = none
        ∨ (labelFilterListener allLabel t).testimonyRelationMode = none) := by
    intro t ht
    rw [(labelFilterListener_selection allLabel t).1, (labelFilterListener_selection allLabel t).2]
    exact ht
  have h5 := iterate_invariant _ (labelFilterListener allLabel) hinv 5 s h
  have hsim : Sim (showAllListener s) (Nat.iterate (labelFilterListener allLabel) 5 s) :=
    sim_trans (sim_symm (showAllListener_sim s))
      (iterate_sim _ (labelFilterListener_sim allLabel) 5 s)
  rw [labelFilterListener_all_edges _ h5]
  show edgesWithIds (preprocessEdges (refs (showAllListener s).fullTestimonyData.edges)) = _
  rw [preprocessEdges_refs_of_storeSim _ _ hsim.2.2]

/-- C25 fails on the code: with the single testimony edge from `1` to `2` with
accuser `3` and accused `2`, "show all" (`restoreTestimonyGraph`) shows the
persons `2` and `3`, and the label filter for all labels pressed in the same
state (`filterTestimonyEdgesByLabelForAll`) shows `1`, `2` and `3`; the visible
edges and the degree values of the persons shown by both are the same. -/
theorem C25_show_all_and_all_label_show_different_nodes :
    (step accuserApartState Action.pressShowAll).testimonyGraph.nodes.map
        (fun node => (node.person.id, node.value)) = [("2", 2), ("3", 1)]
    ∧ (step accuserApartState (Action.pressLabelFilter allLabel)).testimonyGraph.nodes.map
        (fun node => (node.person.id, node.value)) = [("1", 1), ("2", 2), ("3", 1)]
    ∧ (step accuserApartState Action.pressShowAll).testimonyGraph.edges
        = (step accuserApartState (Action.pressLabelFilter allLabel)).testimonyGraph.edges
    ∧ (step accuserApartState Action.pressShowAll).testimonyGraph.edges.length = 1 := by
  decide

theorem commit_nil (st : List Edge) : commit st [] = st := by
  apply List.ext_getElem?
  intro i
  rw [getElem?_commit]
  cases st[i]? with
  | none => rfl
  | some e => rfl

theorem preprocessEdges_nil : preprocessEdges [] = [] := rfl

theorem updateTestimonyGraph_nil (peopleData : List Person) (store : List Edge) :
    updateTestimonyGraph peopleData store [] = (store, { nodes := [], edges := [] }) := by
  unfold updateTestimonyGraph
  simp only [preprocessEdges_nil, commit_nil]
  simp [edgesWithIds, withDegrees]

theorem showTestimony_nil (t : State) :
    showTestimony t [] = { t with testimonyGraph := { nodes := [], edges := [] } } := by
  unfold showTestimony
  rw [updateTestimonyGraph_nil]

theorem mem_of_mem_refs (st : List Edge) (o : EdgeRef) (h : o ∈ refs st) : o.obj ∈ st :=
  List.getElem?_mem ((mem_refs st o).1 h)

theorem iterate_of_absorbed {α : Type} (f : α → α) (s t : α) (h1 : f s = t) (h2 : f t = t)
    (n : Nat) : Nat.iterate f (n + 1) s = t := by
  rw [Function.iterate_succ_apply, h1, Function.iterate_fixed h2]

/-- C29: when the filter selects no edge, the projection is the empty pair.
`updateTestimonyGraph` applied to the empty edge list returns no visible node
and no visible edge and leaves the store as it is.  A label-filter press in
global mode with a label that no stored testimony edge carries, and a
label-filter press in role-scoped mode for a person and a label such that no
stored edge satisfies both the role condition and the label condition, leave
the testimony graph with no visible node and no visible edge and change
nothing else. -/
theorem C29_empty_selection_gives_the_empty_projection (s : State) (L P : String) (role : Role)
    (peopleData : List Person) (store : List Edge) :
    updateTestimonyGraph peopleData store [] = (store, { nodes := [], edges := [] })
    ∧ ((s.selectedPersonId = none ∨ s.testimonyRelationMode = none) →
        (∀ e ∈ s.fullTestimonyData.edges, ¬ LabelCondition L e) →
        step s (Action.pressLabelFilter L)
          = { s with testimonyGraph := { nodes := [], edges := [] } })
    ∧ (s.selectedPersonId = some P → P ≠ "" → s.testimonyRelationMode = some role →
        (∀ e ∈ s.fullTestimonyData.edges, ¬ (RoleCondition role P e ∧ LabelCondition L e)) →
        step s (Action.pressLabelFilter L)
          = { s with testimonyGraph := { nodes := [], edges := [] } }) := by
  refine ⟨updateTestimonyGraph_nil peopleData store, ?_, ?_⟩
  · intro h hno
    have hf : ∀ t : State, t.fullTestimonyData = s.fullTestimonyData →
        (t.selectedPersonId = none ∨ t.testimonyRelationMode = none) →
        labelFilterListener L t = { t with testimonyGraph := { nodes := [], edges := [] } } := by
      intro t hd ht
      rw [labelFilterListener_global t L ht]
      have hnil : (refs t.fullTestimonyData.edges).filter
          (fun o => decide (LabelCondition L o.obj)) = [] := by
        rw [List.filter_eq_nil_iff]
        intro o ho
        rw [hd] at ho
        simpa using hno o.obj (mem_of_mem_refs _ o ho)
      rw [hnil, showTestimony_nil]
    show Nat.iterate (labelFilterListener L) (5 + 1) s = _
    exact iterate_of_absorbed _ s _ (hf s rfl h) (hf _ rfl h) 5
  · intro hsel hP hmode hno
    have hf : ∀ t : State, t.fullTestimonyData = s.fullTestimonyData →
        t.selectedPersonId = some P → t.testimonyRelationMode = some role →
        labelFilterListener L t = { t with testimonyGraph := { nodes := [], edges := [] } } := by
      intro t hd ht1 ht2
      rw [labelFilterListener_roleScoped t P L role hP ht1 ht2]
      have hnil : (refs t.fullTestimonyData.edges).filter
          (fun o => decide (RoleCondition role P o.obj ∧ LabelCondition L o.obj)) = [] := by
        rw [List.filter_eq_nil_iff]
        intro o ho
        rw [hd] at ho
        simpa using hno o.obj (mem_of_mem_refs _ o ho)
      rw [hnil, showTestimony_nil]
    show Nat.iterate (labelFilterListener L) (5 + 1) s = _
    exact iterate_of_absorbed _ s _ (hf s rfl hsel hmode) (hf _ rfl hsel hmode) 5

theorem C29_empty_selection_gives_the_empty_projection_witness :
    exampleState.testimonyGraph.edges.length = 3
    ∧ (step exampleState (Action.pressLabelFilter "Z")).testimonyGraph
        = { nodes := [], edges := [] }
    ∧ (step noEdgeState (Action.pressLabelFilter allLabel)).testimonyGraph
        = { nodes := [], edges := [] } :=
  ⟨by decide,
   congrArg State.testimonyGraph
     ((C29_empty_selection_gives_the_empty_projection exampleState "Z" "4" Role.accuser [] []).2.1
       (by decide) (by decide)),
   congrArg State.testimonyGraph
     ((C29_empty_selection_gives_the_empty_projection noEdgeState allLabel "4" Role.accuser
       [] []).2.2 (by decide) (by decide) (by decide) (by decide))⟩

theorem runListeners_threw (listener : Page → Outcome) (n : Nat) (p : Page)
    (h : (listener p).threw = true) : (runListeners listener (n + 1) p).threw = true := by
  show ((listener p).threw || (runListeners listener n (listener p).page).threw) = true
  rw [h]
  rfl

/-- While a store is still the initial `{}`, every filter action on its graph
ends with an uncaught exception: the label-filter press and "show all" while the
testimony store is `{}`, the identity-filter press (the restore included)
while the accusation store is `{}`. -/
theorem filter_actions_throw_while_store_is_empty (p : Page) (L identity : String) :
    (p.fullTestimonyData = none →
      (pageStep p (Action.pressLabelFilter L)).threw = true
      ∧ (pageStep p Action.pressShowAll).threw = true
      ∧ (pageStep p Action.pressShowAll).page.activeButton = some Button.showAll)
    ∧ (p.fullAccusationData = none →
      pageStep p (Action.pressIdentityFilter identity) = { page := p, threw := true }) := by
  constructor
  · intro h
    have hlabel : pageLabelFilterListener L p = { page := p, threw := true } := by
      unfold pageLabelFilterListener pageFilterTestimonyEdgesByLabelForNode
        pageFilterTestimonyEdgesByLabelForAll
      rw [h]
      simp
    have hshow : ∀ q : Page, q.fullTestimonyData = none →
        pageShowAllListener q = { page := { q with
          selectedPersonId := none
          selectedGraphType := none
          testimonyRelationMode := none
          activeButton := some Button.showAll }, threw := true } := by
      intro q hq
      unfold pageShowAllListener pageRestoreTestimonyGraph
      simp only [hq]
    refine ⟨?_, ?_, ?_⟩
    · apply runListeners_threw
      rw [hlabel]
    · apply runListeners_threw
      rw [hshow p h]
    · show (runListeners pageShowAllListener 2 p).page.activeButton = _
      simp only [runListeners, hshow p h]
      rw [hshow _ (show ({ p with
          selectedPersonId := none
          selectedGraphType := none
          testimonyRelationMode := none
          activeButton := some Button.showAll } : Page).fullTestimonyData = none from h)]
  · intro h
    show pageIdentityFilterListener identity p = _
    unfold pageIdentityFilterListener
    rw [h]

/-- C30 fails on the code: on the page as the script leaves it before any
document has arrived, both stores are still `{}`, and a label-filter press, a
press of "show all" and an identity-filter press (the restore for all
identities included) each end with an uncaught exception; "show all" has by
then set the active button.  The same happens on the page where the testimony
fetch has failed. -/
theorem C30_filter_actions_throw_before_load :
    initialPage.fullTestimonyData = none
    ∧ initialPage.fullAccusationData = none
    ∧ (pageStep initialPage (Action.pressLabelFilter allLabel)).threw = true
    ∧ (pageStep initialPage (Action.pressLabelFilter "A")).threw = true
    ∧ (pageStep initialPage Action.pressShowAll).threw = true
    ∧ (pageStep initialPage Action.pressShowAll).page.activeButton = some Button.showAll
    ∧ (pageStep initialPage (Action.pressIdentityFilter allLabel)).threw = true
    ∧ (pageStep initialPage (Action.pressIdentityFilter "功臣")).threw = true
    ∧ testimonyFailedPage.fullTestimonyData = none
    ∧ (pageStep testimonyFailedPage (Action.pressLabelFilter "A")).threw = true
    ∧ (pageStep testimonyFailedPage Action.pressShowAll).threw = true := by
  decide

theorem labelFilterListener_forgetMode (L : String) (t : State)
    (h : truthy t.selectedPersonId = false) :
    labelFilterListener L (forgetMode t) = forgetMode (labelFilterListener L t) := by
  have h' : truthy (forgetMode t).selectedPersonId = false := h
  unfold labelFilterListener
  simp only [h, h', Bool.false_and, Bool.false_eq_true, if_false]
  rfl

theorem identityFilterListener_forgetMode (identity : String) (t : State) :
    identityFilterListener identity (forgetMode t)
      = forgetMode (identityFilterListener identity t) := by
  unfold identityFilterListener
  split <;> rfl

theorem iterate_forgetMode (f : State → State)
    (hf : ∀ t, truthy t.selectedPersonId = false →
      f (forgetMode t) = forgetMode (f t) ∧ truthy (f t).selectedPersonId = false) :
    ∀ (n : Nat) (t : State), truthy t.selectedPersonId = false →
      Nat.iterate f n (forgetMode t) = forgetMode (Nat.iterate f n t)
      ∧ truthy (Nat.iterate f n t).selectedPersonId = false := by
  intro n
  induction n with
  | zero => intro t h; exact ⟨rfl, h⟩
  | succ n ih =>
    intro t h
    show Nat.iterate f n (f (forgetMode t)) = forgetMode (Nat.iterate f n (f t))
      ∧ truthy (Nat.iterate f n (f t)).selectedPersonId = false
    rw [(hf t h).1]
    exact ih (f t) (hf t h).2

theorem step_sameButMode (t u : State) (a : Action) (h : SameButMode t u) :
    SameButMode (step t a) (step u a) := by
  rcases h with h | ⟨hsel, h⟩
  · left
    rw [h]
  · subst h
    cases a with
    | clickAccusationNode nodeId => left; rfl
    | clickAccusationEdge edgeId => right; exact ⟨rfl, rfl⟩
    | clickAccusationCanvas => right; exact ⟨hsel, rfl⟩
    | clickTestimonyNode nodeId => right; exact ⟨hsel, rfl⟩
    | clickTestimonyEdge edgeId => right; exact ⟨hsel, rfl⟩
    | clickTestimonyCanvas => right; exact ⟨hsel, rfl⟩
    | pressRole role =>
      right
      rw [step_pressRole_of_not_selected t role hsel,
        step_pressRole_of_not_selected (forgetMode t) role hsel]
      exact ⟨hsel, rfl⟩
    | pressShowAll => left; rfl
    | pressLabelFilter L =>
      right
      have hi := iterate_forgetMode (labelFilterListener L)
        (fun t ht => ⟨labelFilterListener_forgetMode L t ht,
          by rw [(labelFilterListener_selection L t).1]; exact ht⟩) 6 t hsel
      exact ⟨hi.2, hi.1⟩
    | pressIdentityFilter identity =>
      right
      refine ⟨?_, identityFilterListener_forgetMode identity t⟩
      show truthy (identityFilterListener identity t).selectedPersonId = false
      unfold identityFilterListener
      split <;> exact hsel

theorem run_sameButMode (actions : List Action) :
    ∀ t u : State, SameButMode t u → SameButMode (run t actions) (run u actions) := by
  induction actions with
  | nil => intro t u h; exact h
  | cons a as ih => intro t u h; exact ih _ _ (step_sameButMode t u a h)

/-- The role mode that a click on an edge of the accusation graph leaves behind
has no effect: whatever actions follow, both projections, both stores and
every variable other than the role mode are the same as if the click had reset
the role mode. -/
theorem retained_role_mode_has_no_effect (s : State) (edgeId : String) (actions : List Action) :
    forgetMode (run (step s (Action.clickAccusationEdge edgeId)) actions)
      = forgetMode (run (forgetMode (step s (Action.clickAccusationEdge edgeId))) actions) := by
  have h := run_sameButMode actions (step s (Action.clickAccusationEdge edgeId))
    (forgetMode (step s (Action.clickAccusationEdge edgeId))) (Or.inr ⟨rfl, rfl⟩)
  rcases h with h | ⟨_, h⟩
  · rw [h]
  · rw [h]
    rfl

/-- The function `getColorByIdentity` returns the colour of the table for each
of the eleven listed identities, and the default gray `#999999` for an absent
identity and for every string that is neither one of the eleven nor the name
of a member of `Object.prototype`; for the name of such a member it returns
the member. -/
theorem color_table_and_default_gray (identity : Option String) :
    getColorByIdentity (some "功臣") = Color.code "#73a0fa"
    ∧ getColorByIdentity (some "藍玉") = Color.code "#73d8fa"
    ∧ getColorByIdentity (some "功臣僕役") = Color.code "#cfcfcf"
    ∧ getColorByIdentity (some "功臣親屬") = Color.code "#cfcfcf"
    ∧ getColorByIdentity (some "文官") = Color.code "#cfcfcf"
    ∧ getColorByIdentity (some "武官") = Color.code "#fa73c4"
    ∧ getColorByIdentity (some "皇帝") = Color.code "#faf573"
    ∧ getColorByIdentity (some "胡惟庸功臣") = Color.code "#73fa9e"
    ∧ getColorByIdentity (some "都督") = Color.code "#8e73fa"
    ∧ getColorByIdentity (some "都督僕役") = Color.code "#cfcfcf"
    ∧ getColorByIdentity (some "都督親屬") = Color.code "#cfcfcf"
    ∧ getColorByIdentity none = Color.code "#999999"
    ∧ ((∀ k ∈ listedIdentities, identity ≠ some k) →
        (∀ k ∈ objectPrototypeKeys, identity ≠ some k) →
        getColorByIdentity identity = Color.code "#999999")
    ∧ (∀ k ∈ objectPrototypeKeys, getColorByIdentity (some k) = Color.inherited k) := by
  refine ⟨by decide, by decide, by decide, by decide, by decide, by decide, by decide, by decide,
    by decide, by decide, by decide, rfl, ?_, by decide⟩
  intro h hp
  cases identity with
  | none => rfl
  | some s =>
    have hs : ∀ k ∈ listedIdentities, ¬ s = k := fun k hk e => h k hk (by rw [e])
    simp only [listedIdentities, List.mem_cons, List.mem_singleton, forall_eq_or_imp, forall_eq,
      List.not_mem_nil, IsEmpty.forall_iff, implies_true, and_true] at hs
    obtain ⟨h1, h2, h3, h4, h5, h6, h7, h8, h9, h10, h11⟩ := hs
    have e : ∀ k : String, ¬ s = k → (s == k) = false := fun k hk => by simpa using hk
    have hc : objectPrototypeKeys.contains s = false := by
      rw [Bool.eq_false_iff]
      intro hcon
      exact hp s (List.mem_of_elem_eq_true hcon) rfl
    simp only [getColorByIdentity, List.lookup, e _ h1, e _ h2, e _ h3, e _ h4, e _ h5, e _ h6,
      e _ h7, e _ h8, e _ h9, e _ h10, e _ h11, hc]
    rfl

/-- C33 fails on the code: the identities `constructor` and `toString` are not
keys of the colour table, yet `getColorByIdentity` does not return the default
gray for them: it returns the member of `Object.prototype` of that name, and a
person with such an identity gets it as node colour. -/
theorem C33_inherited_identity_is_not_gray :
    "constructor" ∉ listedIdentities
    ∧ "toString" ∉ listedIdentities
    ∧ getColorByIdentity (some "constructor") = Color.inherited "constructor"
    ∧ getColorByIdentity (some "toString") = Color.inherited "toString"
    ∧ getColorByIdentity (some "constructor") ≠ Color.code "#999999"
    ∧ getColorByIdentity (some "toString") ≠ Color.code "#999999"
    ∧ (personNode { id := "1", identity := some "constructor" }).color
        = Color.inherited "constructor"
    ∧ getColorByIdentity (some "平民") = Color.code "#999999"
    ∧ getColorByIdentity none = Color.code "#999999" := by
  decide

theorem personOf_eq_none_iff (peopleData : List Person) (id : String) :
    personOf peopleData id = none ↔ ∀ p ∈ peopleData, p.id ≠ id := by
  unfold personOf
  rw [List.find?_eq_none]
  simp

theorem personOf_id (peopleData : List Person) (id : String) (p : Person)
    (h : personOf peopleData id = some p) : p.id = id ∧ p ∈ peopleData := by
  unfold personOf at h
  exact ⟨by simpa using List.find?_some h, List.mem_of_find?_eq_some h⟩

/-- C40 fails as stated: for the person `1` of the example store, who has the
identity 功臣 and the fate 誅, the earlier declarations of `showPersonInfo` show a
record of ten lines with both values, and the declaration in effect shows a
record of eight lines with neither. -/
theorem C40_counterexample_identity_and_fate_are_not_shown :
    (showPersonInfoFirst storiedPeople "1").lines.lookup "身份：" = some "功臣"
    ∧ (showPersonInfoFirst storiedPeople "1").lines.lookup "下場：" = some "誅"
    ∧ (showPersonInfo storiedPeople "1").lines.lookup "身份：" = none
    ∧ (showPersonInfo storiedPeople "1").lines.lookup "下場：" = none
    ∧ (showPersonInfoFirst storiedPeople "1").lines.length = 10
    ∧ (showPersonInfo storiedPeople "1").lines.length = 8
    ∧ showPersonInfo storiedPeople "1" ≠ showPersonInfoFirst storiedPeople "1" := by
  decide

/-- C40 (amended): for every people store and every id, the declaration of
`showPersonInfo` in effect produces the display of the earlier declarations
with the lines for identity (身份) and fate (下場) removed: the same not-found
message when the id is not in the store, and otherwise the same heading and
the same eight other lines, in the same order. -/
theorem C40_last_definition_drops_identity_and_fate (peopleData : List Person)
    (nodeId : String) :
    showPersonInfo peopleData nodeId
      = dropIdentityAndFate (showPersonInfoFirst peopleData nodeId) := by
  unfold showPersonInfo showPersonInfoFirst
  cases personOf peopleData nodeId with
  | none => rfl
  | some person =>
    rfl

theorem findById_of_ids (edgeId : String) :
    ∀ edgesData : List VisEdge, (∀ v ∈ edgesData, v.id ≠ none) →
      findById edgeId edgesData = some (edgesData.find? (fun v => v.id == some edgeId)) := by
  intro edgesData
  induction edgesData with
  | nil => intro _; rfl
  | cons v rest ih =>
    intro h
    have hv := h v (List.mem_cons_self v rest)
    have hrest : ∀ w ∈ rest, w.id ≠ none := fun w hw => h w (List.mem_cons_of_mem v hw)
    cases hid : v.id with
    | none => exact absurd hid hv
    | some id =>
      by_cases he : id = edgeId
      · simp [findById, List.find?_cons, hid, he]
      · simp [findById, List.find?_cons, hid, he, ih hrest]

theorem find?_id_eq_none_iff (edgeId : String) (edgesData : List VisEdge) :
    edgesData.find? (fun v => v.id == some edgeId) = none
      ↔ ∀ v ∈ edgesData, v.id ≠ some edgeId := by
  rw [List.find?_eq_none]
  simp

/-- An edge without an id that is reached by the search makes
`showTestimonyEdgeInfo` throw. -/
theorem showTestimonyEdgeInfo_throws_on_missing_id (peopleData : List Person)
    (store : List Edge) (edgeId : String) (v : VisEdge) (rest : List VisEdge)
    (h : v.id = none) :
    showTestimonyEdgeInfo peopleData store edgeId (v :: rest) = none := by
  simp [showTestimonyEdgeInfo, findById, h]

/-- C32: the formatters yield the not-found message exactly when the id is
missing, and a display record otherwise.  `showPersonInfo` yields it exactly
when no person of the store has the id.  `showAccusationEdgeInfo` yields it
exactly when no edge of the supplied list has the id.  `showTestimonyEdgeInfo`,
given a list whose edges all carry an id and refer to a stored edge (as every
list built by the program does), does not throw and yields it exactly when no
edge of the list has the id. -/
theorem C32_not_found_exactly_when_the_id_is_missing (peopleData : List Person)
    (store : List Edge) (nodeId edgeId : String) (edgesData : List VisEdge)
    (hid : ∀ v ∈ edgesData, v.id ≠ none)
    (hdata : ∀ v ∈ edgesData, v.originalData < store.length) :
    ((showPersonInfo peopleData nodeId).isNotFound = true ↔ ∀ p ∈ peopleData, p.id ≠ nodeId)
    ∧ ((showAccusationEdgeInfo edgeId edgesData).isNotFound = true
        ↔ ∀ v ∈ edgesData, v.id ≠ some edgeId)
    ∧ (∃ d, showTestimonyEdgeInfo peopleData store edgeId edgesData = some d
        ∧ (d.isNotFound = true ↔ ∀ v ∈ edgesData, v.id ≠ some edgeId)) := by
  refine ⟨?_, ?_, ?_⟩
  · rw [← personOf_eq_none_iff]
    unfold showPersonInfo
    cases personOf peopleData nodeId with
    | none => simp [Display.isNotFound]
    | some p => simp [Display.isNotFound]
  · rw [← find?_id_eq_none_iff]
    unfold showAccusationEdgeInfo
    cases edgesData.find? (fun v => v.id == some edgeId) with
    | none => simp [Display.isNotFound]
    | some v => simp [Display.isNotFound]
  · rw [← find?_id_eq_none_iff]
    unfold showTestimonyEdgeInfo
    rw [findById_of_ids edgeId edgesData hid]
    cases hf : edgesData.find? (fun v => v.id == some edgeId) with
    | none => exact ⟨_, rfl, by simp [Display.isNotFound]⟩
    | some v =>
      have hv : v ∈ edgesData := List.mem_of_find?_eq_some hf
      have hlt := hdata v hv
      have hget : store[v.originalData]? = some store[v.originalData] :=
        List.getElem?_eq_getElem hlt
      refine ⟨_, rfl, ?_⟩
      simp [hget, Display.isNotFound]

theorem C32_not_found_exactly_when_the_id_is_missing_witness :
    (showPersonInfo exampleState.peopleData "9").isNotFound = true
    ∧ (showPersonInfo exampleState.peopleData "1").isNotFound = false
    ∧ (showAccusationEdgeInfo "edge-7" exampleState.accusationGraph.edges).isNotFound = true
    ∧ (showAccusationEdgeInfo "edge-1" exampleState.accusationGraph.edges).isNotFound = false
    ∧ (∃ d, showTestimonyEdgeInfo exampleState.peopleData exampleState.fullTestimonyData.edges
          "edge-7" exampleState.testimonyGraph.edges = some d ∧ d.isNotFound = true) :=
  have h := C32_not_found_exactly_when_the_id_is_missing exampleState.peopleData
    exampleState.fullTestimonyData.edges "9" "edge-7" exampleState.testimonyGraph.edges
    (by decide) (by decide)
  ⟨h.1.2 (by decide), by decide, by decide, by decide,
   h.2.2.elim (fun d hd => ⟨d, hd.1, hd.2.2 (by decide)⟩)⟩

/-- C31: for every testimony edge found by id, `showTestimonyEdgeInfo` completes
with a display record whose accuser line is the stored name of the person with
the id `accuser`, or `-` when the accuser is absent, empty or not in the store,
and whose accused line is the concatenation, with the delimiter `、`, of one
entry per accused id in list order: the stored name of the person with that id,
or `-` when the id is not in the store. -/
theorem C31_accuser_and_accused_are_shown_by_name (peopleData : List Person)
    (store : List Edge) (edgeId : String) (edgesData : List VisEdge) (v : VisEdge) (orig : Edge)
    (hfind : findById edgeId edgesData = some (some v))
    (horig : store[v.originalData]? = some orig) :
    ∃ heading lines accuserLine accusedLine,
      showTestimonyEdgeInfo peopleData store edgeId edgesData
        = some (Display.record heading lines)
      ∧ lines.lookup "作供者：" = some accuserLine
      ∧ lines.lookup "被供者：" = some accusedLine
      ∧ (orig.accuser = none ∨ orig.accuser = some ""
          ∨ (∀ p ∈ peopleData, some p.id ≠ orig.accuser) → accuserLine = "-")
      ∧ (∀ (a : String) (p : Person) (n : String), orig.accuser = some a → a ≠ "" →
          personOf peopleData a = some p → p.name = some n → accuserLine = n)
      ∧ (orig.accused = none → accusedLine = "")
      ∧ (∀ ids : List String, orig.accused = some ids →
          ∃ names : List String,
            accusedLine = String.intercalate "、" names
            ∧ names.length = ids.length
            ∧ ∀ (i : Nat) (id : String), ids[i]? = some id →
                (personOf peopleData id = none → names[i]? = some "-")
                ∧ (∀ (p : Person) (n : String), personOf peopleData id = some p →
                    p.name = some n → names[i]? = some n)) := by
  refine ⟨"證供關係資訊",
    [ ("關係類型：", orDash (some orig.label)),
      ("作供者：", accuserName peopleData orig),
      ("被供者：", accusedNames peopleData orig),
      ("發生日期：", orDash orig.Date),
      ("說明：", orDash orig.Conclusion),
      ("供詞原文：", orDash orig.Text),
      ("詳細內容：", orDash orig.Reference) ],
    accuserName peopleData orig, accusedNames peopleData orig,
    ?_, rfl, rfl, ?_, ?_, ?_, ?_⟩
  · unfold showTestimonyEdgeInfo
    rw [hfind]
    simp only [Option.map_some', Option.some_bind, horig]
  · intro h
    unfold accuserName
    rcases h with h | h | h
    · simp [h, truthy]
    · simp [h, truthy]
    · cases ha : orig.accuser with
      | none => simp [truthy]
      | some a =>
        have hnone : personOf peopleData a = none := by
          rw [personOf_eq_none_iff]
          intro p hp e
          exact h p hp (by rw [ha, e])
        simp [hnone]
  · intro a p n ha hne hp hn
    unfold accuserName
    have ht : truthy (some a) = true := (truthy_some_iff a).2 hne
    simp [ha, ht, hp, templateText, hn]
  · intro h
    unfold accusedNames
    rw [h]
  · intro ids h
    refine ⟨ids.map (fun id =>
      match personOf peopleData id with
      | some person => joinText person.name
      | none => "-"), ?_, by simp, ?_⟩
    · unfold accusedNames
      rw [h]
    · intro i id hi
      rw [List.getElem?_map, hi]
      constructor
      · intro hnone
        simp [hnone]
      · intro p n hp hn
        simp [hp, joinText, hn]

theorem C31_accuser_and_accused_are_shown_by_name_witness :
    showTestimonyEdgeInfo exampleState.peopleData exampleState.fullTestimonyData.edges "edge-1"
        exampleState.testimonyGraph.edges
      = some (Display.record "證供關係資訊"
          [ ("關係類型：", "B"), ("作供者：", "甲"), ("被供者：", "乙、丙"), ("發生日期：", "-"),
            ("說明：", "-"), ("供詞原文：", "-"), ("詳細內容：", "-") ])
    ∧ ∃ heading lines, showTestimonyEdgeInfo exampleState.peopleData
          exampleState.fullTestimonyData.edges "edge-1" exampleState.testimonyGraph.edges
        = some (Display.record heading lines) ∧ lines.lookup "作供者：" = some "甲" :=
  ⟨by decide,
   (C31_accuser_and_accused_are_shown_by_name exampleState.peopleData
      exampleState.fullTestimonyData.edges "edge-1" exampleState.testimonyGraph.edges
      { edge := { from_ := "1", to_ := "2", label := "B", accuser := some "1",
                  accused := some ["2", "3"], edgeId := some "edge-1",
                  smooth := some (curve 1) },
        id := some "edge-1", originalData := 1 }
      { from_ := "1", to_ := "2", label := "B", accuser := some "1",
        accused := some ["2", "3"], edgeId := some "edge-1", smooth := some (curve 1) }
      (by decide) (by decide)).elim
     (fun heading h => h.elim (fun lines h => h.elim (fun accuserLine h => h.elim
       (fun accusedLine h =>
         ⟨heading, lines, h.1,
          by rw [h.2.1, h.2.2.2.2.1 "1" { id := "1", name := some "甲" } "甲" rfl (by decide)
            (by decide) rfl]⟩))))⟩

/-- The text and reference lines of `showTestimonyEdgeInfo` show the values under
the capitalized keys `Text` and `Reference` of the stored edge. -/
theorem testimony_text_lines_read_capitalized_keys (peopleData : List Person)
    (store : List Edge) (edgeId : String) (edgesData : List VisEdge) (v : VisEdge) (orig : Edge)
    (hfind : findById edgeId edgesData = some (some v))
    (horig : store[v.originalData]? = some orig) :
    ∃ heading lines,
      showTestimonyEdgeInfo peopleData store edgeId edgesData
        = some (Display.record heading lines)
      ∧ lines.lookup "供詞原文：" = some (orDash orig.Text)
      ∧ lines.lookup "詳細內容：" = some (orDash orig.Reference) := by
  refine ⟨"證供關係資訊",
    [ ("關係類型：", orDash (some orig.label)),
      ("作供者：", accuserName peopleData orig),
      ("被供者：", accusedNames peopleData orig),
      ("發生日期：", orDash orig.Date),
      ("說明：", orDash orig.Conclusion),
      ("供詞原文：", orDash orig.Text),
      ("詳細內容：", orDash orig.Reference) ], ?_, rfl, rfl⟩
  unfold showTestimonyEdgeInfo
  rw [hfind]
  simp only [Option.map_some', Option.some_bind, horig]

/-- C34 fails on the code: a record that carries its text 供詞 and reference 出處
under the lowercase keys resolves to an edge with these values under `text` and
`reference` and nothing under `Text` and `Reference`, and a click on the edge
shows `-` for both; the same record with capitalized keys shows both values. -/
theorem C34_lowercase_text_and_reference_are_not_shown :
    (typedEdge (convertEdge exampleNames lowercaseRecord)).map
        (fun e => (e.text, e.reference, e.Text, e.Reference))
      = some (some "供詞", some "出處", none, none)
    ∧ (shownForRecord lowercaseRecord).map
        (fun d => (d.lines.lookup "供詞原文：", d.lines.lookup "詳細內容："))
      = some (some "-", some "-")
    ∧ (typedEdge (convertEdge exampleNames capitalizedRecord)).map
        (fun e => (e.text, e.reference, e.Text, e.Reference))
      = some (some "供詞", some "出處", some "供詞", some "出處")
    ∧ (shownForRecord capitalizedRecord).map
        (fun d => (d.lines.lookup "供詞原文：", d.lines.lookup "詳細內容："))
      = some (some "供詞", some "出處") := by
  decide

/-- The visible edges built from a filter of a store are, up to order and
curvature, the stored edges that pass the filter. -/
theorem visible_filter_perm (st : List Edge) (q : Edge → Bool) :
    ((edgesWithIds (preprocessEdges ((refs st).filter (fun o => q o.obj)))).map
        (fun v => clearSmooth v.edge)).Perm ((st.filter q).map clearSmooth) := by
  have h1 : (edgesWithIds (preprocessEdges ((refs st).filter (fun o => q o.obj)))).map
        (fun v => clearSmooth v.edge)
      = (preprocessEdges ((refs st).filter (fun o => q o.obj))).map
          (fun o => clearSmooth o.obj) := by
    have := congrArg (List.map clearSmooth) (edgesWithIds_map_edge
      (preprocessEdges ((refs st).filter (fun o => q o.obj))))
    simpa [List.map_map, Function.comp_def] using this
  rw [h1]
  have h2 := preprocessEdges_perm_map (fun o => clearSmooth o.obj) (fun _ => rfl)
    ((refs st).filter (fun o => q o.obj))
  refine h2.trans (List.Perm.of_eq ?_)
  have h4 := congrArg (List.map clearSmooth) (refs_filter_map_obj st q)
  rw [List.map_map] at h4
  exact h4

theorem withDegrees_map_person (dm : DegreeMap) (nodes : List VisNode) :
    (withDegrees dm nodes).map VisNode.person = nodes.map VisNode.person := by
  unfold withDegrees
  rw [List.map_map]
  rfl

theorem mem_allowedToIds (peopleData : List Person) (X : String) (e : Edge) :
    e.to_ ∈ ((peopleData.filter (fun person => decide (person.identity = some X))).map
      personNode).map (fun node => node.person.id) ↔ TargetsIdentity peopleData X e := by
  unfold TargetsIdentity
  simp only [List.map_map, List.mem_map, List.mem_filter, decide_eq_true_eq, Function.comp_apply]
  constructor
  · rintro ⟨p, ⟨hp, hX⟩, hid⟩
    exact ⟨p, hp, hid, hX⟩
  · rintro ⟨p, hp, hid, hX⟩
    exact ⟨p, ⟨hp, hX⟩, hid⟩

/-- C35: for every people store, accusation edge set and identity `X`,
`filterAccusationGraphByIdentity` shows, up to order and curvature and each
once, exactly the stored accusation edges whose `to` endpoint is a person of the
store with identity `X`, and shows exactly the persons of the store that are the
`from` or the `to` endpoint of one of those edges, in store order; the store is
unchanged up to curvature.  An identity button other than the one for all
identities shows this projection in the accusation graph. -/
theorem C35_identity_filter_shows_edges_into_identity (peopleData : List Person)
    (store : List Edge) (X : String) (s : State) :
    (((filterAccusationGraphByIdentity peopleData store X).2.edges.map
        (fun v => clearSmooth v.edge)).Perm
      ((store.filter (fun e => decide (TargetsIdentity peopleData X e))).map clearSmooth))
    ∧ ((filterAccusationGraphByIdentity peopleData store X).2.edges.map
        VisEdge.originalData).Nodup
    ∧ (filterAccusationGraphByIdentity peopleData store X).2.nodes.map VisNode.person
      = peopleData.filter (fun p => decide (EndpointOfTargeting peopleData store X p))
    ∧ (filterAccusationGraphByIdentity peopleData store X).1.map clearSmooth
      = store.map clearSmooth
    ∧ (X ≠ allLabel →
        (step s (Action.pressIdentityFilter X)).accusationGraph
          = (filterAccusationGraphByIdentity s.peopleData s.fullAccusationData.edges X).2) := by
  have hfilter : (refs store).filter (fun edge => decide (edge.obj.to_ ∈
        ((peopleData.filter (fun person => decide (person.identity = some X))).map
          personNode).map (fun node => node.person.id)))
      = (refs store).filter (fun o => decide (TargetsIdentity peopleData X o.obj)) := by
    apply List.filter_congr
    intro o _
    rw [decide_eq_decide]
    exact mem_allowedToIds peopleData X o.obj
  refine ⟨?_, ?_, ?_, ?_, ?_⟩
  · show ((edgesWithIds (preprocessEdges _)).map (fun v => clearSmooth v.edge)).Perm _
    rw [hfilter]
    exact visible_filter_perm store (fun e => decide (TargetsIdentity peopleData X e))
  · show ((edgesWithIds (preprocessEdges _)).map VisEdge.originalData).Nodup
    rw [edgesWithIds_map_originalData]
    exact preprocessEdges_map_addr_nodup store _ (List.filter_sublist _)
  · show (withDegrees _ ((peopleData.filter _).map personNode)).map VisNode.person = _
    rw [withDegrees_map_person, List.map_map]
    have hid : (VisNode.person ∘ personNode) = id := rfl
    rw [hid, List.map_id, hfilter]
    apply List.filter_congr
    intro p _
    rw [decide_eq_decide]
    unfold EndpointOfTargeting
    simp only [List.mem_flatMap, List.mem_filter, decide_eq_true_eq, List.mem_cons,
      List.mem_singleton, List.not_mem_nil, or_false]
    constructor
    · rintro ⟨o, ⟨ho, ht⟩, hp⟩
      refine ⟨o.obj, mem_of_mem_refs store o ho, ht, ?_⟩
      rcases hp with hp | hp
      · exact Or.inl hp.symm
      · exact Or.inr hp.symm
    · rintro ⟨e, he, ht, hp⟩
      obtain ⟨i, hi⟩ := List.mem_iff_getElem?.1 he
      refine ⟨{ addr := i, obj := e }, ⟨(mem_refs store _).2 hi, ht⟩, ?_⟩
      rcases hp with hp | hp
      · exact Or.inl hp.symm
      · exact Or.inr hp.symm
  · apply commit_map_clearSmooth
    apply preprocessEdges_agrees_with_store
    intro o ho
    exact (List.mem_filter.1 ho).1
  · intro hX
    show (identityFilterListener X s).accusationGraph = _
    unfold identityFilterListener
    rw [if_neg hX]

theorem C35_identity_filter_shows_edges_into_identity_witness :
    (filterAccusationGraphByIdentity identityPeople identityEdges "功臣").2.edges.map
        (fun v => (v.edge.from_, v.edge.to_)) = [("2", "1"), ("4", "3")]
    ∧ (filterAccusationGraphByIdentity identityPeople identityEdges "功臣").2.nodes.map
        (fun node => (node.person.id, node.person.identity))
      = [("1", some "功臣"), ("2", some "文官"), ("3", some "功臣"), ("4", some "武官")]
    ∧ (step exampleState (Action.pressIdentityFilter "功臣")).accusationGraph
      = (filterAccusationGraphByIdentity exampleState.peopleData
          exampleState.fullAccusationData.edges "功臣").2 :=
  ⟨by decide, by decide,
   (C35_identity_filter_shows_edges_into_identity identityPeople identityEdges "功臣"
      exampleState).2.2.2.2 (by decide)⟩

theorem runListeners_no_throw (Inv : Page → Prop) (listener : Page → Outcome)
    (h : ∀ q, Inv q → (listener q).threw = false ∧ Inv (listener q).page) :
    ∀ (n : Nat) (q : Page), Inv q →
      (runListeners listener n q).threw = false ∧ Inv (runListeners listener n q).page := by
  intro n
  induction n with
  | zero => intro q hq; exact ⟨rfl, hq⟩
  | succ n ih =>
    intro q hq
    obtain ⟨h1, h2⟩ := h q hq
    obtain ⟨h3, h4⟩ := ih (listener q).page h2
    refine ⟨?_, h4⟩
    show ((listener q).threw || (runListeners listener n (listener q).page).threw) = false
    rw [h1, h3]
    rfl

theorem pageRoleScopedEdges_isSome (data : GraphData) (mode : Option Role)
    (selectedPersonId : Option String) (L : String) (h : mode.isSome = true) :
    (pageRoleScopedEdges data mode selectedPersonId L).isSome = true := by
  unfold pageRoleScopedEdges
  cases mode with
  | none => exact absurd h (by simp)
  | some role => cases role <;> (split <;> rfl)

theorem pageUpdateTestimonyGraph_no_throw (p : Page) (data : GraphData) (F : List EdgeRef)
    (hg : p.testimonyGraph.isSome = true) :
    (pageUpdateTestimonyGraph p data F).threw = false
    ∧ TestimonyLoaded (pageUpdateTestimonyGraph p data F).page := by
  unfold pageUpdateTestimonyGraph
  cases hgr : p.testimonyGraph with
  | none => rw [hgr] at hg; exact absurd hg (by simp)
  | some g => exact ⟨rfl, rfl, rfl⟩

theorem pageLabelFilterListener_no_throw (L : String) (p : Page) (h : TestimonyLoaded p) :
    (pageLabelFilterListener L p).threw = false
    ∧ TestimonyLoaded (pageLabelFilterListener L p).page := by
  obtain ⟨hd, hg⟩ := h
  cases hdata : p.fullTestimonyData with
  | none => rw [hdata] at hd; exact absurd hd (by simp)
  | some data =>
    unfold pageLabelFilterListener
    by_cases hc : (truthy p.selectedPersonId && p.testimonyRelationMode.isSome) = true
    · rw [if_pos hc]
      have hmode : p.testimonyRelationMode.isSome = true := by
        simp only [Bool.and_eq_true] at hc
        exact hc.2
      have hsome := pageRoleScopedEdges_isSome data p.testimonyRelationMode p.selectedPersonId L
        hmode
      unfold pageFilterTestimonyEdgesByLabelForNode
      rw [hdata]
      cases hF : pageRoleScopedEdges data p.testimonyRelationMode p.selectedPersonId L with
      | none => rw [hF] at hsome; exact absurd hsome (by simp)
      | some F =>
        simp only [hF]
        exact pageUpdateTestimonyGraph_no_throw p data F hg
    · rw [if_neg hc]
      unfold pageFilterTestimonyEdgesByLabelForAll
      rw [hdata]
      exact pageUpdateTestimonyGraph_no_throw p data _ hg

/-- C38: on every page whose testimony document has arrived, the listener of a
label button calls the role-scoped filter only when a person is selected and a
role mode is set, and then `filterTestimonyEdgesByLabelForNode` assigns its
filtered edge list; so none of the six listeners of a label press throws, and
`updateTestimonyGraph` always receives an edge list. -/
theorem C38_label_filter_never_passes_an_undefined_list (p : Page) (L : String) (data : GraphData)
    (hd : p.fullTestimonyData = some data) (hg : p.testimonyGraph.isSome = true) :
    (pageStep p (Action.pressLabelFilter L)).threw = false
    ∧ ((truthy p.selectedPersonId && p.testimonyRelationMode.isSome) = true →
        ∃ filteredEdges,
          pageRoleScopedEdges data p.testimonyRelationMode p.selectedPersonId L
            = some filteredEdges
          ∧ pageLabelFilterListener L p = pageUpdateTestimonyGraph p data filteredEdges)
    ∧ ((truthy p.selectedPersonId && p.testimonyRelationMode.isSome) = false →
        pageLabelFilterListener L p = pageFilterTestimonyEdgesByLabelForAll p L) := by
  have hloaded : TestimonyLoaded p := ⟨by rw [hd]; rfl, hg⟩
  refine ⟨(runListeners_no_throw TestimonyLoaded _ (pageLabelFilterListener_no_throw L) 6 p
    hloaded).1, ?_, ?_⟩
  · intro hc
    have hmode : p.testimonyRelationMode.isSome = true := by
      simp only [Bool.and_eq_true] at hc
      exact hc.2
    have hsome := pageRoleScopedEdges_isSome data p.testimonyRelationMode p.selectedPersonId L
      hmode
    cases hF : pageRoleScopedEdges data p.testimonyRelationMode p.selectedPersonId L with
    | none => rw [hF] at hsome; exact absurd hsome (by simp)
    | some F =>
      refine ⟨F, rfl, ?_⟩
      unfold pageLabelFilterListener pageFilterTestimonyEdgesByLabelForNode
      rw [if_pos hc, hd]
      simp only [hF]
  · intro hc
    unfold pageLabelFilterListener
    rw [hc]
    simp

theorem C38_label_filter_never_passes_an_undefined_list_witness :
    (pageStep (loadedPage roleChosenState) (Action.pressLabelFilter "B")).threw = false :=
  (C38_label_filter_never_passes_an_undefined_list (loadedPage roleChosenState) "B"
    roleChosenState.fullTestimonyData rfl rfl).1

theorem getElem?_processGroup (g : List EdgeRef) (i : Nat) (o : EdgeRef) (hn : 2 ≤ g.length)
    (hi : (processGroup g)[i]? = some o) :
    i < g.length ∧ o.obj.smooth = some (curve i) := by
  unfold processGroup at hi
  rw [if_neg (by omega), List.getElem?_mapIdx] at hi
  cases hg : g[i]? with
  | none => rw [hg] at hi; exact absurd hi (by simp)
  | some o0 =>
    rw [hg] at hi
    simp only [Option.map_some', Option.some.injEq] at hi
    have hlt : i < g.length := by
      by_contra hcon
      rw [List.getElem?_eq_none (Nat.le_of_not_lt hcon)] at hg
      exact absurd hg (by simp)
    refine ⟨hlt, ?_⟩
    rw [← hi]
    rfl

/-- C39 (amended): in every group of two or more edges that `preprocessEdges`
forms (the edges of one key), the edge at group index `i` gets as bend
magnitude the double `0.1 + i * 0.1`, which is `(i + 1) / 10` up to a relative
error of `2^-50` (`2^56` units are the value `1`).  When the group has at most
10 edges, every magnitude lies in `(0, 1]`; at a group index `i >= 10` the
magnitude exceeds `1`. -/
theorem C39_bend_magnitude_range (l : List EdgeRef) (k : String) (i : Nat) (o : EdgeRef)
    (hn : 2 ≤ (groupOf l k).length)
    (hi : ((preprocessEdges l).filter (fun o => edgeKey o.obj = k))[i]? = some o) :
    ∃ c, o.obj.smooth = some c
      ∧ c.roundness = roundDouble (tenthUnits + roundDouble (i * tenthUnits))
      ∧ (i + 1) * 2 ^ 56 ≤ 10 * c.roundness + (i + 1) * 2 ^ 6
      ∧ 10 * c.roundness ≤ (i + 1) * 2 ^ 56 + (i + 1) * 2 ^ 6
      ∧ ((groupOf l k).length ≤ 10 → 0 < c.roundness ∧ c.roundness ≤ 2 ^ 56)
      ∧ (10 ≤ i → 2 ^ 56 < c.roundness) := by
  rw [filter_preprocessEdges] at hi
  obtain ⟨hlt, hs⟩ := getElem?_processGroup _ i o hn hi
  refine ⟨curve i, hs, rfl, (roundness_tenths i).1, (roundness_tenths i).2, ?_, ?_⟩
  · intro hlen
    exact (roundness_range i).1 (by omega)
  · intro h10
    exact (roundness_range i).2 h10

/-- Witness of C39: the edge at index 10 of twelve parallel edges, whose
magnitude is `1.1` (79263353441720736 units of `2^-56`). -/
theorem C39_bend_magnitude_range_witness :
    ∃ c, ({ addr := 10, obj := { from_ := "1", to_ := "2", label := "A",
                                 smooth := some (curve 10) } } : EdgeRef).obj.smooth = some c
      ∧ c.roundness = roundDouble (tenthUnits + roundDouble (10 * tenthUnits))
      ∧ (10 + 1) * 2 ^ 56 ≤ 10 * c.roundness + (10 + 1) * 2 ^ 6
      ∧ 10 * c.roundness ≤ (10 + 1) * 2 ^ 56 + (10 + 1) * 2 ^ 6
      ∧ ((groupOf twelveParallel "1_2").length ≤ 10 →
          0 < c.roundness ∧ c.roundness ≤ 2 ^ 56)
      ∧ (10 ≤ 10 → 2 ^ 56 < c.roundness) :=
  C39_bend_magnitude_range twelveParallel "1_2" 10
    { addr := 10, obj := { from_ := "1", to_ := "2", label := "A", smooth := some (curve 10) } }
    (by decide) (by decide)

/-- C39 fails as stated: of twelve parallel edges the edge at group index 11
gets the magnitude `1.2000000000000002` (86469112845513536 units of `2^-56`),
which is not `12/10` and not the double nearest to `12/10`
(86469112845513520 units). -/
theorem C39_counterexample_magnitude_is_rounded :
    (((preprocessEdges twelveParallel).filter (fun o => edgeKey o.obj = "1_2"))[11]?).map
        (fun o => o.obj.smooth.map Smooth.roundness)
      = some (some 86469112845513536)
    ∧ 10 * 86469112845513536 ≠ 12 * 2 ^ 56
    ∧ roundDouble 86469112845513520 = 86469112845513520
    ∧ 12 * 2 ^ 56 - 10 * 86469112845513520 < 10 * 86469112845513536 - 12 * 2 ^ 56 := by
  refine ⟨by decide, by decide, by decide, by decide⟩

/-- On two arrays that hold the same references with the same fields up to
curvature, and the same object wherever an edge is alone on its key,
`preprocessEdges` returns the same array. -/
theorem preprocessEdges_eq_of_erase_eq (F F' : List EdgeRef)
    (herase : F.map eraseSmooth = F'.map eraseSmooth)
    (hsingle : ∀ o ∈ F, ∀ o' ∈ F', eraseSmooth o = eraseSmooth o' →
      (groupOf F (edgeKey o.obj)).length = 1 → o = o') :
    preprocessEdges F = preprocessEdges F' := by
  have hkeys : keysOf F = keysOf F' := by
    rw [keysOf_eq_foldl_map, keysOf_eq_foldl_map]
    have e1 : ∀ l : List EdgeRef, l.map (fun o => edgeKey o.obj)
        = (l.map eraseSmooth).map (fun o => edgeKey o.obj) := by
      intro l
      rw [List.map_map]
      rfl
    rw [e1 F, e1 F', herase]
  rw [preprocessEdges_eq, preprocessEdges_eq, hkeys]
  apply List.flatMap_congr
  intro k _
  have hg : (groupOf F k).map eraseSmooth = (groupOf F' k).map eraseSmooth := by
    rw [groupOf_map_eraseSmooth, groupOf_map_eraseSmooth, herase]
  have hlen : (groupOf F k).length = (groupOf F' k).length := by
    have := congrArg List.length hg
    simpa using this
  by_cases h1 : (groupOf F k).length = 1
  · have h1' : (groupOf F' k).length = 1 := by omega
    obtain ⟨o, ho⟩ := List.length_eq_one.1 h1
    obtain ⟨o', ho'⟩ := List.length_eq_one.1 h1'
    rw [ho, ho'] at hg
    simp only [List.map_cons, List.map_nil, List.cons.injEq, and_true] at hg
    have hom : o ∈ groupOf F k := by rw [ho]; exact List.mem_singleton_self o
    have hom' : o' ∈ groupOf F' k := by rw [ho']; exact List.mem_singleton_self o'
    have hko : edgeKey o.obj = k := edgeKey_of_mem_groupOf _ k o hom
    have heq : o = o' :=
      hsingle o (List.mem_filter.1 hom).1 o' (List.mem_filter.1 hom').1 hg (by rw [hko]; exact h1)
    rw [ho, ho', heq]
  · have h1' : ¬ (groupOf F' k).length = 1 := by omega
    unfold processGroup
    rw [if_neg h1, if_neg h1', ← mapIdx_setSmooth_map_eraseSmooth,
      ← mapIdx_setSmooth_map_eraseSmooth (groupOf F' k), hg]

theorem commit_commit (st : List Edge) (X : List EdgeRef) :
    commit (commit st X) X = commit st X := by
  apply List.ext_getElem?
  intro i
  rw [getElem?_commit, getElem?_commit]
  cases st[i]? with
  | none => rfl
  | some e =>
    simp only [Option.map_some']
    cases X.find? (fun o => o.addr = i) <;> rfl

theorem touchedIds_clearSmooth (e : Edge) : touchedIds (clearSmooth e) = touchedIds e := rfl

theorem filter_refs_map_eraseSmooth (st : List Edge) (q : Edge → Bool)
    (hq : ∀ e, q (clearSmooth e) = q e) :
    ((refs st).filter (fun o => q o.obj)).map eraseSmooth
      = (refs (st.map clearSmooth)).filter (fun o => q o.obj) := by
  rw [← refs_map_eraseSmooth, List.filter_map]
  congr 1
  apply List.filter_congr
  intro o _
  exact (hq o.obj).symm

/-- A second run of `updateTestimonyGraph` with the same filter changes nothing:
the store, the visible nodes and the visible edges are those of the first run. -/
theorem updateTestimonyGraph_idem (peopleData : List Person) (st : List Edge) (q : Edge → Bool)
    (hq : ∀ e, q (clearSmooth e) = q e) :
    updateTestimonyGraph peopleData
        (updateTestimonyGraph peopleData st ((refs st).filter (fun o => q o.obj))).1
        ((refs (updateTestimonyGraph peopleData st ((refs st).filter (fun o => q o.obj))).1).filter
          (fun o => q o.obj))
      = updateTestimonyGraph peopleData st ((refs st).filter (fun o => q o.obj)) := by
  have hst1 : (updateTestimonyGraph peopleData st ((refs st).filter (fun o => q o.obj))).1
      = commit st (preprocessEdges ((refs st).filter (fun o => q o.obj))) := rfl
  rw [hst1]
  have hsub : ((refs st).filter (fun o => q o.obj)).Sublist (refs st) := List.filter_sublist _
  have hagree := preprocessEdges_agrees_with_store st _ (fun o ho => hsub.subset ho)
  have hclear : (commit st (preprocessEdges ((refs st).filter (fun o => q o.obj)))).map clearSmooth
      = st.map clearSmooth := commit_map_clearSmooth st _ hagree
  have herase : ((refs st).filter (fun o => q o.obj)).map eraseSmooth
      = ((refs (commit st (preprocessEdges ((refs st).filter (fun o => q o.obj))))).filter
          (fun o => q o.obj)).map eraseSmooth := by
    rw [filter_refs_map_eraseSmooth st q hq, filter_refs_map_eraseSmooth _ q hq, hclear]
  have hnd := preprocessEdges_map_addr_nodup st _ hsub
  have hpre : preprocessEdges ((refs (commit st (preprocessEdges
        ((refs st).filter (fun o => q o.obj))))).filter (fun o => q o.obj))
      = preprocessEdges ((refs st).filter (fun o => q o.obj)) := by
    symm
    apply preprocessEdges_eq_of_erase_eq _ _ herase
    intro o ho o' ho' he hlen
    -- the edge is alone on its key, so `preprocessEdges` returns it unchanged
    have hin : o ∈ (preprocessEdges ((refs st).filter (fun o => q o.obj))).filter
        (fun x => decide (edgeKey x.obj = edgeKey o.obj)) := by
      rw [filter_preprocessEdges, processGroup_of_length_le_one _ (Nat.le_of_eq hlen)]
      exact List.mem_filter.2 ⟨ho, by simp⟩
    have hoP : o ∈ preprocessEdges ((refs st).filter (fun o => q o.obj)) :=
      (List.mem_filter.1 hin).1
    have hst := (mem_refs st o).1 (hsub.subset ho)
    have h1 := getElem?_commit_of_mem st _ o o.obj hnd hoP hst
    have h2 := (mem_refs _ o').1 (List.mem_filter.1 ho').1
    have haddr : o.addr = o'.addr := by
      show (eraseSmooth o).addr = (eraseSmooth o').addr
      rw [he]
    rw [← haddr, h1] at h2
    injection h2 with h2
    cases o
    cases o'
    simp only [EdgeRef.mk.injEq]
    exact ⟨haddr, h2⟩
  have hids : ((refs (commit st (preprocessEdges ((refs st).filter (fun o => q o.obj))))).filter
        (fun o => q o.obj)).flatMap (fun edge => touchedIds edge.obj)
      = ((refs st).filter (fun o => q o.obj)).flatMap (fun edge => touchedIds edge.obj) := by
    have e1 : ∀ l : List EdgeRef, l.flatMap (fun edge => touchedIds edge.obj)
        = (l.map eraseSmooth).flatMap (fun edge => touchedIds edge.obj) := by
      intro l
      rw [List.flatMap_map]
      rfl
    rw [e1, ← herase, ← e1]
  unfold updateTestimonyGraph
  simp only [hpre, hids, commit_commit]

theorem showTestimony_idem (t : State) (q : Edge → Bool) (hq : ∀ e, q (clearSmooth e) = q e) :
    showTestimony (showTestimony t ((refs t.fullTestimonyData.edges).filter (fun o => q o.obj)))
        ((refs (showTestimony t ((refs t.fullTestimonyData.edges).filter
          (fun o => q o.obj))).fullTestimonyData.edges).filter (fun o => q o.obj))
      = showTestimony t ((refs t.fullTestimonyData.edges).filter (fun o => q o.obj)) := by
  have h := updateTestimonyGraph_idem t.peopleData t.fullTestimonyData.edges q hq
  unfold showTestimony
  simp only [h]

theorem listenerFilter_clearSmooth (sel : Option String) (mode : Option Role) (L : String)
    (e : Edge) : listenerFilter sel mode L (clearSmooth e) = listenerFilter sel mode L e := rfl

/-- One run of the listener of a label button, in every state: the stored
testimony edges that pass `listenerFilter` are given to `updateTestimonyGraph`. -/
theorem labelFilterListener_eq (L : String) (t : State) :
    labelFilterListener L t = showTestimony t ((refs t.fullTestimonyData.edges).filter
      (fun o => listenerFilter t.selectedPersonId t.testimonyRelationMode L o.obj)) := by
  unfold labelFilterListener
  by_cases hc : (truthy t.selectedPersonId && t.testimonyRelationMode.isSome) = true
  · rw [if_pos hc]
    unfold filterTestimonyEdgesByLabelForNode roleScopedEdges
    cases hm : t.testimonyRelationMode with
    | none => rw [hm] at hc; simp at hc
    | some role =>
      rw [hm] at hc
      have htr : truthy t.selectedPersonId = true := by
        simp only [Bool.and_eq_true] at hc
        exact hc.1
      by_cases hL : L = allLabel
      · cases role <;>
        · simp only [hL, if_true, Option.map_some', Option.getD_some]
          congr 1
          apply List.filter_congr
          intro o _
          simp [listenerFilter, htr]
      · cases role <;>
        · simp only [hL, if_false, Option.map_some', Option.getD_some]
          congr 1
          apply List.filter_congr
          intro o _
          simp [listenerFilter, htr, hL]
  · have hc0 : (truthy t.selectedPersonId && t.testimonyRelationMode.isSome) = false := by
      simpa using hc
    rw [if_neg hc]
    unfold filterTestimonyEdgesByLabelForAll
    by_cases hL : L = allLabel
    · simp only [hL, if_true]
      congr 1
      symm
      rw [List.filter_eq_self]
      intro o _
      simp [listenerFilter, hc0]
    · simp only [hL, if_false]
      congr 1
      apply List.filter_congr
      intro o _
      simp [listenerFilter, hc0, hL]

theorem labelFilterListener_idem (L : String) (s : State) :
    labelFilterListener L (labelFilterListener L s) = labelFilterListener L s := by
  have hsel := (labelFilterListener_selection L s).1
  have hmode := (labelFilterListener_selection L s).2
  rw [labelFilterListener_eq L (labelFilterListener L s), hsel, hmode]
  rw [labelFilterListener_eq L s]
  exact showTestimony_idem s (listenerFilter s.selectedPersonId s.testimonyRelationMode L)
    (listenerFilter_clearSmooth _ _ L)

theorem roleListener_idem (role : Role) (s : State) :
    roleListener role (roleListener role s) = roleListener role s := by
  by_cases h : truthy s.selectedPersonId = true
  · rw [roleListener_of_selected role s h]
    exact roleListener_of_selected role _ h
  · have h0 : truthy s.selectedPersonId = false := by simpa using h
    rw [roleListener_of_not_selected role s h0, roleListener_of_not_selected role s h0]

theorem restoreTestimonyGraph_idem (peopleData : List Person) (data : GraphData) :
    restoreTestimonyGraph peopleData (restoreTestimonyGraph peopleData data).1
      = restoreTestimonyGraph peopleData data := by
  have hsim : StoreSim data.edges (commit data.edges (preprocessEdges (refs data.edges))) :=
    storeSim_commit data.edges (refs data.edges) (List.Sublist.refl _)
  have hpre := preprocessEdges_refs_of_storeSim _ _ hsim
  have hids : (commit data.edges (preprocessEdges (refs data.edges))).flatMap roleIds
      = data.edges.flatMap roleIds := by
    have e1 : ∀ st : List Edge, st.flatMap roleIds = (st.map clearSmooth).flatMap roleIds := by
      intro st
      rw [List.flatMap_map]
      rfl
    rw [e1, ← hsim.1, ← e1]
  unfold restoreTestimonyGraph
  simp only [← hpre, hids, commit_commit]

theorem showAllListener_idem (s : State) :
    showAllListener (showAllListener s) = showAllListener s := by
  have h := restoreTestimonyGraph_idem s.peopleData s.fullTestimonyData
  unfold showAllListener
  simp only [h]

/-- C36: each button listener is idempotent, so its repeated registrations are
harmless: running the listener of a label button, of a role button or of
"show all" `k >= 1` times in a row from any state gives the same state (the
same selection state, the same stores and the same projections) as running it
once; hence a press, which runs all registered copies, has the effect of one
run. -/
theorem C36_button_listeners_are_idempotent (s : State) (L : String) (role : Role) (k : Nat)
    (hk : 1 ≤ k) :
    Nat.iterate (labelFilterListener L) k s = labelFilterListener L s
    ∧ Nat.iterate (roleListener role) k s = roleListener role s
    ∧ Nat.iterate showAllListener k s = showAllListener s
    ∧ step s (Action.pressLabelFilter L) = labelFilterListener L s
    ∧ step s (Action.pressRole role) = roleListener role s
    ∧ step s Action.pressShowAll = showAllListener s := by
  obtain ⟨n, rfl⟩ : ∃ n, k = n + 1 := ⟨k - 1, by omega⟩
  refine ⟨iterate_of_absorbed _ s _ rfl (labelFilterListener_idem L s) n,
    iterate_of_absorbed _ s _ rfl (roleListener_idem role s) n,
    iterate_of_absorbed _ s _ rfl (showAllListener_idem s) n,
    iterate_of_absorbed _ s _ rfl (labelFilterListener_idem L s) 5,
    iterate_of_absorbed _ s _ rfl (roleListener_idem role s) 1,
    iterate_of_absorbed _ s _ rfl (showAllListener_idem s) 1⟩

theorem C36_button_listeners_are_idempotent_witness :
    Nat.iterate (labelFilterListener "A") 6 roleChosenState
      = labelFilterListener "A" roleChosenState
    ∧ Nat.iterate showAllListener 2 roleChosenState = showAllListener roleChosenState :=
  have h := C36_button_listeners_are_idempotent roleChosenState "A" Role.accuser 6 (by decide)
  ⟨h.1, (C36_button_listeners_are_idempotent roleChosenState "A" Role.accuser 2
    (by decide)).2.2.1⟩

theorem testimonyRecord_clearSmooth (peopleData : List Person) (e : Edge) :
    testimonyRecord peopleData (clearSmooth e) = testimonyRecord peopleData e := rfl

theorem accusationRecord_clearSmooth (e : Edge) :
    accusationRecord (clearSmooth e) = accusationRecord e := rfl

theorem visibleData_of_clear_eq (st st' : List Edge) (P : Projection) (h : VisibleData st P)
    (hc : st.map clearSmooth = st'.map clearSmooth) : VisibleData st' P := by
  intro v hv
  rw [← hc]
  exact h v hv

theorem visibleData_empty (st : List Edge) (ns : List VisNode) :
    VisibleData st { nodes := ns, edges := [] } :=
  fun v hv => absurd hv (List.not_mem_nil v)

theorem getElem?_map_clear_of_agree (st : List Edge) (o : EdgeRef)
    (h : ∃ e, st[o.addr]? = some e ∧ clearSmooth o.obj = clearSmooth e) :
    (st.map clearSmooth)[o.addr]? = some (clearSmooth o.obj) := by
  obtain ⟨e, he, hc⟩ := h
  rw [List.getElem?_map, he, hc]
  rfl

theorem edgesWithEdgeIds_map_pair (pl : List EdgeRef) :
    (edgesWithEdgeIds pl).map (fun v => (v.edge, v.originalData))
      = pl.map (fun o => (o.obj, o.addr)) := by
  simp [edgesWithEdgeIds, List.map_map, Function.comp_def]

theorem visibleData_edgesWithIds (st : List Edge) (pl : List EdgeRef) (ns : List VisNode)
    (hagree : ∀ o ∈ pl, ∃ e, st[o.addr]? = some e ∧ clearSmooth o.obj = clearSmooth e) :
    VisibleData st { nodes := ns, edges := edgesWithIds pl } := by
  intro v hv
  have hm : (v.edge, v.originalData) ∈ pl.map (fun o => (o.obj, o.addr)) := by
    rw [← edgesWithIds_map_pair]
    exact List.mem_map_of_mem (fun v : VisEdge => (v.edge, v.originalData)) hv
  obtain ⟨o, ho, hov⟩ := List.mem_map.1 hm
  have hedge : o.obj = v.edge := congrArg Prod.fst hov
  have haddr : o.addr = v.originalData := congrArg Prod.snd hov
  rw [← hedge, ← haddr]
  exact getElem?_map_clear_of_agree st o (hagree o ho)

theorem visibleData_edgesWithEdgeIds (st : List Edge) (pl : List EdgeRef) (ns : List VisNode)
    (hagree : ∀ o ∈ pl, ∃ e, st[o.addr]? = some e ∧ clearSmooth o.obj = clearSmooth e) :
    VisibleData st { nodes := ns, edges := edgesWithEdgeIds pl } := by
  intro v hv
  have hm : (v.edge, v.originalData) ∈ pl.map (fun o => (o.obj, o.addr)) := by
    rw [← edgesWithEdgeIds_map_pair]
    exact List.mem_map_of_mem (fun v : VisEdge => (v.edge, v.originalData)) hv
  obtain ⟨o, ho, hov⟩ := List.mem_map.1 hm
  have hedge : o.obj = v.edge := congrArg Prod.fst hov
  have haddr : o.addr = v.originalData := congrArg Prod.snd hov
  rw [← hedge, ← haddr]
  exact getElem?_map_clear_of_agree st o (hagree o ho)

theorem visibleData_after_commit (st : List Edge) (F : List EdgeRef) (ns : List VisNode)
    (hF : F.Sublist (refs st)) :
    VisibleData (commit st (preprocessEdges F))
      { nodes := ns, edges := edgesWithIds (preprocessEdges F) } := by
  have hagree := preprocessEdges_agrees_with_store st F (fun o ho => hF.subset ho)
  have hc : st.map clearSmooth = (commit st (preprocessEdges F)).map clearSmooth :=
    (commit_map_clearSmooth st _ hagree).symm
  exact visibleData_of_clear_eq _ _ _ (visibleData_edgesWithIds st _ ns hagree) hc

theorem visibleDataInv_showTestimony (t : State) (F : List EdgeRef) (h : VisibleDataInv t)
    (hF : F.Sublist (refs t.fullTestimonyData.edges)) : VisibleDataInv (showTestimony t F) :=
  ⟨h.1, visibleData_after_commit t.fullTestimonyData.edges F
    (updateTestimonyGraph t.peopleData t.fullTestimonyData.edges F).2.nodes hF⟩

theorem visibleDataInv_labelFilterListener (L : String) (t : State) (h : VisibleDataInv t) :
    VisibleDataInv (labelFilterListener L t) := by
  rw [labelFilterListener_eq]
  exact visibleDataInv_showTestimony t _ h (List.filter_sublist _)

theorem visibleDataInv_roleListener (role : Role) (t : State) (h : VisibleDataInv t) :
    VisibleDataInv (roleListener role t) := by
  unfold roleListener
  split
  · exact h
  · exact ⟨h.1, visibleData_empty _ _⟩

theorem visibleDataInv_showAllListener (t : State) (h : VisibleDataInv t) :
    VisibleDataInv (showAllListener t) :=
  ⟨h.1, visibleData_after_commit t.fullTestimonyData.edges (refs t.fullTestimonyData.edges)
    (restoreTestimonyGraph t.peopleData t.fullTestimonyData).2.nodes (List.Sublist.refl _)⟩

theorem visibleDataInv_identityFilterListener (identity : String) (t : State)
    (h : VisibleDataInv t) : VisibleDataInv (identityFilterListener identity t) := by
  unfold identityFilterListener
  split
  · exact ⟨visibleData_after_commit t.fullAccusationData.edges (refs t.fullAccusationData.edges)
      (restoreAccusationGraph t.peopleData t.fullAccusationData.edges).2.nodes
      (List.Sublist.refl _), h.2⟩
  · have h5 := visibleData_after_commit t.fullAccusationData.edges
      ((refs t.fullAccusationData.edges).filter (fun edge => decide (edge.obj.to_ ∈
        ((t.peopleData.filter (fun person => decide (person.identity = some identity))).map
          personNode).map (fun node => node.person.id))))
      (filterAccusationGraphByIdentity t.peopleData t.fullAccusationData.edges identity).2.nodes
      (List.filter_sublist _)
    exact ⟨h5, h.2⟩

theorem visibleDataInv_step (t : State) (a : Action) (h : VisibleDataInv t) :
    VisibleDataInv (step t a) := by
  cases a with
  | clickAccusationNode nodeId => exact ⟨h.1, visibleData_empty _ _⟩
  | clickAccusationEdge edgeId => exact ⟨h.1, visibleData_empty _ _⟩
  | clickAccusationCanvas => exact h
  | clickTestimonyNode nodeId => exact h
  | clickTestimonyEdge edgeId => exact h
  | clickTestimonyCanvas => exact h
  | pressRole role =>
    exact iterate_invariant VisibleDataInv _ (visibleDataInv_roleListener role) 2 t h
  | pressShowAll => exact iterate_invariant VisibleDataInv _ visibleDataInv_showAllListener 2 t h
  | pressLabelFilter L =>
    exact iterate_invariant VisibleDataInv _ (visibleDataInv_labelFilterListener L) 6 t h
  | pressIdentityFilter identity => exact visibleDataInv_identityFilterListener identity t h

theorem visibleDataInv_run (actions : List Action) :
    ∀ s : State, VisibleDataInv s → VisibleDataInv (run s actions) := by
  induction actions with
  | nil => intro s h; exact h
  | cons a as ih => intro s h; exact ih (step s a) (visibleDataInv_step s a h)

theorem visibleData_drawGraph (peopleData : List Person) (data : GraphData) (b : Bool) :
    VisibleData (drawGraph peopleData data b).1.edges (drawGraph peopleData data b).2 := by
  have hagree : ∀ o ∈ (if b then preprocessEdges (refs data.edges) else refs data.edges),
      ∃ e, data.edges[o.addr]? = some e ∧ clearSmooth o.obj = clearSmooth e := by
    cases b with
    | true =>
      exact preprocessEdges_agrees_with_store data.edges (refs data.edges) (fun o ho => ho)
    | false =>
      intro o ho
      exact ⟨o.obj, (mem_refs data.edges o).1 ho, rfl⟩
  have hc : data.edges.map clearSmooth
      = (commit data.edges (if b then preprocessEdges (refs data.edges)
          else refs data.edges)).map clearSmooth :=
    (commit_map_clearSmooth data.edges _ hagree).symm
  exact visibleData_of_clear_eq _ _ _
    (visibleData_edgesWithEdgeIds data.edges _
      (drawGraph peopleData data b).2.nodes hagree) hc

theorem visibleDataInv_loadData (peopleData : List Person) (accusation testimony : GraphData) :
    VisibleDataInv (loadData peopleData accusation testimony) :=
  ⟨visibleData_drawGraph peopleData _ false, visibleData_drawGraph peopleData _ true⟩

/-- In a list whose edges carry the id `edge-i` of the stored edge `i` they refer
to, the search for the id `edge-i` finds an edge that refers to `i`, when there
is one. -/
theorem findById_of_stable (i : Nat) :
    ∀ D : List VisEdge, (∀ w ∈ D, w.id = some ("edge-" ++ toString w.originalData)) →
      i ∈ D.map VisEdge.originalData →
      ∃ w ∈ D, findById ("edge-" ++ toString i) D = some (some w) ∧ w.originalData = i := by
  intro D
  induction D with
  | nil => intro _ hi; exact absurd hi (by simp)
  | cons w rest ih =>
    intro hD hi
    have hw := hD w (List.mem_cons_self w rest)
    by_cases he : w.originalData = i
    · refine ⟨w, List.mem_cons_self w rest, ?_, he⟩
      simp [findById, hw, he]
    · have hi' : i ∈ rest.map VisEdge.originalData := by
        rw [List.map_cons, List.mem_cons] at hi
        rcases hi with hi | hi
        · exact absurd hi.symm he
        · exact hi
      obtain ⟨w', hw', hf, ha⟩ := ih (fun x hx => hD x (List.mem_cons_of_mem w hx)) hi'
      refine ⟨w', List.mem_cons_of_mem w hw', ?_, ha⟩
      have hne : ¬ ("edge-" ++ toString w.originalData = "edge-" ++ toString i) := by
        intro h
        exact he (edgeId_of_index_injective _ _ (congrArg some h))
      simp [findById, hw, hne, hf]

/-- C37: in every state reached from the load by any sequence of actions, every
visible edge of either graph carries an id, and a click on it never shows the
not-found message: the listener looks the id up in the edge list of the initial
draw and writes the display record of that same edge's data (for a testimony
edge the record of its label, accuser, accused, date, conclusion, text and
reference, for an accusation edge the record of its label). -/
theorem C37_click_on_a_visible_edge_is_found (peopleData : List Person)
    (accusation testimony : GraphData) (history : List Action) (v : VisEdge) :
    (v ∈ (run (loadData peopleData accusation testimony) history).testimonyGraph.edges →
      ∃ id, v.id = some id
        ∧ testimonyEdgeClick (loadData peopleData accusation testimony).testimonyGraph.edges
            (run (loadData peopleData accusation testimony) history) id
          = some (testimonyRecord peopleData v.edge))
    ∧ (v ∈ (run (loadData peopleData accusation testimony) history).accusationGraph.edges →
      ∃ id, v.id = some id
        ∧ accusationEdgeClick (loadData peopleData accusation testimony).accusationGraph.edges id
          = accusationRecord v.edge) := by
  have hstable0 := stableIds_loadData peopleData accusation testimony
  have hstable := stableIds_run history _ hstable0
  have hdata0 := visibleDataInv_loadData peopleData accusation testimony
  have hdata := visibleDataInv_run history _ hdata0
  have hframe := stores_unchanged_up_to_curvature (loadData peopleData accusation testimony)
    history peopleData accusation false
  have hpeople : (run (loadData peopleData accusation testimony) history).peopleData
      = peopleData := hframe.1.1.symm
  have hidsA0 := idsAreIngestionIds_of_visibleIds _ _ hstable0.1 hstable0.2.2.1
  have hidsT0 := idsAreIngestionIds_of_visibleIds _ _ hstable0.2.1 hstable0.2.2.2
  have hidsA := idsAreIngestionIds_of_visibleIds _ _ hstable.1 hstable.2.2.1
  have hidsT := idsAreIngestionIds_of_visibleIds _ _ hstable.2.1 hstable.2.2.2
  constructor
  · intro hv
    obtain ⟨hid, e, he, _⟩ := hidsT.1 v hv
    refine ⟨_, hid, ?_⟩
    -- the address of the visible edge occurs in the list of the initial draw
    have hlt : v.originalData < (assignEdgeIds testimony.edges).length := by
      have h1 : v.originalData
          < (run (loadData peopleData accusation testimony) history).fullTestimonyData.edges.length :=
        (List.getElem?_eq_some_iff.1 he).1
      have h2 := congrArg List.length hframe.2.2.1
      have h3 : (loadData peopleData accusation testimony).fullTestimonyData.edges.length
          = (assignEdgeIds testimony.edges).length := length_commit _ _
      simp only [List.length_map] at h2
      omega
    have hmem : v.originalData ∈ (loadData peopleData accusation
        testimony).testimonyGraph.edges.map VisEdge.originalData := by
      have hperm := preprocessEdges_perm_map EdgeRef.addr (fun _ => rfl)
        (refs (assignEdgeIds testimony.edges))
      rw [refs_map_addr] at hperm
      show v.originalData ∈ (edgesWithEdgeIds (preprocessEdges
        (refs (assignEdgeIds testimony.edges)))).map VisEdge.originalData
      rw [edgesWithEdgeIds_map_originalData]
      exact hperm.symm.subset (List.mem_range.2 hlt)
    obtain ⟨w, _, hfind, hwaddr⟩ := findById_of_stable v.originalData _
      (fun w hw => (hidsT0.1 w hw).1) hmem
    have hclear := hdata.2 v hv
    rw [List.getElem?_map, he] at hclear
    have hce : clearSmooth e = clearSmooth v.edge := by
      simpa using hclear
    unfold testimonyEdgeClick showTestimonyEdgeInfo
    rw [hfind, hpeople]
    simp only [Option.map_some', Option.some_bind, hwaddr, he]
    rw [← testimonyRecord_clearSmooth peopleData v.edge, ← hce]
    rfl
  · intro hv
    obtain ⟨hid, e, he, _⟩ := hidsA.1 v hv
    refine ⟨_, hid, ?_⟩
    have hlt : v.originalData < (assignEdgeIds accusation.edges).length := by
      have h1 : v.originalData
          < (run (loadData peopleData accusation testimony) history).fullAccusationData.edges.length :=
        (List.getElem?_eq_some_iff.1 he).1
      have h2 := congrArg List.length hframe.2.1
      have h3 : (loadData peopleData accusation testimony).fullAccusationData.edges.length
          = (assignEdgeIds accusation.edges).length := length_commit _ _
      simp only [List.length_map] at h2
      omega
    have hmem : v.originalData ∈ (loadData peopleData accusation
        testimony).accusationGraph.edges.map VisEdge.originalData := by
      show v.originalData ∈ (edgesWithEdgeIds
        (refs (assignEdgeIds accusation.edges))).map VisEdge.originalData
      rw [edgesWithEdgeIds_map_originalData, refs_map_addr]
      exact List.mem_range.2 hlt
    have hD : ∀ w ∈ (loadData peopleData accusation testimony).accusationGraph.edges,
        w.id = some ("edge-" ++ toString w.originalData) := fun w hw => (hidsA0.1 w hw).1
    obtain ⟨w, hw, hfind, hwaddr⟩ := findById_of_stable v.originalData _ hD hmem
    have hfind2 := findById_of_ids ("edge-" ++ toString v.originalData)
      (loadData peopleData accusation testimony).accusationGraph.edges
      (fun x hx => by rw [hD x hx]; simp)
    rw [hfind] at hfind2
    injection hfind2 with hfind2
    -- the edge found and the visible edge are copies of the same stored edge
    have hcw := hdata0.1 w hw
    have hcv := hdata.1 v hv
    rw [hframe.2.1, ← hwaddr, hcw] at hcv
    injection hcv with hcv
    unfold accusationEdgeClick showAccusationEdgeInfo
    rw [← hfind2]
    show accusationRecord w.edge = _
    rw [← accusationRecord_clearSmooth w.edge, hcv]
    rfl

theorem C37_click_on_a_visible_edge_is_found_witness :
    roleChosenState.testimonyGraph.edges.map VisEdge.id = [some "edge-0", some "edge-1"]
    ∧ ∃ id, some "edge-1" = some id
      ∧ testimonyEdgeClick exampleState.testimonyGraph.edges roleChosenState id
        = some (testimonyRecord examplePeople
            { from_ := "1", to_ := "2", label := "B", accuser := some "1",
              accused := some ["2", "3"], edgeId := some "edge-1", smooth := some (curve 1) }) :=
  ⟨by decide,
   (C37_click_on_a_visible_edge_is_found examplePeople
      { nodes := none, edges := exampleTestimony } { nodes := none, edges := exampleTestimony }
      [Action.clickAccusationNode "1", Action.pressRole Role.accuser,
        Action.pressLabelFilter allLabel]
      { edge := { from_ := "1", to_ := "2", label := "B", accuser := some "1",
                  accused := some ["2", "3"], edgeId := some "edge-1",
                  smooth := some (curve 1) },
        id := some "edge-1", originalData := 1 }).1 (by decide)⟩

end DualGraph
